import Mathlib

set_option maxHeartbeats 1000000
set_option linter.constructorNameAsVariable false

/-!
A shallow embedding of the AST-to-IR lowering pass of a small SysY (C-like)
compiler front end, covering the constant evaluator (`src/front/ir/eval.rs`)
and the IR generation pass (`src/front/ir.rs`).

Rust `i32` values are modelled as `Int` together with explicit range checks
(`checked_add` and friends return `Option Int`, mirroring Rust's checked
arithmetic).  The plain Rust negation `-x` is modelled as two's-complement
wrapping (`wrap32`), the release-mode behaviour of an unchecked Rust
arithmetic operation.

Components of the repository that are only declared, not present, in the
provided sources (the scope manager, the lowering context plumbing, the
initializer-list builder, `show_error`, `remove_pointer`) are modelled from
the specification; each such definition carries a doc comment saying so.
-/

/-! ## 32-bit integer helpers (Rust `i32` semantics) -/

def INT32_MIN : Int := -2147483648

def INT32_MAX : Int := 2147483647

/-- `z` fits in a signed 32-bit integer. -/
def inRange32 (z : Int) : Bool := decide (INT32_MIN ≤ z) && decide (z ≤ INT32_MAX)

/-- Two's-complement wrap of an integer into the `i32` range. -/
def wrap32 (z : Int) : Int := (z + 2147483648) % 4294967296 - 2147483648

/-- Rust `i32::checked_add`. -/
def checked_add (a b : Int) : Option Int :=
  if inRange32 (a + b) then some (a + b) else none

/-- Rust `i32::checked_sub`. -/
def checked_sub (a b : Int) : Option Int :=
  if inRange32 (a - b) then some (a - b) else none

/-- Rust `i32::checked_mul`. -/
def checked_mul (a b : Int) : Option Int :=
  if inRange32 (a * b) then some (a * b) else none

/-- Rust `i32::checked_div`: `none` on a zero divisor or on `i32::MIN / -1`.
Rust division truncates toward zero (`Int.tdiv`). -/
def checked_div (a b : Int) : Option Int :=
  if b = 0 ∨ (a = INT32_MIN ∧ b = -1) then none else some (a.tdiv b)

/-- Rust `i32::checked_rem`: `none` on a zero divisor or on `i32::MIN % -1`. -/
def checked_rem (a b : Int) : Option Int :=
  if b = 0 ∨ (a = INT32_MIN ∧ b = -1) then none else some (a.tmod b)

/-- The unchecked Rust negation `-x` used in `impl Eval for UnaryExpr`,
modelled as two's-complement wrapping (release-mode Rust semantics; a debug
build would abort on `-i32::MIN` — under neither semantics is an
`EvalError::Overflow` value produced). -/
def rust_neg (x : Int) : Int := wrap32 (-x)

/-! ## Koopa IR handles

Koopa `Value` and `BasicBlock` handles are opaque ids; we model both as
natural numbers drawn from per-function counters. -/

abbrev Value := Nat

abbrev BasicBlock := Nat

/-! ## Initializer lists and identifiers -/

/-- Modelled from the spec: the product of the Initializer-List Builder
(`initial_list.rs`, not among the provided sources) — a target shape plus a
fully zero-filled, flattened list of scalar values (§2, §4.6). -/
structure InitializeList where
  shape : List Int
  values : List Int
deriving Repr, DecidableEq

/-- Modelled from the spec: constant-index lookup into the flattened backing
store of a constant array (§4.1); out-of-range indexing is an
implementation-defined read of the flattened store, modelled as a default
of `0`. -/
def InitializeList.get_element (l : InitializeList) (indices : List Int) : Int :=
  let flat := (l.shape.zip indices).foldl (fun acc sd => acc * sd.1 + sd.2) 0
  l.values.getD flat.toNat 0

/-- `Identifier::Variable` payload (`ident.rs` is only declared in the
provided sources; the variants follow the spec's data model, §3). -/
structure VariableIdent where
  koopa_def : Value
deriving Repr, DecidableEq

/-- `Identifier::Constant` payload. -/
structure ConstantIdent where
  value : Int
deriving Repr, DecidableEq

/-- `Identifier::ConstArray` payload. -/
structure ConstArrayIdent where
  koopa_def : Value
  values : InitializeList
deriving Repr, DecidableEq

/-- Modelled from the spec (§3): a scope binding's resolved meaning. -/
inductive Identifier where
  | Variable : VariableIdent → Identifier
  | Constant : ConstantIdent → Identifier
  | ConstArray : ConstArrayIdent → Identifier
deriving Repr, DecidableEq

def Identifier.from_variable (v : Value) : Identifier := .Variable ⟨v⟩

def Identifier.from_constant (n : Int) : Identifier := .Constant ⟨n⟩

def Identifier.from_const_array (v : Value) (l : InitializeList) : Identifier :=
  .ConstArray ⟨v, l⟩

/-- `Identifier::koopa_def()`: the IR storage handle of a binding, `none` for
a folded scalar constant (used by assignment lowering). -/
def Identifier.koopa_def : Identifier → Option Value
  | .Variable v => some v.koopa_def
  | .Constant _ => none
  | .ConstArray a => some a.koopa_def

/-! ## Scope manager

Modelled from the spec (§4.2): a stack of lexical scopes, innermost first;
each scope is a pair of its id and its bindings.  `scope.rs` is not among
the provided sources. -/

abbrev Bindings := List (String × Identifier)

def lookupBindings : Bindings → String → Option Identifier
  | [], _ => none
  | (n, id) :: rest, name => if n = name then some id else lookupBindings rest name

structure Scope where
  stack : List (Nat × Bindings)
deriving Repr, DecidableEq

def lookupScopeStack : List (Nat × Bindings) → String → Option Identifier
  | [], _ => none
  | (_, binds) :: rest, name =>
    match lookupBindings binds name with
    | some id => some id
    | none => lookupScopeStack rest name

/-- Modelled from the spec: innermost-to-outermost name lookup, first match
wins (§4.2). -/
def Scope.get_identifier (s : Scope) (name : String) : Option Identifier :=
  lookupScopeStack s.stack name

/-- Modelled from the spec: declaration only checks the current (top) scope
for a collision; a collision is a `MultipleDefinition` error (§4.2),
modelled as the `Except` error case. -/
def Scope.add_identifier (s : Scope) (name : String) (id : Identifier) :
    Except Unit Scope :=
  match s.stack with
  | [] => .error ()
  | (sid, binds) :: rest =>
    if (lookupBindings binds name).isSome then .error ()
    else .ok ⟨(sid, (name, id) :: binds) :: rest⟩

/-- Modelled from the spec: push a scope keyed by a block id (§4.3). -/
def Scope.go_into_scoop (s : Scope) (id : Nat) : Scope := ⟨(id, []) :: s.stack⟩

/-- Modelled from the spec: pop the innermost scope. -/
def Scope.go_out_scoop (s : Scope) : Scope := ⟨s.stack.tail⟩

/-- Modelled from the spec: the id of the innermost scope (global scope id 0
at the bottom of the stack). -/
def Scope.current_scope_id (s : Scope) : Nat :=
  match s.stack with
  | [] => 0
  | (sid, _) :: _ => sid

/-- The initial scope: just the global scope, id 0. -/
def Scope.global : Scope := ⟨[(0, [])]⟩

/-! ## The AST (`front/ast.rs`, reconstructed from its use in the provided
sources: the expression grammar's precedence chain and the statement and
declaration node kinds). -/

inductive UnaryOp where
  | Pos | Neg | Not
deriving Repr, DecidableEq

inductive AddOp where
  | Add | Sub
deriving Repr, DecidableEq

inductive MulOp where
  | Mul | Div | Mod
deriving Repr, DecidableEq

inductive RelOp where
  | Lt | Gt | Le | Ge
deriving Repr, DecidableEq

inductive EqOp where
  | Eq | Ne
deriving Repr, DecidableEq

mutual

inductive Expr where
  | mk : LOrExpr → Expr

inductive LOrExpr where
  | LAndExpr : LAndExpr → LOrExpr
  | Or : LOrExpr → LAndExpr → LOrExpr

inductive LAndExpr where
  | EqExpr : EqExpr → LAndExpr
  | And : LAndExpr → EqExpr → LAndExpr

inductive EqExpr where
  | RelExpr : RelExpr → EqExpr
  | Eq : EqExpr → EqOp → RelExpr → EqExpr

inductive RelExpr where
  | AddExpr : AddExpr → RelExpr
  | Rel : RelExpr → RelOp → AddExpr → RelExpr

inductive AddExpr where
  | MulExpr : MulExpr → AddExpr
  | Add : AddExpr → AddOp → MulExpr → AddExpr

inductive MulExpr where
  | UnaryExpr : UnaryExpr → MulExpr
  | Mul : MulExpr → MulOp → UnaryExpr → MulExpr

inductive UnaryExpr where
  | PrimaryExpr : PrimaryExpr → UnaryExpr
  | FuncCall : FuncCall → UnaryExpr
  | Unary : UnaryOp → UnaryExpr → UnaryExpr

inductive PrimaryExpr where
  | Expr : Expr → PrimaryExpr
  | LVal : LVal → PrimaryExpr
  | Number : Int → PrimaryExpr

inductive LVal where
  | Var : String → LVal
  | ArrayElem : ArrayElem → LVal

inductive ArrayElem where
  | mk : String → List Expr → ArrayElem

inductive FuncCall where
  | mk : String → List Expr → FuncCall

end

def ArrayElem.name : ArrayElem → String
  | .mk n _ => n

def ArrayElem.indices : ArrayElem → List Expr
  | .mk _ l => l

def FuncCall.name : FuncCall → String
  | .mk n _ => n

def FuncCall.args : FuncCall → List Expr
  | .mk _ l => l

/-- `ConstExpr(pub Expr)`. -/
structure ConstExpr where
  val : Expr

/-! ## The constant evaluator (`src/front/ir/eval.rs`) -/

inductive EvalError where
  | DivisionByZero
  | Overflow
  | NotSupportedVariable
  | FunctionNotSupported
deriving Repr, DecidableEq

def to_bool (x : Int) : Bool := x ≠ 0

abbrev EvalResult := Except EvalError Int

/-- Rust `bool as i32`. -/
def boolToInt (b : Bool) : Int := if b then 1 else 0

/-- `impl Eval for i32`. -/
def Int.eval (n : Int) (_ : Scope) : EvalResult := .ok n

mutual

/-- `impl Eval for LOrExpr`: note that the Rust `||` between the two `?`-bearing
operands short-circuits — the right operand is not evaluated when the left
operand is a nonzero constant. -/
def LOrExpr.eval : LOrExpr → Scope → EvalResult
  | .LAndExpr a, s => a.eval s
  | .Or l r, s =>
    match l.eval s with
    | .error e => .error e
    | .ok lv =>
      if to_bool lv then .ok (boolToInt true)
      else
        match r.eval s with
        | .error e => .error e
        | .ok rv => .ok (boolToInt (to_bool rv))
termination_by e _ => sizeOf e

/-- `impl Eval for LAndExpr`: the Rust `&&` short-circuits symmetrically. -/
def LAndExpr.eval : LAndExpr → Scope → EvalResult
  | .EqExpr a, s => a.eval s
  | .And l r, s =>
    match l.eval s with
    | .error e => .error e
    | .ok lv =>
      if to_bool lv then
        match r.eval s with
        | .error e => .error e
        | .ok rv => .ok (boolToInt (to_bool rv))
      else .ok (boolToInt false)
termination_by e _ => sizeOf e

/-- `impl Eval for EqExpr`. -/
def EqExpr.eval : EqExpr → Scope → EvalResult
  | .RelExpr a, s => a.eval s
  | .Eq l op r, s =>
    match l.eval s with
    | .error e => .error e
    | .ok lv =>
      match r.eval s with
      | .error e => .error e
      | .ok rv =>
        match op with
        | .Eq => .ok (boolToInt (lv = rv))
        | .Ne => .ok (boolToInt (lv ≠ rv))
termination_by e _ => sizeOf e

/-- `impl Eval for RelExpr`. -/
def RelExpr.eval : RelExpr → Scope → EvalResult
  | .AddExpr a, s => a.eval s
  | .Rel l op r, s =>
    match l.eval s with
    | .error e => .error e
    | .ok lv =>
      match r.eval s with
      | .error e => .error e
      | .ok rv =>
        match op with
        | .Lt => .ok (boolToInt (lv < rv))
        | .Gt => .ok (boolToInt (lv > rv))
        | .Le => .ok (boolToInt (lv ≤ rv))
        | .Ge => .ok (boolToInt (lv ≥ rv))
termination_by e _ => sizeOf e

/-- `impl Eval for AddExpr`: checked add/sub, `None` becomes
`EvalError::Overflow`. -/
def AddExpr.eval : AddExpr → Scope → EvalResult
  | .MulExpr a, s => a.eval s
  | .Add l op r, s =>
    match l.eval s with
    | .error e => .error e
    | .ok lv =>
      match r.eval s with
      | .error e => .error e
      | .ok rv =>
        match op with
        | .Add =>
          match checked_add lv rv with
          | some v => .ok v
          | none => .error .Overflow
        | .Sub =>
          match checked_sub lv rv with
          | some v => .ok v
          | none => .error .Overflow
termination_by e _ => sizeOf e

/-- `impl Eval for MulExpr`: checked mul/div/rem; a `None` from
`checked_div`/`checked_rem` becomes `EvalError::DivisionByZero`, a `None`
from `checked_mul` becomes `EvalError::Overflow`. -/
def MulExpr.eval : MulExpr → Scope → EvalResult
  | .UnaryExpr a, s => a.eval s
  | .Mul l op r, s =>
    match l.eval s with
    | .error e => .error e
    | .ok lv =>
      match r.eval s with
      | .error e => .error e
      | .ok rv =>
        match op with
        | .Div =>
          match checked_div lv rv with
          | some v => .ok v
          | none => .error .DivisionByZero
        | .Mod =>
          match checked_rem lv rv with
          | some v => .ok v
          | none => .error .DivisionByZero
        | .Mul =>
          match checked_mul lv rv with
          | some v => .ok v
          | none => .error .Overflow
termination_by e _ => sizeOf e

/-- `impl Eval for UnaryExpr`: a function call is `FunctionNotSupported`;
negation is the unchecked Rust `-x`. -/
def UnaryExpr.eval : UnaryExpr → Scope → EvalResult
  | .PrimaryExpr a, s => a.eval s
  | .FuncCall _, _ => .error .FunctionNotSupported
  | .Unary op e, s =>
    match op with
    | .Neg => (e.eval s).map rust_neg
    | .Not => (e.eval s).map (fun x => if x = 0 then 1 else 0)
    | .Pos => e.eval s
termination_by e _ => sizeOf e

/-- `impl Eval for PrimaryExpr`. -/
def PrimaryExpr.eval : PrimaryExpr → Scope → EvalResult
  | .Expr e, s => e.eval s
  | .LVal l, s => l.eval s
  | .Number n, s => n.eval s
termination_by e _ => sizeOf e

/-- `impl Eval for Expr`. -/
def Expr.eval : Expr → Scope → EvalResult
  | .mk e, s => e.eval s
termination_by e _ => sizeOf e

/-- `impl Eval for LVal`: a plain variable must resolve to a `Constant`;
an array element must resolve to a `ConstArray`, its indices evaluated
recursively. -/
def LVal.eval : LVal → Scope → EvalResult
  | .Var v, s =>
    match s.get_identifier v with
    | none => .error .NotSupportedVariable
    | some id =>
      match id with
      | .Constant c => .ok c.value
      | _ => .error .NotSupportedVariable
  | .ArrayElem (.mk nm idxs), s =>
    match s.get_identifier nm with
    | none => .error .NotSupportedVariable
    | some id =>
      match id with
      | .ConstArray ca =>
        match evalExprList idxs s with
        | .error e => .error e
        | .ok indices => .ok (ca.values.get_element indices)
      | _ => .error .NotSupportedVariable
termination_by e _ => sizeOf e

/-- The `collect::<Result<Vec<_>, _>>()` over a list of index expressions. -/
def evalExprList : List Expr → Scope → Except EvalError (List Int)
  | [], _ => .ok []
  | e :: es, s =>
    match e.eval s with
    | .error err => .error err
    | .ok v =>
      match evalExprList es s with
      | .error err => .error err
      | .ok vs => .ok (v :: vs)
termination_by l _ => sizeOf l

end

/-- `impl Eval for ConstExpr`. -/
def ConstExpr.eval (c : ConstExpr) (s : Scope) : EvalResult := c.val.eval s

/-! Literal-lifting helpers for concrete test inputs. -/

def numPrimary (n : Int) : PrimaryExpr := .Number n

def numUnary (n : Int) : UnaryExpr := .PrimaryExpr (numPrimary n)

def numMul (n : Int) : MulExpr := .UnaryExpr (numUnary n)

def numAdd (n : Int) : AddExpr := .MulExpr (numMul n)

def numRel (n : Int) : RelExpr := .AddExpr (numAdd n)

def numEq (n : Int) : EqExpr := .RelExpr (numRel n)

def numLAnd (n : Int) : LAndExpr := .EqExpr (numEq n)

def numLOr (n : Int) : LOrExpr := .LAndExpr (numLAnd n)

def numExpr (n : Int) : Expr := .mk (numLOr n)

example : (numExpr 7).eval Scope.global = .ok 7 := by
  simp [numExpr, numLOr, numLAnd, numEq, numRel, numAdd, numMul, numUnary, numPrimary,
    Expr.eval, LOrExpr.eval, LAndExpr.eval, EqExpr.eval, RelExpr.eval, AddExpr.eval,
    MulExpr.eval, UnaryExpr.eval, PrimaryExpr.eval, Int.eval]

example : (LOrExpr.Or (numLOr 0) (numLAnd 5)).eval Scope.global = .ok 1 := by
  simp [numLOr, numLAnd, numEq, numRel, numAdd, numMul, numUnary, numPrimary,
    Expr.eval, LOrExpr.eval, LAndExpr.eval, EqExpr.eval, RelExpr.eval, AddExpr.eval,
    MulExpr.eval, UnaryExpr.eval, PrimaryExpr.eval, Int.eval, to_bool, boolToInt]

example :
    (MulExpr.Mul (numMul 1) .Div (numUnary 0)).eval Scope.global
      = .error .DivisionByZero := by
  simp [numMul, numUnary, numPrimary, MulExpr.eval, UnaryExpr.eval, PrimaryExpr.eval,
    Int.eval, checked_div]

/-! ## The Koopa IR data model

`koopa` is an external library; we model exactly the slice of its builder
API that `ir.rs` uses: typed values created through `new_value!`, basic
blocks registered through `add_bb!`, and instructions appended to a block's
ordered instruction list through `add_inst!`.  A `Value` is an id into the
current function's data-flow graph (or the program's global value arena);
ids are drawn from one compilation-wide counter so the two arenas never
collide, mirroring koopa's globally unique handles. -/

inductive Ty where
  | i32
  | unit
  | array (elem : Ty) (len : Nat)
  | pointer (base : Ty)
deriving Repr, DecidableEq

/-- Modelled from the spec: `crate::util::remove_pointer` (not among the
provided sources) strips one pointer layer from a type (glossary:
element-address vs pointer-step addressing both start from the pointee of
the current address). -/
def remove_pointer : Ty → Ty
  | .pointer t => t
  | t => t

inductive BinaryOp where
  | NotEq | Eq | Gt | Lt | Ge | Le | Add | Sub | Mul | Div | Mod
deriving Repr, DecidableEq

/-- `impl From<AddOp> for BinaryOp`. -/
def AddOp.into : AddOp → BinaryOp
  | .Add => .Add
  | .Sub => .Sub

/-- `impl From<MulOp> for BinaryOp`. -/
def MulOp.into : MulOp → BinaryOp
  | .Mul => .Mul
  | .Div => .Div
  | .Mod => .Mod

/-- `impl From<RelOp> for BinaryOp`. -/
def RelOp.into : RelOp → BinaryOp
  | .Lt => .Lt
  | .Gt => .Gt
  | .Le => .Le
  | .Ge => .Ge

/-- `impl From<EqOp> for BinaryOp`. -/
def EqOp.into : EqOp → BinaryOp
  | .Eq => .Eq
  | .Ne => .NotEq

/-- The koopa value kinds that `ir.rs` builds. -/
inductive ValueData where
  | integer (n : Int)
  | alloc (ty : Ty)
  | global_alloc (init : Value)
  | load (src : Value)
  | store (val : Value) (dst : Value)
  | binary (op : BinaryOp) (lhs rhs : Value)
  | branch (cond : Value) (true_bb false_bb : BasicBlock)
  | jump (target : BasicBlock)
  | ret (val : Option Value)
  | call (callee : Nat) (args : List Value)
  | get_ptr (base index : Value)
  | get_elem_ptr (base index : Value)
  | aggregate (elems : List Int)
  | func_arg_ref (index : Nat)
deriving Repr, DecidableEq

/-- A terminator instruction: return, branch, or jump. -/
def ValueData.is_terminator : ValueData → Bool
  | .branch _ _ _ => true
  | .jump _ => true
  | .ret _ => true
  | _ => false

/-- One function under construction: its data-flow graph (`vals`), value
names, and its layout of basic blocks, each an ordered instruction list.
`nextBB` is the per-function basic-block id counter. -/
structure FuncData where
  name : String
  params : List Value
  ret_ty : Ty
  vals : List (Value × ValueData × Ty) := []
  names : List (Value × String) := []
  blocks : List (BasicBlock × List Value) := []
  nextBB : Nat := 0
deriving Repr, DecidableEq

/-- The IR program: global values plus the functions built so far. -/
structure Program where
  vals : List (Value × ValueData × Ty) := []
  names : List (Value × String) := []
  funcs : List (Nat × FuncData) := []
  nextFunc : Nat := 0
deriving Repr, DecidableEq

/-- A loop frame on the loop stack (`add_while_info`). -/
structure WhileInfo where
  start_bb : BasicBlock
  end_bb : BasicBlock
deriving Repr, DecidableEq

/-- `front::ir::ParseError`. -/
inductive ParseError where
  | InvalidExpr
  | FunctionNotFound
  | BasicBlockNotFound
  | UnknownIdentifier
  | ConstExprError
  | BreakOutsideLoop
  | ContinueOutsideLoop
  | MultipleDefinition
deriving Repr, DecidableEq

/-- Modelled from the spec: the Lowering Context (`context.rs` is only
declared in the provided sources; the fields follow §3's `LoweringContext`
data model, which the uses in `ir.rs` confirm).  `next_value_id` is the
compilation-wide value-id counter. -/
structure Context where
  program : Program
  func : Option Nat
  scope : Scope
  func_table : List (String × Nat)
  current_bb : Option BasicBlock
  while_stack : List WhileInfo
  temp_count : Nat
  next_value_id : Nat
deriving Repr, DecidableEq

/-- The result of one lowering step: a value threaded with the updated
context, a propagated `ParseError`, or a fatal `show_error` exit with the
given process exit code. -/
inductive MRes (α : Type) where
  | ok (a : α) (ctx : Context)
  | err (e : ParseError)
  | fatal (code : Nat)
deriving Repr

abbrev M (α : Type) := Context → MRes α

/-- Modelled from the spec: `util::logger::show_error` prints a diagnostic
and terminates the whole compilation with a nonzero exit status (§7); in
the embedding it is the `fatal` outcome, which every subsequent step
propagates. -/
def show_error (_msg : String) (code : Nat) : M α := fun _ => .fatal code

def assocUpdate (l : List (Nat × β)) (k : Nat) (b : β) : List (Nat × β) :=
  l.map (fun p => if p.1 = k then (k, b) else p)

/-- Append an instruction to a block's ordered instruction list
(the `add_inst!` macro; a no-op on an unregistered block). -/
def FuncData.add_inst (fd : FuncData) (bb : BasicBlock) (v : Value) : FuncData :=
  { fd with blocks := fd.blocks.map (fun p => if p.1 = bb then (p.1, p.2 ++ [v]) else p) }

/-- Register a basic block in the function layout (the `add_bb!` macro). -/
def FuncData.add_bb (fd : FuncData) (bb : BasicBlock) : FuncData :=
  { fd with blocks := fd.blocks ++ [(bb, [])] }

def FuncData.block_insts (fd : FuncData) (bb : BasicBlock) : List Value :=
  (fd.blocks.lookup bb).getD []

def FuncData.inst_is_term (fd : FuncData) (v : Value) : Bool :=
  match fd.vals.lookup v with
  | some (d, _) => d.is_terminator
  | none => false

/-- Modelled from the spec: termination-tracking — "does this block already
end in a return/branch/jump" (§4.3). -/
def FuncData.block_ended_b (fd : FuncData) (bb : BasicBlock) : Bool :=
  match (fd.block_insts bb).getLast? with
  | some v => fd.inst_is_term v
  | none => false

/-- `ctx.func_data()` / `ctx.func_data_mut()`: the current function's data,
or a lowering failure when no function is being lowered. -/
def Context.func_data (ctx : Context) : Except ParseError FuncData :=
  match ctx.func with
  | none => .error .FunctionNotFound
  | some k =>
    match ctx.program.funcs.lookup k with
    | none => .error .FunctionNotFound
    | some fd => .ok fd

/-- Write back the current function's data. -/
def Context.setFD (ctx : Context) (fd : FuncData) : Context :=
  match ctx.func with
  | none => ctx
  | some k => { ctx with program := { ctx.program with funcs := assocUpdate ctx.program.funcs k fd } }

/-- `ctx.get_func()`. -/
def Context.get_func (ctx : Context) : Except ParseError Nat :=
  match ctx.func with
  | none => .error .FunctionNotFound
  | some k => .ok k

/-- Modelled from the spec: `ctx.get_bb()` — the current insertion block, or
the "reference to a basic block context when none is open" failure (§7). -/
def Context.get_bb (ctx : Context) : Except ParseError BasicBlock :=
  match ctx.current_bb with
  | none => .error .BasicBlockNotFound
  | some bb => .ok bb

/-- `ctx.is_global()`: no function is currently being lowered. -/
def Context.is_global (ctx : Context) : Bool := ctx.func.isNone

/-- Value-type lookup across the current function's data-flow graph and the
program's global arena (koopa stores a type with every created value). -/
def Context.valueTyOf (ctx : Context) (v : Value) : Ty :=
  match ctx.func_data with
  | .ok fd =>
    match fd.vals.lookup v with
    | some (_, ty) => ty
    | none => ((ctx.program.vals.lookup v).map (·.2)).getD .unit
  | .error _ => ((ctx.program.vals.lookup v).map (·.2)).getD .unit

/-- The type a koopa builder assigns to a newly created value. -/
def Context.computeTy (ctx : Context) (d : ValueData) : Ty :=
  match d with
  | .integer _ => .i32
  | .alloc ty => .pointer ty
  | .global_alloc init => .pointer (ctx.valueTyOf init)
  | .load src => remove_pointer (ctx.valueTyOf src)
  | .store _ _ => .unit
  | .binary _ _ _ => .i32
  | .branch _ _ _ => .unit
  | .jump _ => .unit
  | .ret _ => .unit
  | .call callee _ =>
    match ctx.program.funcs.lookup callee with
    | some fd => fd.ret_ty
    | none => .i32
  | .get_ptr base _ => ctx.valueTyOf base
  | .get_elem_ptr base _ =>
    match ctx.valueTyOf base with
    | .pointer (.array t _) => .pointer t
    | t => t
  | .aggregate _ => .unit
  | .func_arg_ref _ => .i32

/-- `new_value!(ctx.func_data_mut()?)` followed by one builder call: create
a typed value in the current function's data-flow graph. -/
def ctxNewValue (d : ValueData) : M Value := fun ctx =>
  match ctx.func_data with
  | .error e => .err e
  | .ok fd =>
    let v := ctx.next_value_id
    let ty := ctx.computeTy d
    .ok v { ctx.setFD { fd with vals := (v, d, ty) :: fd.vals } with next_value_id := v + 1 }

/-- `ctx.program.new_value()` followed by one builder call: create a typed
value in the program's global arena. -/
def Context.newGlobalValue (ctx : Context) (d : ValueData) : Value × Context :=
  let v := ctx.next_value_id
  let ty := ctx.computeTy d
  (v, { ctx with
          program := { ctx.program with vals := (v, d, ty) :: ctx.program.vals },
          next_value_id := v + 1 })

/-- `ctx.program.set_value_name`. -/
def Context.setGlobalValueName (ctx : Context) (v : Value) (name : String) : Context :=
  { ctx with program := { ctx.program with names := (v, name) :: ctx.program.names } }

/-- `func_data.dfg_mut().set_value_name`. -/
def ctxSetValueName (v : Value) (name : String) : M Unit := fun ctx =>
  match ctx.func_data with
  | .error e => .err e
  | .ok fd => .ok () (ctx.setFD { fd with names := (v, name) :: fd.names })

/-- The `add_inst!` macro at context level. -/
def ctxAddInst (bb : BasicBlock) (v : Value) : M Unit := fun ctx =>
  match ctx.func_data with
  | .error e => .err e
  | .ok fd => .ok () (ctx.setFD (fd.add_inst bb v))

/-- The `add_bb!` macro at context level. -/
def ctxAddBB (bb : BasicBlock) : M Unit := fun ctx =>
  match ctx.func_data with
  | .error e => .err e
  | .ok fd => .ok () (ctx.setFD (fd.add_bb bb))

/-- Modelled from the spec: `ctx.new_bb()` — block creation is a pure
builder primitive (§1 "IR builder primitives (block/value/type creation)");
the block is only laid out once `add_bb!` registers it. -/
def ctxNewBB : M BasicBlock := fun ctx =>
  match ctx.func_data with
  | .error e => .err e
  | .ok fd => .ok fd.nextBB (ctx.setFD { fd with nextBB := fd.nextBB + 1 })

/-- `ctx.current_bb = Some(bb)`. -/
def setCurrentBB (bb : BasicBlock) : M Unit := fun ctx =>
  .ok () { ctx with current_bb := some bb }

/-- `ctx.block_ended(bb)?`. -/
def ctxBlockEnded (bb : BasicBlock) : M Bool := fun ctx =>
  match ctx.func_data with
  | .error e => .err e
  | .ok fd => .ok (fd.block_ended_b bb) ctx

/-- Modelled from the spec: `ctx.end_block(bb, target)` — "after each arm,
if its exit block is not already terminated, insert a jump to end" (§4.3);
the termination query guards against double-terminating a block. -/
def ctxEndBlock (bb target : BasicBlock) : M Unit := fun ctx =>
  match ctx.func_data with
  | .error e => .err e
  | .ok fd =>
    if fd.block_ended_b bb then .ok () ctx
    else
      match ctxNewValue (.jump target) ctx with
      | .ok v ctx' => ctxAddInst bb v ctx'
      | .err e => .err e
      | .fatal c => .fatal c

/-- Modelled from the spec: the top frame of the loop stack (§4.3). -/
def Context.get_while_info (ctx : Context) : Option WhileInfo :=
  ctx.while_stack.head?

/-- Modelled from the spec: push a loop frame on loop entry. -/
def ctxAddWhileInfo (start_bb end_bb : BasicBlock) : M Unit := fun ctx =>
  .ok () { ctx with while_stack := ⟨start_bb, end_bb⟩ :: ctx.while_stack }

/-- Modelled from the spec: pop the loop stack on loop exit. -/
def ctxPopWhileInfo : M Unit := fun ctx =>
  .ok () { ctx with while_stack := ctx.while_stack.tail }

/-- `ctx.temp_value_name()`: a fresh synthesized name from the monotonic
temporary counter. -/
def ctxTempValueName : M String := fun ctx =>
  .ok ("@_temp_" ++ toString ctx.temp_count) { ctx with temp_count := ctx.temp_count + 1 }

/-! ## The lowering monad -/

instance : Monad M where
  pure := fun a ctx => .ok a ctx
  bind := fun x f ctx =>
    match x ctx with
    | .ok a ctx' => f a ctx'
    | .err e => .err e
    | .fatal c => .fatal c

/-- The `?` operator on a `ParseError`. -/
def mthrow (e : ParseError) : M α := fun _ => .err e

def mGetBB : M BasicBlock := fun ctx =>
  match ctx.get_bb with
  | .ok bb => .ok bb ctx
  | .error e => .err e

def mGetFunc : M Nat := fun ctx =>
  match ctx.get_func with
  | .ok k => .ok k ctx
  | .error e => .err e

def mIsGlobal : M Bool := fun ctx => .ok ctx.is_global ctx

def mCurrentScopeId : M Nat := fun ctx => .ok ctx.scope.current_scope_id ctx

def mGetIdentifier (name : String) : M (Option Identifier) := fun ctx =>
  .ok (ctx.scope.get_identifier name) ctx

/-- `ctx.scope.add_identifier(...)`: `true` on success, `false` on a
same-scope collision (the caller decides how to react). -/
def scopeAddIdentifier (name : String) (id : Identifier) : M Bool := fun ctx =>
  match ctx.scope.add_identifier name id with
  | .ok s => .ok true { ctx with scope := s }
  | .error _ => .ok false ctx

def mScopeInto (id : Nat) : M Unit := fun ctx =>
  .ok () { ctx with scope := ctx.scope.go_into_scoop id }

def mScopeOut : M Unit := fun ctx =>
  .ok () { ctx with scope := ctx.scope.go_out_scoop }

def mEvalExpr (e : Expr) : M EvalResult := fun ctx => .ok (e.eval ctx.scope) ctx

def mEvalConst (c : ConstExpr) : M EvalResult := fun ctx => .ok (c.eval ctx.scope) ctx

def mNewGlobalValue (d : ValueData) : M Value := fun ctx =>
  let (v, ctx') := ctx.newGlobalValue d
  .ok v ctx'

def mSetGlobalValueName (v : Value) (name : String) : M Unit := fun ctx =>
  .ok () (ctx.setGlobalValueName v name)

/-- `fn get_type(value, ctx)`: query the current function's data-flow graph
first, the program's global arena otherwise (a handle absent from both —
which `borrow_value` would reject — defaults to the unit type). -/
def get_type (value : Value) : M Ty := fun ctx =>
  match ctx.func_data with
  | .ok fd =>
    match fd.vals.lookup value with
    | some (_, ty) => .ok ty ctx
    | none => .ok (((ctx.program.vals.lookup value).map (·.2)).getD .unit) ctx
  | .error _ => .ok (((ctx.program.vals.lookup value).map (·.2)).getD .unit) ctx

/-- `ctx.func_data_mut()?.dfg().value(v).ty()`: the type of a value of the
current function's data-flow graph only. -/
def mFuncValueTy (v : Value) : M Ty := fun ctx =>
  match ctx.func_data with
  | .error e => .err e
  | .ok fd => .ok (((fd.vals.lookup v).map (·.2)).getD .unit) ctx

/-! ## Expression lowering (`impl GenerateIR for ...` in `src/front/ir.rs`) -/

/-- `impl GenerateIR for i32`. -/
def Int.generate_ir (n : Int) : M Value := ctxNewValue (.integer n)

/-- The per-dimension body of `get_array_type` on already-evaluated
dimensions (`<i32 as Eval>::eval` is the identity): every dimension must be
positive, otherwise `show_error("Array size must be greater than 0", 2)`
aborts the compilation. -/
def get_array_type_dims (dims : List Int) : M Ty := fun ctx =>
  if dims.all (fun v => 0 < v) then
    .ok (dims.foldr (fun v t => Ty.array t v.toNat) .i32) ctx
  else .fatal 2

/-- `fn get_array_type` on a shape of constant expressions:
`i.eval(scope).unwrap_or(0)` per dimension, then the same positivity
check. -/
def get_array_type (shape : List ConstExpr) : M Ty := fun ctx =>
  get_array_type_dims (shape.map (fun c => (c.eval ctx.scope).toOption.getD 0)) ctx

/-- The index-walking loop of `fn get_array_pos`: at each step the current
pointee type decides between load-then-`get_ptr` (pointer base) and direct
`get_elem_ptr` (array base). -/
def getArrayPosLoop : Value → List Value → M Value
  | result, [] => pure result
  | result, index :: rest => do
    let bb ← mGetBB
    let result_type ← get_type result
    let result_type := remove_pointer result_type
    let array_elem ←
      match result_type with
      | .pointer _ => do
        let load ← ctxNewValue (.load result)
        ctxAddInst bb load
        ctxNewValue (.get_ptr load index)
      | _ => ctxNewValue (.get_elem_ptr result index)
    ctxAddInst bb array_elem
    getArrayPosLoop array_elem rest

mutual

/-- `impl GenerateIR for Expr`. -/
def Expr.generate_ir : Expr → M Value
  | .mk e => e.generate_ir
termination_by e => sizeOf e

/-- `impl GenerateIR for LOrExpr`: the short-circuit alloc/store/branch/load
idiom. -/
def LOrExpr.generate_ir : LOrExpr → M Value
  | .LAndExpr and_expr => and_expr.generate_ir
  | .Or lhs rhs => do
    let lhsv ← lhs.generate_ir
    let result ← ctxNewValue (.alloc .i32)
    let result_name ← ctxTempValueName
    ctxSetValueName result result_name
    let current_bb ← mGetBB
    ctxAddInst current_bb result
    let zero ← Int.generate_ir 0
    let lhs2 ← ctxNewValue (.binary .NotEq lhsv zero)
    ctxAddInst current_bb lhs2
    let store ← ctxNewValue (.store lhs2 result)
    ctxAddInst current_bb store
    let end_bb ← ctxNewBB
    let false_bb ← ctxNewBB
    let load ← ctxNewValue (.load result)
    ctxAddInst current_bb load
    let branch ← ctxNewValue (.branch load end_bb false_bb)
    ctxAddInst current_bb branch
    ctxAddBB false_bb
    setCurrentBB false_bb
    let rhsv ← rhs.generate_ir
    let current_bb2 ← mGetBB
    let zero2 ← Int.generate_ir 0
    let rhs2 ← ctxNewValue (.binary .NotEq rhsv zero2)
    ctxAddInst current_bb2 rhs2
    let store2 ← ctxNewValue (.store rhs2 result)
    ctxAddInst current_bb2 store2
    let jump ← ctxNewValue (.jump end_bb)
    ctxAddInst current_bb2 jump
    ctxAddBB end_bb
    setCurrentBB end_bb
    let load_res ← ctxNewValue (.load result)
    ctxAddInst end_bb load_res
    pure load_res
termination_by e => sizeOf e

/-- `impl GenerateIR for LAndExpr`: symmetric to `LOrExpr`. -/
def LAndExpr.generate_ir : LAndExpr → M Value
  | .EqExpr eq_expr => eq_expr.generate_ir
  | .And lhs rhs => do
    let lhsv ← lhs.generate_ir
    let result ← ctxNewValue (.alloc .i32)
    let result_name ← ctxTempValueName
    ctxSetValueName result result_name
    let current_bb ← mGetBB
    ctxAddInst current_bb result
    let zero ← Int.generate_ir 0
    let lhs2 ← ctxNewValue (.binary .NotEq lhsv zero)
    ctxAddInst current_bb lhs2
    let store ← ctxNewValue (.store lhs2 result)
    ctxAddInst current_bb store
    let end_bb ← ctxNewBB
    let true_bb ← ctxNewBB
    let load ← ctxNewValue (.load result)
    ctxAddInst current_bb load
    let branch ← ctxNewValue (.branch load true_bb end_bb)
    ctxAddInst current_bb branch
    ctxAddBB true_bb
    setCurrentBB true_bb
    let rhsv ← rhs.generate_ir
    let current_bb2 ← mGetBB
    let zero2 ← Int.generate_ir 0
    let rhs2 ← ctxNewValue (.binary .NotEq rhsv zero2)
    ctxAddInst current_bb2 rhs2
    let store2 ← ctxNewValue (.store rhs2 result)
    ctxAddInst current_bb2 store2
    let jump ← ctxNewValue (.jump end_bb)
    ctxAddInst current_bb2 jump
    ctxAddBB end_bb
    setCurrentBB end_bb
    let load_res ← ctxNewValue (.load result)
    ctxAddInst end_bb load_res
    pure load_res
termination_by e => sizeOf e

/-- `impl GenerateIR for EqExpr`. -/
def EqExpr.generate_ir : EqExpr → M Value
  | .RelExpr e => e.generate_ir
  | .Eq lhs op rhs => do
    let lhsv ← lhs.generate_ir
    let rhsv ← rhs.generate_ir
    let current_bb ← mGetBB
    let value ← ctxNewValue (.binary op.into lhsv rhsv)
    ctxAddInst current_bb value
    pure value
termination_by e => sizeOf e

/-- `impl GenerateIR for RelExpr`. -/
def RelExpr.generate_ir : RelExpr → M Value
  | .AddExpr e => e.generate_ir
  | .Rel lhs op rhs => do
    let lhsv ← lhs.generate_ir
    let rhsv ← rhs.generate_ir
    let current_bb ← mGetBB
    let value ← ctxNewValue (.binary op.into lhsv rhsv)
    ctxAddInst current_bb value
    pure value
termination_by e => sizeOf e

/-- `impl GenerateIR for AddExpr`. -/
def AddExpr.generate_ir : AddExpr → M Value
  | .MulExpr e => e.generate_ir
  | .Add lhs op rhs => do
    let lhsv ← lhs.generate_ir
    let rhsv ← rhs.generate_ir
    let current_bb ← mGetBB
    let value ← ctxNewValue (.binary op.into lhsv rhsv)
    ctxAddInst current_bb value
    pure value
termination_by e => sizeOf e

/-- `impl GenerateIR for MulExpr`. -/
def MulExpr.generate_ir : MulExpr → M Value
  | .UnaryExpr e => e.generate_ir
  | .Mul lhs op rhs => do
    let lhsv ← lhs.generate_ir
    let rhsv ← rhs.generate_ir
    let current_bb ← mGetBB
    let value ← ctxNewValue (.binary op.into lhsv rhsv)
    ctxAddInst current_bb value
    pure value
termination_by e => sizeOf e

/-- `impl GenerateIR for UnaryExpr`: `+` is the identity, `-x` is `0 - x`,
`!x` is `x == 0`. -/
def UnaryExpr.generate_ir : UnaryExpr → M Value
  | .PrimaryExpr e => e.generate_ir
  | .FuncCall f => f.generate_ir
  | .Unary op e => do
    let expr ← e.generate_ir
    let current_bb ← mGetBB
    let zero ← ctxNewValue (.integer 0)
    match op with
    | .Pos => pure expr
    | .Neg => do
      let value ← ctxNewValue (.binary .Sub zero expr)
      ctxAddInst current_bb value
      pure value
    | .Not => do
      let value ← ctxNewValue (.binary .Eq expr zero)
      ctxAddInst current_bb value
      pure value
termination_by e => sizeOf e

/-- `impl GenerateIR for PrimaryExpr`. -/
def PrimaryExpr.generate_ir : PrimaryExpr → M Value
  | .Expr e => e.generate_ir
  | .LVal l => l.generate_ir
  | .Number n => n.generate_ir
termination_by e => sizeOf e

/-- `impl GenerateIR for FuncCall`: arguments left-to-right, callee resolved
in the flat function table. -/
def FuncCall.generate_ir : FuncCall → M Value
  | .mk nm args => do
    let param_values ← genExprList args
    let func ← (fun ctx =>
      match ctx.func_table.lookup nm with
      | some f => MRes.ok f ctx
      | none => MRes.err .FunctionNotFound)
    let ret_val ← ctxNewValue (.call func param_values)
    let current_bb ← mGetBB
    ctxAddInst current_bb ret_val
    pure ret_val
termination_by f => sizeOf f

/-- `fn get_array_pos`: lower the index expressions, resolve the array
identifier (a `Variable` or a `ConstArray`), then walk the index chain. -/
def get_array_pos : ArrayElem → M Value
  | .mk nm idxs => do
    let indices ← genExprList idxs
    let ident ← mGetIdentifier nm
    let array ←
      match ident with
      | none => mthrow .UnknownIdentifier
      | some (.Variable var) => pure var.koopa_def
      | some (.ConstArray ca) => pure ca.koopa_def
      | some _ => mthrow .InvalidExpr
    getArrayPosLoop array indices
termination_by ae => sizeOf ae

/-- `impl GenerateIR for LVal`: reading a whole array-typed variable decays
to a zero-index `get_elem_ptr`; a scalar variable is loaded; a constant is
materialized as a literal; an array element goes through `get_array_pos`
and is loaded if it is a scalar, decayed otherwise. -/
def LVal.generate_ir : LVal → M Value
  | .Var var => do
    let ident ← mGetIdentifier var
    match ident with
    | none => mthrow .UnknownIdentifier
    | some (.Variable v) => do
      let bb ← mGetBB
      let var_def := v.koopa_def
      let ty ← get_type var_def
      let ty := remove_pointer ty
      match ty with
      | .array _ _ => do
        let zero ← Int.generate_ir 0
        let load ← ctxNewValue (.get_elem_ptr var_def zero)
        ctxAddInst bb load
        pure load
      | _ => do
        let load ← ctxNewValue (.load var_def)
        ctxAddInst bb load
        pure load
    | some (.Constant c) => c.value.generate_ir
    | some _ => mthrow .InvalidExpr
  | .ArrayElem ae => do
    let pos ← get_array_pos ae
    let pos_type ← mFuncValueTy pos
    let target_type := remove_pointer pos_type
    match target_type with
    | .i32 => do
      let load ← ctxNewValue (.load pos)
      let bb ← mGetBB
      ctxAddInst bb load
      pure load
    | _ => do
      let zero ← Int.generate_ir 0
      let load ← ctxNewValue (.get_elem_ptr pos zero)
      let bb ← mGetBB
      ctxAddInst bb load
      pure load
termination_by l => sizeOf l

/-- The `collect::<Result<Vec<Value>, _>>()` over argument/index
expressions, left to right. -/
def genExprList : List Expr → M (List Value)
  | [] => pure []
  | e :: es => do
    let v ← e.generate_ir
    let vs ← genExprList es
    pure (v :: vs)
termination_by l => sizeOf l

end

/-- The common shape of the `LOrExpr::Or` and `LAndExpr::And` lowerings:
they differ only in the operand order of the conditional branch, abstracted
here as `brf` (applied to the loaded guard, the end block and the second
block). -/
def scBody (lhsGen rhsGen : M Value)
    (brf : Value → BasicBlock → BasicBlock → ValueData) : M Value := do
  let lhsv ← lhsGen
  let result ← ctxNewValue (.alloc .i32)
  let result_name ← ctxTempValueName
  ctxSetValueName result result_name
  let current_bb ← mGetBB
  ctxAddInst current_bb result
  let zero ← Int.generate_ir 0
  let lhs2 ← ctxNewValue (.binary .NotEq lhsv zero)
  ctxAddInst current_bb lhs2
  let store ← ctxNewValue (.store lhs2 result)
  ctxAddInst current_bb store
  let end_bb ← ctxNewBB
  let snd_bb ← ctxNewBB
  let load ← ctxNewValue (.load result)
  ctxAddInst current_bb load
  let branch ← ctxNewValue (brf load end_bb snd_bb)
  ctxAddInst current_bb branch
  ctxAddBB snd_bb
  setCurrentBB snd_bb
  let rhsv ← rhsGen
  let current_bb2 ← mGetBB
  let zero2 ← Int.generate_ir 0
  let rhs2 ← ctxNewValue (.binary .NotEq rhsv zero2)
  ctxAddInst current_bb2 rhs2
  let store2 ← ctxNewValue (.store rhs2 result)
  ctxAddInst current_bb2 store2
  let jump ← ctxNewValue (.jump end_bb)
  ctxAddInst current_bb2 jump
  ctxAddBB end_bb
  setCurrentBB end_bb
  let load_res ← ctxNewValue (.load result)
  ctxAddInst end_bb load_res
  pure load_res

/-- `impl GenerateIR for ConstExpr`: fold the expression, then materialize
the literal in the current function (or the global arena at global
scope). -/
def ConstExpr.generate_ir (c : ConstExpr) : M Value := fun ctx =>
  match c.val.eval ctx.scope with
  | .error _ => .err .InvalidExpr
  | .ok val =>
    match ctx.get_func with
    | .ok _ => ctxNewValue (.integer val) ctx
    | .error _ => (mNewGlobalValue (.integer val)) ctx

/-! ## Declarations (`VarDef`, `ConstDef`, `Decl`) -/

/-- `ExprArray`: a (possibly nested) array initializer of expressions. -/
inductive ExprArray where
  | Val (e : Expr)
  | Array (elems : List ExprArray)

/-- `ConstArray`: a (possibly nested) array initializer of constant
expressions. -/
inductive ConstArray where
  | Val (e : ConstExpr)
  | Array (elems : List ConstArray)

mutual

/-- Modelled from the spec: leaves of a nested initializer, in order,
folded with the constant evaluator (Initializer-List Builder, §2). -/
def flattenExprArrayOne : ExprArray → Scope → List Int
  | .Val e, s => [(e.eval s).toOption.getD 0]
  | .Array l, s => flattenExprArrayList l s
termination_by a _ => sizeOf a

def flattenExprArrayList : List ExprArray → Scope → List Int
  | [], _ => []
  | a :: rest, s => flattenExprArrayOne a s ++ flattenExprArrayList rest s
termination_by l _ => sizeOf l

end

mutual

def flattenConstArrayOne : ConstArray → Scope → List Int
  | .Val e, s => [(e.eval s).toOption.getD 0]
  | .Array l, s => flattenConstArrayList l s
termination_by a _ => sizeOf a

def flattenConstArrayList : List ConstArray → Scope → List Int
  | [], _ => []
  | a :: rest, s => flattenConstArrayOne a s ++ flattenConstArrayList rest s
termination_by l _ => sizeOf l

end

/-- The number of scalar slots of a shape. -/
def shapeSize (shape : List Int) : Nat := (shape.map Int.toNat).prod

/-- Zero-fill / truncate a flattened value list to the target size. -/
def zeroFill (l : List Int) (n : Nat) : List Int :=
  (l ++ List.replicate (n - l.length) 0).take n

/-- Modelled from the spec: `InitializeList::from_expr_array` — an
expression initializer plus a target shape becomes a fully zero-filled,
flattened list of scalars (§2). -/
def InitializeList.from_expr_array (shape : List Int) (arr : List ExprArray) :
    M InitializeList := fun ctx =>
  .ok ⟨shape, zeroFill (flattenExprArrayList arr ctx.scope) (shapeSize shape)⟩ ctx

/-- Modelled from the spec: `InitializeList::from_const_array` — the shape
is itself a list of constant expressions, evaluated like
`get_array_type` does. -/
def InitializeList.from_const_array (shape : List ConstExpr) (arr : List ConstArray) :
    M InitializeList := fun ctx =>
  let dims := shape.map (fun c => (c.eval ctx.scope).toOption.getD 0)
  .ok ⟨dims, zeroFill (flattenConstArrayList arr ctx.scope) (shapeSize dims)⟩ ctx

/-- `InitializeList::zero`: an all-zero initializer of the given shape. -/
def InitializeList.zero (shape : List Int) : InitializeList :=
  ⟨shape, List.replicate (shapeSize shape) 0⟩

/-- Modelled from the spec: `to_global_value` — the constant aggregate for
a global allocation, created in the program arena. -/
def InitializeList.to_global_value (l : InitializeList) : M Value :=
  mNewGlobalValue (.aggregate l.values)

/-- Modelled from the spec: `to_local_value` — the full initializer
aggregate stored into a local array allocation. -/
def InitializeList.to_local_value (l : InitializeList) : M Value :=
  ctxNewValue (.aggregate l.values)

structure NormalVarDef where
  name : String
  value : Option Expr

structure ArrayVarDef where
  name : String
  shape : List ConstExpr
  values : Option ExprArray

inductive VarDef where
  | NormalVarDef (d : NormalVarDef)
  | ArrayVarDef (d : ArrayVarDef)

/-- `impl GenerateIR for VarDef`: a local scalar allocates a stack slot
(plus an initializing store); a global scalar embeds
`value.eval(..).unwrap_or(0)` — defaulting to zero both when there is no
initializer and when the initializer fails constant evaluation; arrays
analogously with initializer lists.  A same-scope redeclaration propagates
`ParseError::MultipleDefinition`. -/
def VarDef.generate_ir : VarDef → M Value
  | .NormalVarDef nv => do
    let scope_id ← mCurrentScopeId
    let var_name := "@_" ++ toString scope_id ++ "_" ++ nv.name
    let isGlobal ← mIsGlobal
    if !isGlobal then do
      let bb ← mGetBB
      let var_alloc ← ctxNewValue (.alloc .i32)
      ctxSetValueName var_alloc var_name
      ctxAddInst bb var_alloc
      match nv.value with
      | some init => do
        let initv ← init.generate_ir
        let store ← ctxNewValue (.store initv var_alloc)
        let current_bb ← mGetBB
        ctxAddInst current_bb store
      | none => pure ()
      let okb ← scopeAddIdentifier nv.name (.from_variable var_alloc)
      if okb then pure var_alloc else mthrow .MultipleDefinition
    else do
      let v ← (fun ctx =>
        MRes.ok ((nv.value.map (fun x => (x.eval ctx.scope).toOption.getD 0)).getD 0) ctx)
      let val ← mNewGlobalValue (.integer v)
      let var_alloc ← mNewGlobalValue (.global_alloc val)
      mSetGlobalValueName var_alloc var_name
      let okb ← scopeAddIdentifier nv.name (.from_variable var_alloc)
      if okb then pure var_alloc else mthrow .MultipleDefinition
  | .ArrayVarDef av => do
    let scope_id ← mCurrentScopeId
    let var_name := "@_" ++ toString scope_id ++ "_" ++ av.name
    let shape ← (fun ctx =>
      MRes.ok (av.shape.map (fun x => (x.eval ctx.scope).toOption.getD 0)) ctx)
    let isGlobal ← mIsGlobal
    if isGlobal then do
      let initial_list ←
        match av.values with
        | some initial =>
          match initial with
          | .Val _ => show_error "Invalid array initialization" 2
          | .Array arr => InitializeList.from_expr_array shape arr
        | none => pure (InitializeList.zero shape)
      let init_value ← initial_list.to_global_value
      let alloc ← mNewGlobalValue (.global_alloc init_value)
      mSetGlobalValueName alloc var_name
      let okb ← scopeAddIdentifier av.name (.from_variable alloc)
      if okb then pure alloc else mthrow .MultipleDefinition
    else do
      let array_type ← get_array_type_dims shape
      let bb ← mGetBB
      let alloc ← ctxNewValue (.alloc array_type)
      ctxSetValueName alloc var_name
      ctxAddInst bb alloc
      match av.values with
      | some initial => do
        let initial_list ←
          match initial with
          | .Val _ => show_error "Invalid array initialization" 2
          | .Array arr => InitializeList.from_expr_array shape arr
        let init_value ← initial_list.to_local_value
        let store ← ctxNewValue (.store init_value alloc)
        ctxAddInst bb store
      | none => pure ()
      let okb ← scopeAddIdentifier av.name (.from_variable alloc)
      if okb then pure alloc else mthrow .MultipleDefinition

structure NormalConstDef where
  name : String
  value : ConstExpr

structure ArrayConstDef where
  name : String
  shape : List ConstExpr
  values : ConstArray

inductive ConstDef where
  | NormalConstDef (d : NormalConstDef)
  | ArrayConstDef (d : ArrayConstDef)

/-- `impl GenerateIR for ConstDef`: a scalar constant is folded and bound in
scope; a same-scope collision goes through
`unwrap_or_else(|e| show_error(..))` — a fatal abort, not a propagated
lowering failure.  A constant array builds its initializer list, emits
global or local storage, and binds a `ConstArray` identifier. -/
def ConstDef.generate_ir : ConstDef → M Unit
  | .NormalConstDef normal => do
    let r ← mEvalConst normal.value
    match r with
    | .error _ => mthrow .ConstExprError
    | .ok val => do
      let okb ← scopeAddIdentifier normal.name (.from_constant val)
      if okb then pure () else show_error "MultipleDefinition" 2
  | .ArrayConstDef const_array => do
    let init ←
      match const_array.values with
      | .Val _ => show_error "Invalid array initialization" 2
      | .Array arr => pure arr
    let initial_list ← InitializeList.from_const_array const_array.shape init
    let scope_id ← mCurrentScopeId
    let array_name := "@_" ++ toString scope_id ++ "_" ++ const_array.name
    let isGlobal ← mIsGlobal
    let koopa_def ←
      if isGlobal then do
        let init_value ← initial_list.to_global_value
        let alloc ← mNewGlobalValue (.global_alloc init_value)
        mSetGlobalValueName alloc array_name
        pure alloc
      else do
        let array_type ← get_array_type const_array.shape
        let bb ← mGetBB
        let alloc ← ctxNewValue (.alloc array_type)
        ctxSetValueName alloc array_name
        ctxAddInst bb alloc
        let init_value ← initial_list.to_local_value
        let store ← ctxNewValue (.store init_value alloc)
        ctxAddInst bb store
        pure alloc
    let okb ← scopeAddIdentifier const_array.name
        (.from_const_array koopa_def initial_list)
    if okb then pure () else show_error "MultipleDefinition" 2

inductive Decl where
  | ConstDecl (defs : List ConstDef)
  | VarDecl (defs : List VarDef)

def genConstDefs : List ConstDef → M Unit
  | [] => pure ()
  | d :: rest => do
    d.generate_ir
    genConstDefs rest

def genVarDefs : List VarDef → M Unit
  | [] => pure ()
  | d :: rest => do
    let _ ← d.generate_ir
    genVarDefs rest

/-- `impl GenerateIR for Decl`. -/
def Decl.generate_ir : Decl → M Unit
  | .ConstDecl defs => genConstDefs defs
  | .VarDecl defs => genVarDefs defs

/-! ## Statements and control flow -/

inductive Break where
  | mk

inductive Continue where
  | mk

/-- `type Return = Option<Expr>`. -/
abbrev Return := Option Expr

mutual

inductive Stmt where
  | Assign (a : Assign)
  | Expr (e : Expr)
  | Block (b : Block)
  | If (i : If)
  | While (w : While)
  | Return (r : Return)
  | Break (b : Break)
  | Continue (c : Continue)
  | Empty

inductive Block where
  | mk (id : Nat) (items : List BlockItem)

inductive BlockItem where
  | Stmt (s : Stmt)
  | Decl (d : Decl)

inductive If where
  | mk (cond : Expr) (then_stmt : Stmt) (else_stmt : Option Stmt)

inductive While where
  | mk (cond : Expr) (body : Stmt)

inductive Assign where
  | mk (target : LVal) (value : Expr)

end

def Block.id : Block → Nat
  | .mk id _ => id

def Block.items : Block → List BlockItem
  | .mk _ items => items

def If.cond : If → Expr
  | .mk c _ _ => c

def If.then_stmt : If → Stmt
  | .mk _ t _ => t

def If.else_stmt : If → Option Stmt
  | .mk _ _ e => e

def While.cond : While → Expr
  | .mk c _ => c

def While.body : While → Stmt
  | .mk _ b => b

def Assign.target : Assign → LVal
  | .mk t _ => t

def Assign.value : Assign → Expr
  | .mk _ v => v

/-- `impl GenerateIR for Return`: constant-foldable return expressions are
returned as literals; otherwise the expression is lowered; a bare `return`
emits a void return. -/
def Return.generate_ir (ret : Return) : M Unit :=
  match ret with
  | some expr => do
    let r ← mEvalExpr expr
    match r with
    | .ok ret_val => do
      let rv ← ctxNewValue (.integer ret_val)
      let retv ← ctxNewValue (.ret (some rv))
      let bb ← mGetBB
      ctxAddInst bb retv
    | .error _ => do
      let val ← expr.generate_ir
      let retv ← ctxNewValue (.ret (some val))
      let bb ← mGetBB
      ctxAddInst bb retv
  | none => do
    let retv ← ctxNewValue (.ret none)
    let bb ← mGetBB
    ctxAddInst bb retv

/-- `impl GenerateIR for Break`: `BreakOutsideLoop` when the loop stack is
empty, otherwise a jump to the top frame's end block. -/
def Break.generate_ir (_ : Break) : M Unit := fun ctx =>
  match ctx.get_while_info with
  | none => .err .BreakOutsideLoop
  | some info =>
    (do
      let jump ← ctxNewValue (.jump info.end_bb)
      let bb ← mGetBB
      ctxAddInst bb jump) ctx

/-- `impl GenerateIR for Continue`: `ContinueOutsideLoop` when the loop
stack is empty, otherwise a jump to the top frame's start block. -/
def Continue.generate_ir (_ : Continue) : M Unit := fun ctx =>
  match ctx.get_while_info with
  | none => .err .ContinueOutsideLoop
  | some info =>
    (do
      let jump ← ctxNewValue (.jump info.start_bb)
      let bb ← mGetBB
      ctxAddInst bb jump) ctx

/-- `impl GenerateIR for Assign`. -/
def Assign.generate_ir : Assign → M Unit
  | .mk target value =>
    match target with
    | .Var var => do
      let val ← value.generate_ir
      let ident ← mGetIdentifier var
      let var_decl ←
        match ident with
        | none => mthrow .UnknownIdentifier
        | some id =>
          match id.koopa_def with
          | none => mthrow .UnknownIdentifier
          | some v => pure v
      let store ← ctxNewValue (.store val var_decl)
      let bb ← mGetBB
      ctxAddInst bb store
    | .ArrayElem array_elem => do
      let pos ← get_array_pos array_elem
      let val ← value.generate_ir
      let store ← ctxNewValue (.store val pos)
      let bb ← mGetBB
      ctxAddInst bb store

mutual

/-- `impl GenerateIR for Stmt`: dispatch; a block statement opens/closes a
scope keyed by the block's id around the block lowering. -/
def Stmt.generate_ir : Stmt → M Unit
  | .Assign a => a.generate_ir
  | .Expr e => do
    let _ ← e.generate_ir
    pure ()
  | .Block b => do
    mScopeInto b.id
    b.generate_ir
    mScopeOut
  | .If i => i.generate_ir
  | .While w => w.generate_ir
  | .Return r => Return.generate_ir r
  | .Break b => b.generate_ir
  | .Continue c => c.generate_ir
  | .Empty => pure ()
termination_by s => sizeOf s

/-- `impl GenerateIR for Block`: open a fresh current block, lower the items
in order — stopping at a return/break/continue — then always leave a fresh
open block as the current block. -/
def Block.generate_ir : Block → M Unit
  | .mk _ items => do
    let bb ← ctxNewBB
    ctxAddBB bb
    setCurrentBB bb
    genBlockItems items
    let bb2 ← ctxNewBB
    ctxAddBB bb2
    setCurrentBB bb2
termination_by b => sizeOf b

/-- The `for block_item in &self.items` loop of `Block::generate_ir`: a
return/break/continue item is lowered and then the loop `break`s — no later
item of the block is lowered. -/
def genBlockItems : List BlockItem → M Unit
  | [] => pure ()
  | item :: rest =>
    match item with
    | .Stmt s =>
      match s with
      | .Return r => Stmt.generate_ir (.Return r)
      | .Break b => Stmt.generate_ir (.Break b)
      | .Continue c => Stmt.generate_ir (.Continue c)
      | .Assign a => do
        Stmt.generate_ir (.Assign a)
        genBlockItems rest
      | .Expr e => do
        Stmt.generate_ir (.Expr e)
        genBlockItems rest
      | .Block b => do
        Stmt.generate_ir (.Block b)
        genBlockItems rest
      | .If i => do
        Stmt.generate_ir (.If i)
        genBlockItems rest
      | .While w => do
        Stmt.generate_ir (.While w)
        genBlockItems rest
      | .Empty => do
        Stmt.generate_ir .Empty
        genBlockItems rest
    | .Decl d => do
      d.generate_ir
      genBlockItems rest
termination_by l => sizeOf l

/-- `impl GenerateIR for If`: branch from the pre-condition block into a
then block (and an else block if present), with a shared end block; each
arm's exit block is closed with a guarded jump to the end block. -/
def If.generate_ir : If → M Unit
  | .mk cond then_stmt else_stmt => do
    let condv ← cond.generate_ir
    let current_bb ← mGetBB
    let then_bb ← ctxNewBB
    ctxAddBB then_bb
    setCurrentBB then_bb
    then_stmt.generate_ir
    let then_bb_end ← mGetBB
    let end_bb ← ctxNewBB
    let branch ←
      match else_stmt with
      | some els => do
        let else_bb ← ctxNewBB
        ctxAddBB else_bb
        setCurrentBB else_bb
        els.generate_ir
        let else_bb_end ← mGetBB
        ctxAddBB end_bb
        ctxEndBlock then_bb_end end_bb
        ctxEndBlock else_bb_end end_bb
        ctxNewValue (.branch condv then_bb else_bb)
      | none => do
        ctxAddBB end_bb
        ctxEndBlock then_bb_end end_bb
        ctxNewValue (.branch condv then_bb end_bb)
    ctxAddInst current_bb branch
    setCurrentBB end_bb
termination_by i => sizeOf i

/-- `impl GenerateIR for While`: start/body/end blocks, conditional branch
out of the condition block, loop-stack push around the body, guarded
back-edge to the start block, loop-stack pop. -/
def While.generate_ir : While → M Unit
  | .mk cond body => do
    let body_bb ← ctxNewBB
    let end_bb ← ctxNewBB
    let start_bb ← ctxNewBB
    ctxAddBB start_bb
    setCurrentBB start_bb
    let cond_value ← cond.generate_ir
    let start_branch_bb ← mGetBB
    let branch ← ctxNewValue (.branch cond_value body_bb end_bb)
    ctxAddInst start_branch_bb branch
    ctxAddBB body_bb
    ctxAddWhileInfo start_bb end_bb
    setCurrentBB body_bb
    body.generate_ir
    let body_bb_end ← mGetBB
    let jump_start ← ctxNewValue (.jump start_bb)
    let ended ← ctxBlockEnded body_bb_end
    if !ended then
      ctxAddInst body_bb_end jump_start
    else do
      let body_bb_end2 ← ctxNewBB
      ctxAddBB body_bb_end2
      ctxAddInst body_bb_end2 jump_start
    ctxAddBB end_bb
    setCurrentBB end_bb
    ctxPopWhileInfo
termination_by w => sizeOf w

end

/-! ## Functions and the compilation unit -/

inductive FuncType where
  | Int
  | Void
deriving Repr, DecidableEq

/-- `impl From<FuncType> for Type`. -/
def FuncType.into : FuncType → Ty
  | .Int => .i32
  | .Void => .unit

structure NormalFParam where
  name : String

structure ArrayFParam where
  name : String
  placeholder : Bool
  shape : List ConstExpr

inductive FuncFParam where
  | NormalFParam (p : NormalFParam)
  | ArrayFParam (p : ArrayFParam)

structure FuncDef where
  ret_type : FuncType
  name : String
  params : List FuncFParam
  body : Block

/-- `fn get_func_param`: a scalar parameter is `i32`; an array parameter
drops its first dimension unless it is a placeholder, and becomes a pointer
to the remaining array type. -/
def get_func_param : List FuncFParam → M (List (Option String × Ty))
  | [] => pure []
  | p :: rest => do
    let entry ←
      match p with
      | .NormalFParam normal_param =>
        pure (some ("@" ++ normal_param.name), Ty.i32)
      | .ArrayFParam array_param => do
        let shape := if array_param.placeholder then array_param.shape
          else array_param.shape.tail
        let t ← get_array_type shape
        pure (some ("@" ++ array_param.name), Ty.pointer t)
    let rest' ← get_func_param rest
    pure (entry :: rest')

/-- Build the parameter values of `FunctionData::with_param_names`:
`func_arg_ref` values with the given names and types. -/
def buildParamVals : List (Option String × Ty) → Nat → Nat →
    (List (Value × ValueData × Ty) × List (Value × String) × List Value)
  | [], _, _ => ([], [], [])
  | (nm, ty) :: rest, vid, idx =>
    let (vs, ns, ps) := buildParamVals rest (vid + 1) (idx + 1)
    ((vid, .func_arg_ref idx, ty) :: vs,
     (match nm with | some s => [(vid, s)] | none => []) ++ ns,
     vid :: ps)

/-- `FunctionData::with_param_names` + `ctx.program.new_func`. -/
def mNewFunc (name : String) (params : List (Option String × Ty)) (ret : Ty) :
    M Nat := fun ctx =>
  let (vs, ns, ps) := buildParamVals params ctx.next_value_id 0
  let fd : FuncData := { name := name, params := ps, ret_ty := ret,
                         vals := vs, names := ns, blocks := [], nextBB := 0 }
  let k := ctx.program.nextFunc
  .ok k { ctx with
            program := { ctx.program with
                           funcs := ctx.program.funcs ++ [(k, fd)],
                           nextFunc := k + 1 },
            next_value_id := ctx.next_value_id + params.length }

/-- `ctx.func_table.insert`. -/
def mInsertFuncTable (name : String) (f : Nat) : M Unit := fun ctx =>
  .ok () { ctx with func_table := (name, f) :: ctx.func_table }

/-- `ctx.func = ...`. -/
def mSetFunc (f : Option Nat) : M Unit := fun ctx =>
  .ok () { ctx with func := f }

/-- `func_data.params()`. -/
def mFuncParams : M (List Value) := fun ctx =>
  match ctx.func_data with
  | .error e => .err e
  | .ok fd => .ok fd.params ctx

/-- The name of a value in the current function (`param_data.name()`),
with its leading sigil stripped (`s[1..]`). -/
def mFuncValueNameTail (v : Value) : M String := fun ctx =>
  match ctx.func_data with
  | .error e => .err e
  | .ok fd => .ok (((fd.names.lookup v).getD "").drop 1) ctx

/-- The parameter-materialization loop of `FuncDef::generate_ir`: each
parameter is copied into an addressable stack slot in the synthetic first
block, and bound in scope; a binding collision aborts fatally via
`show_error`. -/
def paramsLoop : List Value → BasicBlock → M Unit
  | [], _ => pure ()
  | param :: rest, store_bb => do
    let param_name ← mFuncValueNameTail param
    let param_type ← mFuncValueTy param
    let alloc_param ← ctxNewValue (.alloc param_type)
    ctxSetValueName alloc_param ("@_p_" ++ param_name)
    let store ← ctxNewValue (.store param alloc_param)
    ctxAddInst store_bb alloc_param
    ctxAddInst store_bb store
    let okb ← scopeAddIdentifier param_name (.from_variable alloc_param)
    if okb then paramsLoop rest store_bb else show_error "MultipleDefinition" 2

/-- `impl GenerateIR for FuncDef`. -/
def FuncDef.generate_ir (f : FuncDef) : M Unit := do
  let ret_type := f.ret_type.into
  let func_params ← get_func_param f.params
  let func ← mNewFunc ("@" ++ f.name) func_params ret_type
  mInsertFuncTable f.name func
  mSetFunc (some func)
  let store_bb ← ctxNewBB
  mScopeInto f.body.id
  ctxAddBB store_bb
  let params ← mFuncParams
  paramsLoop params store_bb
  f.body.generate_ir
  mScopeOut
  mSetFunc none

inductive GlobalItem where
  | Decl (d : Decl)
  | FuncDef (f : FuncDef)

structure CompUnit where
  items : List GlobalItem

def genGlobalItems : List GlobalItem → M Unit
  | [] => pure ()
  | item :: rest => do
    match item with
    | .Decl d => d.generate_ir
    | .FuncDef f => f.generate_ir
    genGlobalItems rest

/-- `impl GenerateIR for CompUnit`. -/
def CompUnit.generate_ir (c : CompUnit) : M Unit := genGlobalItems c.items

/-- The context a compilation starts from: an empty program, the global
scope, no current function or block. -/
def Context.initial : Context :=
  { program := {}, func := none, scope := Scope.global, func_table := [],
    current_bb := none, while_stack := [], temp_count := 0, next_value_id := 0 }

/-! ## Reduction lemmas for the lowering monad -/

theorem mbind_apply (x : M α) (f : α → M β) (ctx : Context) :
    (x >>= f) ctx =
      match x ctx with
      | .ok a ctx' => f a ctx'
      | .err e => .err e
      | .fatal c => .fatal c := rfl

theorem mpure_apply (a : α) (ctx : Context) : (pure a : M α) ctx = .ok a ctx := rfl

/-! ## Claim C3: short-circuit behaviour of the constant evaluator -/

/-- A syntactically non-constant operand: a bare function call. -/
def callLAnd (nm : String) : LAndExpr :=
  .EqExpr (.RelExpr (.AddExpr (.MulExpr (.UnaryExpr (.FuncCall (.mk nm []))))))

def callEq (nm : String) : EqExpr :=
  .RelExpr (.AddExpr (.MulExpr (.UnaryExpr (.FuncCall (.mk nm [])))))

/-- C3 (counterexample): the claim says `a || b` and `a && b` return a
failure whenever either operand is not constant-evaluable, *including when
the left operand already decides the result*.  But the evaluator's Rust
`||`/`&&` short-circuit: with a decided left operand the non-constant
right operand (whose own evaluation fails with `FunctionNotSupported`) is
never evaluated and a value is returned. -/
theorem C3_counterexample :
    (LAndExpr.EqExpr (callEq "f")).eval Scope.global
        = .error .FunctionNotSupported
      ∧ (LOrExpr.Or (numLOr 1) (callLAnd "f")).eval Scope.global = .ok 1
      ∧ (LAndExpr.And (numLAnd 0) (callEq "f")).eval Scope.global = .ok 0 := by
  refine ⟨?_, ?_, ?_⟩ <;>
    simp [callLAnd, callEq, numLOr, numLAnd, numEq, numRel, numAdd, numMul,
      numUnary, numPrimary, LOrExpr.eval, LAndExpr.eval, EqExpr.eval,
      RelExpr.eval, AddExpr.eval, MulExpr.eval, UnaryExpr.eval,
      PrimaryExpr.eval, Int.eval, to_bool, boolToInt]

/-- C3 (amended): `a || b` and `a && b` evaluate the left operand first and
propagate its failure; when the left operand decides the result (nonzero
for `||`, zero for `&&`) that decided boolean is returned *without
evaluating the right operand* — a non-constant right operand is not
detected in that case; only otherwise is the right operand evaluated, its
failure propagated and its value normalized. -/
theorem C3_short_circuit_eval :
    (∀ (l : LOrExpr) (r : LAndExpr) (s : Scope) (e : EvalError),
        l.eval s = .error e → (LOrExpr.Or l r).eval s = .error e)
      ∧ (∀ (l : LOrExpr) (r : LAndExpr) (s : Scope) (v : Int),
          l.eval s = .ok v → v ≠ 0 → (LOrExpr.Or l r).eval s = .ok 1)
      ∧ (∀ (l : LOrExpr) (r : LAndExpr) (s : Scope),
          l.eval s = .ok 0 →
          (LOrExpr.Or l r).eval s =
            match r.eval s with
            | .error e => .error e
            | .ok rv => .ok (boolToInt (to_bool rv)))
      ∧ (∀ (l : LAndExpr) (r : EqExpr) (s : Scope) (e : EvalError),
          l.eval s = .error e → (LAndExpr.And l r).eval s = .error e)
      ∧ (∀ (l : LAndExpr) (r : EqExpr) (s : Scope),
          l.eval s = .ok 0 → (LAndExpr.And l r).eval s = .ok 0)
      ∧ (∀ (l : LAndExpr) (r : EqExpr) (s : Scope) (v : Int),
          l.eval s = .ok v → v ≠ 0 →
          (LAndExpr.And l r).eval s =
            match r.eval s with
            | .error e => .error e
            | .ok rv => .ok (boolToInt (to_bool rv))) := by
  refine ⟨?_, ?_, ?_, ?_, ?_, ?_⟩
  · intro l r s e h
    simp [LOrExpr.eval, h]
  · intro l r s v h hv
    simp [LOrExpr.eval, h, to_bool, hv, boolToInt]
  · intro l r s h
    simp [LOrExpr.eval, h, to_bool]
  · intro l r s e h
    simp [LAndExpr.eval, h]
  · intro l r s h
    simp [LAndExpr.eval, h, to_bool, boolToInt]
  · intro l r s v h hv
    simp [LAndExpr.eval, h, to_bool, hv]

/-- Witness for `C3_short_circuit_eval` at a concrete input: `1 || f()`
evaluates to `1`. -/
theorem C3_short_circuit_eval_witness :
    (LOrExpr.Or (numLOr 1) (callLAnd "f")).eval Scope.global = .ok 1 :=
  C3_short_circuit_eval.2.1 (numLOr 1) (callLAnd "f") Scope.global 1
    (by simp [numLOr, numLAnd, numEq, numRel, numAdd, numMul, numUnary,
      numPrimary, LOrExpr.eval, LAndExpr.eval, EqExpr.eval, RelExpr.eval,
      AddExpr.eval, MulExpr.eval, UnaryExpr.eval, PrimaryExpr.eval, Int.eval])
    (by decide)

/-! ## Claim C4: checked arithmetic in the constant evaluator -/

/-- C4 (counterexample): the claim says overflow on negation is reported as
the `Overflow` failure kind and no operation ever returns a silently
wrapped value; but `-x` in `impl Eval for UnaryExpr` is unchecked, so
negating `i32::MIN` returns the wrapped value `i32::MIN` itself rather
than a failure. -/
theorem C4_counterexample :
    (UnaryExpr.Unary .Neg (numUnary (-2147483648))).eval Scope.global
      = .ok (-2147483648) := by
  simp only [numUnary, numPrimary, UnaryExpr.eval, PrimaryExpr.eval, Int.eval]
  simp [Except.map, rust_neg, wrap32]

/-- C4 (amended): add/sub/mul are checked and report out-of-range results
as `Overflow`; division/modulo report a zero divisor — and also the
overflowing `i32::MIN / -1` (resp. `% -1`) — as `DivisionByZero`; the two
failure kinds are distinct; unary negation, however, is unchecked and
returns the two's-complement-wrapped value. -/
theorem C4_checked_arithmetic :
    (∀ (l : AddExpr) (r : MulExpr) (s : Scope) (a b : Int),
        l.eval s = .ok a → r.eval s = .ok b →
        (AddExpr.Add l .Add r).eval s =
          if inRange32 (a + b) then .ok (a + b) else .error .Overflow)
      ∧ (∀ (l : AddExpr) (r : MulExpr) (s : Scope) (a b : Int),
          l.eval s = .ok a → r.eval s = .ok b →
          (AddExpr.Add l .Sub r).eval s =
            if inRange32 (a - b) then .ok (a - b) else .error .Overflow)
      ∧ (∀ (l : MulExpr) (r : UnaryExpr) (s : Scope) (a b : Int),
          l.eval s = .ok a → r.eval s = .ok b →
          (MulExpr.Mul l .Mul r).eval s =
            if inRange32 (a * b) then .ok (a * b) else .error .Overflow)
      ∧ (∀ (l : MulExpr) (r : UnaryExpr) (s : Scope) (a b : Int),
          l.eval s = .ok a → r.eval s = .ok b →
          (MulExpr.Mul l .Div r).eval s =
            if b = 0 ∨ (a = INT32_MIN ∧ b = -1) then .error .DivisionByZero
            else .ok (a.tdiv b))
      ∧ (∀ (l : MulExpr) (r : UnaryExpr) (s : Scope) (a b : Int),
          l.eval s = .ok a → r.eval s = .ok b →
          (MulExpr.Mul l .Mod r).eval s =
            if b = 0 ∨ (a = INT32_MIN ∧ b = -1) then .error .DivisionByZero
            else .ok (a.tmod b))
      ∧ (∀ (e : UnaryExpr) (s : Scope) (v : Int),
          e.eval s = .ok v →
          (UnaryExpr.Unary .Neg e).eval s = .ok (wrap32 (-v)))
      ∧ EvalError.Overflow ≠ EvalError.DivisionByZero := by
  refine ⟨?_, ?_, ?_, ?_, ?_, ?_, by decide⟩
  · intro l r s a b hl hr
    simp only [AddExpr.eval, hl, hr, checked_add]
    cases h : inRange32 (a + b) <;> simp [h]
  · intro l r s a b hl hr
    simp only [AddExpr.eval, hl, hr, checked_sub]
    cases h : inRange32 (a - b) <;> simp [h]
  · intro l r s a b hl hr
    simp only [MulExpr.eval, hl, hr, checked_mul]
    cases h : inRange32 (a * b) <;> simp [h]
  · intro l r s a b hl hr
    simp only [MulExpr.eval, hl, hr, checked_div]
    by_cases h : b = 0 ∨ (a = INT32_MIN ∧ b = -1) <;> simp [h]
  · intro l r s a b hl hr
    simp only [MulExpr.eval, hl, hr, checked_rem]
    by_cases h : b = 0 ∨ (a = INT32_MIN ∧ b = -1) <;> simp [h]
  · intro e s v h
    simp [UnaryExpr.eval, h, Except.map, rust_neg]

/-- Witness for `C4_checked_arithmetic` at concrete inputs:
`2147483647 + 1` overflows to the `Overflow` failure. -/
theorem C4_checked_arithmetic_witness :
    (AddExpr.Add (numAdd 2147483647) .Add (numMul 1)).eval Scope.global
      = .error .Overflow := by
  have h := C4_checked_arithmetic.1 (numAdd 2147483647) (numMul 1) Scope.global
    2147483647 1
    (by simp [numAdd, numMul, numUnary, numPrimary, AddExpr.eval, MulExpr.eval,
      UnaryExpr.eval, PrimaryExpr.eval, Int.eval])
    (by simp [numMul, numUnary, numPrimary, MulExpr.eval,
      UnaryExpr.eval, PrimaryExpr.eval, Int.eval])
  rw [h]
  norm_num [inRange32, INT32_MIN, INT32_MAX]

/-! ## Association-list lemmas used throughout the lowering proofs -/

theorem lookup_cons_self {β : Type} (k : Nat) (b : β) (l : List (Nat × β)) :
    List.lookup k ((k, b) :: l) = some b := by simp [List.lookup]

theorem lookup_cons_ne {β : Type} (k a : Nat) (b : β) (l : List (Nat × β)) (h : k ≠ a) :
    List.lookup k ((a, b) :: l) = List.lookup k l := by
  have hb : (k == a) = false := by simpa using h
  simp [List.lookup, hb]

theorem lookup_map_addInst (l : List (BasicBlock × List Value)) (bb : BasicBlock)
    (v : Value) :
    List.lookup bb (l.map (fun p => if p.1 = bb then (p.1, p.2 ++ [v]) else p))
      = (List.lookup bb l).map (fun is => is ++ [v]) := by
  induction l with
  | nil => simp
  | cons p rest ih =>
    obtain ⟨a, is⟩ := p
    by_cases h : a = bb
    · subst h
      simp only [List.map_cons, if_pos]
      simp [List.lookup, ih]
    · have hb : (bb == a) = false := by simpa using (Ne.symm h)
      simp only [List.map_cons]
      rw [show (if (a ,is).1 = bb then ((a, is).1, (a, is).2 ++ [v]) else (a, is))
        = (a, is) from by simp [h]]
      simp [List.lookup, hb, ih]

theorem lookup_map_addInst_ne (l : List (BasicBlock × List Value)) (bb b' : BasicBlock)
    (v : Value) (hne : b' ≠ bb) :
    List.lookup b' (l.map (fun p => if p.1 = bb then (p.1, p.2 ++ [v]) else p))
      = List.lookup b' l := by
  induction l with
  | nil => simp
  | cons p rest ih =>
    obtain ⟨a, is⟩ := p
    by_cases h : a = bb
    · subst h
      have hb : (b' == a) = false := by simpa using hne
      simp only [List.map_cons, if_pos]
      simp [List.lookup, hb, ih]
    · simp only [List.map_cons]
      rw [show (if (a ,is).1 = bb then ((a, is).1, (a, is).2 ++ [v]) else (a, is))
        = (a, is) from by simp [h]]
      by_cases h2 : b' = a
      · subst h2
        simp [List.lookup, ih]
      · have hb : (b' == a) = false := by simpa using h2
        simp [List.lookup, hb, ih]

theorem lookup_append {β : Type} (k : Nat) (l1 l2 : List (Nat × β)) :
    List.lookup k (l1 ++ l2)
      = match List.lookup k l1 with
        | some b => some b
        | none => List.lookup k l2 := by
  induction l1 with
  | nil => simp [List.lookup]
  | cons p rest ih =>
    obtain ⟨a, b⟩ := p
    by_cases h : k = a
    · subst h
      simp [List.lookup, ih]
    · have hb : (k == a) = false := by simpa using h
      simp [List.lookup, hb, ih]

theorem lookup_assocUpdate_self {β : Type} (l : List (Nat × β)) (k : Nat) (b : β)
    (h : (List.lookup k l).isSome) : List.lookup k (assocUpdate l k b) = some b := by
  induction l with
  | nil => simp [List.lookup] at h
  | cons p rest ih =>
    obtain ⟨a, c⟩ := p
    simp only [assocUpdate, List.map_cons]
    by_cases hk : a = k
    · subst hk
      rw [show (if (a, c).1 = a then (a, b) else (a, c)) = (a, b) from by simp]
      simp [List.lookup]
    · have hb : (k == a) = false := by simpa using (Ne.symm hk)
      rw [show (if (a, c).1 = k then (k, b) else (a, c)) = (a, c) from by simp [hk]]
      simp only [List.lookup, hb] at h ⊢
      simp only [assocUpdate] at ih
      exact ih h

theorem lookup_assocUpdate_ne {β : Type} (l : List (Nat × β)) (k k' : Nat) (b : β)
    (h : k' ≠ k) : List.lookup k' (assocUpdate l k b) = List.lookup k' l := by
  induction l with
  | nil => simp [assocUpdate]
  | cons p rest ih =>
    obtain ⟨a, c⟩ := p
    simp only [assocUpdate, List.map_cons] at ih ⊢
    by_cases hk : a = k
    · subst hk
      rw [show (if (a, c).1 = a then (a, b) else (a, c)) = (a, b) from by simp]
      have hb : (k' == a) = false := by simpa using h
      simp only [List.lookup, hb]
      exact ih
    · rw [show (if (a, c).1 = k then (k, b) else (a, c)) = (a, c) from by simp [hk]]
      by_cases h2 : k' = a
      · subst h2
        simp [List.lookup]
      · have hb : (k' == a) = false := by simpa using h2
        simp only [List.lookup, hb]
        exact ih

theorem assocUpdate_assocUpdate {β : Type} (l : List (Nat × β)) (k : Nat) (b b' : β) :
    assocUpdate (assocUpdate l k b) k b' = assocUpdate l k b' := by
  unfold assocUpdate
  rw [List.map_map]
  congr 1
  funext p
  obtain ⟨a, c⟩ := p
  by_cases h : a = k
  · subst h
    simp
  · simp [h]

theorem assocUpdate_cons_self {β : Type} (k : Nat) (b b' : β) (l : List (Nat × β)) :
    assocUpdate ((k, b) :: l) k b' = (k, b') :: assocUpdate l k b' := by
  simp [assocUpdate]

theorem assocUpdate_cons_ne {β : Type} (a k : Nat) (b b' : β) (l : List (Nat × β))
    (h : a ≠ k) :
    assocUpdate ((a, b) :: l) k b' = (a, b) :: assocUpdate l k b' := by
  simp [assocUpdate, h]

theorem FuncData.add_inst_insts (fd : FuncData) (bb : BasicBlock) (v : Value) :
    (fd.add_inst bb v).blocks.lookup bb = (fd.blocks.lookup bb).map (fun is => is ++ [v]) :=
  lookup_map_addInst fd.blocks bb v

/-! ## Claims C2 and C10: global scalar variable lowering -/

/-- A `1 / 0` expression — not constant-evaluable. -/
def divByZeroExpr : Expr :=
  .mk (.LAndExpr (.EqExpr (.RelExpr (.AddExpr (.MulExpr
    (.Mul (numMul 1) .Div (numUnary 0)))))))

/-- C2 (counterexample): the claim says lowering a global variable with a
non-constant initializer terminates the whole compilation with a diagnostic
and a nonzero exit status; but `value.eval(..).unwrap_or(0)` silently
recovers — the lowering *succeeds*, emitting a global allocation whose
embedded content is the integer 0.  Here `int g = 1 / 0;` at global scope
lowers to `.ok`, not to a fatal exit (and not to a lowering failure). -/
theorem C2_counterexample :
    divByZeroExpr.eval Scope.global = .error .DivisionByZero
      ∧ VarDef.generate_ir (.NormalVarDef ⟨"g", some divByZeroExpr⟩) Context.initial =
        .ok 1 ⟨⟨[(1, .global_alloc 0, .pointer .i32), (0, .integer 0, .i32)],
                [(1, "@_0_g")], [], 0⟩,
               none, ⟨[(0, [("g", .Variable ⟨1⟩)])]⟩, [], none, [], 0, 2⟩ := by
  constructor
  · simp [divByZeroExpr, numMul, numUnary, numPrimary, Expr.eval, LOrExpr.eval,
      LAndExpr.eval, EqExpr.eval, RelExpr.eval, AddExpr.eval, MulExpr.eval,
      UnaryExpr.eval, PrimaryExpr.eval, Int.eval, checked_div]
  · simp [VarDef.generate_ir, mbind_apply, mpure_apply, mCurrentScopeId, mIsGlobal,
      Context.is_global, Context.initial, Scope.current_scope_id, Scope.global,
      mNewGlobalValue, Context.newGlobalValue, Context.computeTy, Context.valueTyOf,
      Context.func_data, mSetGlobalValueName, Context.setGlobalValueName,
      scopeAddIdentifier, Scope.add_identifier, lookupBindings,
      divByZeroExpr, numMul, numUnary, numPrimary, Expr.eval, LOrExpr.eval,
      LAndExpr.eval, EqExpr.eval, RelExpr.eval, AddExpr.eval, MulExpr.eval,
      UnaryExpr.eval, PrimaryExpr.eval, Int.eval, checked_div,
      Identifier.from_variable, Except.toOption] <;> rfl

/-- C2 (amended): a global scalar variable whose initializer fails constant
evaluation is *not* a fatal error and is not a propagated lowering failure:
lowering recovers via the `unwrap_or(0)` default and emits a global
allocation embedding the integer 0, binding the name to it. -/
theorem C2_nonconstant_global_defaults_to_zero
    (prog : Program) (sid : Nat) (binds : Bindings) (rest : List (Nat × Bindings))
    (ft : List (String × Nat)) (cbb : Option BasicBlock) (ws : List WhileInfo)
    (tc n : Nat) (name : String) (e : Expr) (err : EvalError)
    (hfree : lookupBindings binds name = none)
    (he : e.eval ⟨(sid, binds) :: rest⟩ = .error err) :
    VarDef.generate_ir (.NormalVarDef ⟨name, some e⟩)
        ⟨prog, none, ⟨(sid, binds) :: rest⟩, ft, cbb, ws, tc, n⟩ =
      .ok (n + 1)
        ⟨{ prog with
             vals := (n + 1, .global_alloc n, .pointer .i32)
               :: (n, .integer 0, .i32) :: prog.vals,
             names := (n + 1, "@_" ++ toString sid ++ "_" ++ name) :: prog.names },
         none,
         ⟨(sid, (name, .Variable ⟨n + 1⟩) :: binds) :: rest⟩,
         ft, cbb, ws, tc, n + 2⟩ := by
  simp [VarDef.generate_ir, mbind_apply, mpure_apply, mCurrentScopeId, mIsGlobal,
    Context.is_global, Scope.current_scope_id,
    mNewGlobalValue, Context.newGlobalValue, Context.computeTy, Context.valueTyOf,
    Context.func_data, mSetGlobalValueName, Context.setGlobalValueName,
    scopeAddIdentifier, Scope.add_identifier, lookupBindings, hfree, he,
    Identifier.from_variable, Except.toOption]

/-- Witness for `C2_nonconstant_global_defaults_to_zero` at a concrete
input (`int g = 1 / 0;` from the initial context). -/
theorem C2_nonconstant_global_defaults_to_zero_witness :
    VarDef.generate_ir (.NormalVarDef ⟨"g", some divByZeroExpr⟩)
        ⟨{}, none, ⟨(0, []) :: []⟩, [], none, [], 0, 0⟩ =
      .ok 1
        ⟨{ vals := (1, .global_alloc 0, .pointer .i32) :: (0, .integer 0, .i32) :: [],
           names := (1, "@_" ++ toString 0 ++ "_" ++ "g") :: [] },
         none, ⟨(0, ("g", .Variable ⟨1⟩) :: []) :: []⟩, [], none, [], 0, 2⟩ := by
  have h := C2_nonconstant_global_defaults_to_zero {} 0 [] [] [] none [] 0 0 "g"
    divByZeroExpr .DivisionByZero rfl
    (by simp [divByZeroExpr, numMul, numUnary, numPrimary, Expr.eval, LOrExpr.eval,
      LAndExpr.eval, EqExpr.eval, RelExpr.eval, AddExpr.eval, MulExpr.eval,
      UnaryExpr.eval, PrimaryExpr.eval, Int.eval, checked_div])
  exact h

/-- C10 (confirmed): a global scalar variable declared without an
initializer lowers to a global allocation whose embedded initial value is
the integer 0, and the source name is bound in the current scope to that
allocation. -/
theorem C10_global_zero_initialized
    (prog : Program) (sid : Nat) (binds : Bindings) (rest : List (Nat × Bindings))
    (ft : List (String × Nat)) (cbb : Option BasicBlock) (ws : List WhileInfo)
    (tc n : Nat) (name : String)
    (hfree : lookupBindings binds name = none) :
    VarDef.generate_ir (.NormalVarDef ⟨name, none⟩)
        ⟨prog, none, ⟨(sid, binds) :: rest⟩, ft, cbb, ws, tc, n⟩ =
      .ok (n + 1)
        ⟨{ prog with
             vals := (n + 1, .global_alloc n, .pointer .i32)
               :: (n, .integer 0, .i32) :: prog.vals,
             names := (n + 1, "@_" ++ toString sid ++ "_" ++ name) :: prog.names },
         none,
         ⟨(sid, (name, .Variable ⟨n + 1⟩) :: binds) :: rest⟩,
         ft, cbb, ws, tc, n + 2⟩ := by
  simp [VarDef.generate_ir, mbind_apply, mpure_apply, mCurrentScopeId, mIsGlobal,
    Context.is_global, Scope.current_scope_id,
    mNewGlobalValue, Context.newGlobalValue, Context.computeTy, Context.valueTyOf,
    Context.func_data, mSetGlobalValueName, Context.setGlobalValueName,
    scopeAddIdentifier, Scope.add_identifier, lookupBindings, hfree,
    Identifier.from_variable]

/-- Witness for `C10_global_zero_initialized` at a concrete input
(`int g;` from the initial context). -/
theorem C10_global_zero_initialized_witness :
    VarDef.generate_ir (.NormalVarDef ⟨"g", none⟩)
        ⟨{}, none, ⟨(0, []) :: []⟩, [], none, [], 0, 0⟩ =
      .ok 1
        ⟨{ vals := (1, .global_alloc 0, .pointer .i32) :: (0, .integer 0, .i32) :: [],
           names := (1, "@_" ++ toString 0 ++ "_" ++ "g") :: [] },
         none, ⟨(0, ("g", .Variable ⟨1⟩) :: []) :: []⟩, [], none, [], 0, 2⟩ :=
  C10_global_zero_initialized {} 0 [] [] [] none [] 0 0 "g" rfl

/-! ## Claim C9: same-scope redeclaration -/

/-- C9 (counterexample): the claim says a same-scope redeclaration is
rejected by propagating a typed `MultipleDefinition` result up the call
stack "for variable declarations and constant declarations alike"; but
`ConstDef` lowering reacts to the collision with
`unwrap_or_else(|e| show_error(.., 2))` — a fatal process exit (code 2),
not a propagated `ParseError::MultipleDefinition`. -/
theorem C9_counterexample :
    ConstDef.generate_ir (.NormalConstDef ⟨"x", ⟨numExpr 2⟩⟩)
        ⟨{}, none, ⟨[(0, [("x", .Constant ⟨1⟩)])]⟩, [], none, [], 0, 0⟩
      = .fatal 2 := by
  simp [ConstDef.generate_ir, mbind_apply, mpure_apply, mEvalConst,
    ConstExpr.eval, numExpr, numLOr, numLAnd, numEq, numRel, numAdd, numMul,
    numUnary, numPrimary, Expr.eval, LOrExpr.eval, LAndExpr.eval, EqExpr.eval,
    RelExpr.eval, AddExpr.eval, MulExpr.eval, UnaryExpr.eval, PrimaryExpr.eval,
    Int.eval, scopeAddIdentifier, Scope.add_identifier, lookupBindings,
    show_error]

/-- C9 (amended): a same-scope collision is indeed detected for both kinds
of declaration, but the reactions differ: a variable declaration propagates
`ParseError::MultipleDefinition` up the call stack (shown below for a
global scalar and for a local scalar), while a scalar constant declaration
terminates the whole compilation via `show_error` (exit code 2). -/
theorem C9_redeclaration_behaviour :
    (∀ (prog : Program) (sid : Nat) (binds : Bindings) (rest : List (Nat × Bindings))
        (ft : List (String × Nat)) (cbb : Option BasicBlock) (ws : List WhileInfo)
        (tc n : Nat) (name : String) (value : Option Expr),
      (lookupBindings binds name).isSome →
      VarDef.generate_ir (.NormalVarDef ⟨name, value⟩)
          ⟨prog, none, ⟨(sid, binds) :: rest⟩, ft, cbb, ws, tc, n⟩
        = .err .MultipleDefinition)
      ∧ (∀ (pvals : List (Value × ValueData × Ty)) (pnames : List (Value × String))
          (fs' : List (Nat × FuncData)) (nf k : Nat) (fd : FuncData)
          (sid : Nat) (binds : Bindings) (rest : List (Nat × Bindings))
          (ft : List (String × Nat)) (bb : BasicBlock) (ws : List WhileInfo)
          (tc n : Nat) (name : String),
        (lookupBindings binds name).isSome →
        VarDef.generate_ir (.NormalVarDef ⟨name, none⟩)
            ⟨⟨pvals, pnames, (k, fd) :: fs', nf⟩, some k, ⟨(sid, binds) :: rest⟩,
             ft, some bb, ws, tc, n⟩
          = .err .MultipleDefinition)
      ∧ (∀ (prog : Program) (func : Option Nat) (sid : Nat) (binds : Bindings)
          (rest : List (Nat × Bindings)) (ft : List (String × Nat))
          (cbb : Option BasicBlock) (ws : List WhileInfo) (tc n : Nat)
          (name : String) (c : ConstExpr) (v : Int),
        c.eval ⟨(sid, binds) :: rest⟩ = .ok v →
        (lookupBindings binds name).isSome →
        ConstDef.generate_ir (.NormalConstDef ⟨name, c⟩)
            ⟨prog, func, ⟨(sid, binds) :: rest⟩, ft, cbb, ws, tc, n⟩
          = .fatal 2) := by
  refine ⟨?_, ?_, ?_⟩
  · intro prog sid binds rest ft cbb ws tc n name value hbound
    rw [Option.isSome_iff_exists] at hbound
    obtain ⟨id0, hid⟩ := hbound
    simp [VarDef.generate_ir, mbind_apply, mpure_apply, mCurrentScopeId, mIsGlobal,
      Context.is_global, Scope.current_scope_id,
      mNewGlobalValue, Context.newGlobalValue, Context.computeTy, Context.valueTyOf,
      Context.func_data, mSetGlobalValueName, Context.setGlobalValueName,
      scopeAddIdentifier, Scope.add_identifier, hid, mthrow]
  · intro pvals pnames fs' nf k fd sid binds rest ft bb ws tc n name hbound
    rw [Option.isSome_iff_exists] at hbound
    obtain ⟨id0, hid⟩ := hbound
    simp [VarDef.generate_ir, mbind_apply, mpure_apply, mCurrentScopeId, mIsGlobal,
      Context.is_global, Scope.current_scope_id, mGetBB, Context.get_bb,
      ctxNewValue, Context.func_data, Context.computeTy, Context.valueTyOf,
      Context.setFD, assocUpdate, ctxSetValueName, ctxAddInst,
      lookup_cons_self, scopeAddIdentifier, Scope.add_identifier, hid, mthrow]
  · intro prog func sid binds rest ft cbb ws tc n name c v hc hbound
    rw [Option.isSome_iff_exists] at hbound
    obtain ⟨id0, hid⟩ := hbound
    simp [ConstDef.generate_ir, mbind_apply, mpure_apply, mEvalConst, hc,
      scopeAddIdentifier, Scope.add_identifier, hid, show_error]

/-- Witness for `C9_redeclaration_behaviour` at a concrete input: a global
redeclaration of `x` as a variable propagates `MultipleDefinition`. -/
theorem C9_redeclaration_behaviour_witness :
    VarDef.generate_ir (.NormalVarDef ⟨"x", none⟩)
        ⟨{}, none, ⟨(0, [("x", .Constant ⟨1⟩)]) :: []⟩, [], none, [], 0, 0⟩
      = .err .MultipleDefinition :=
  C9_redeclaration_behaviour.1 {} 0 [("x", .Constant ⟨1⟩)] [] [] none [] 0 0 "x" none
    (by simp [lookupBindings])

/-! ## Claim C5: break/continue lowering -/

/-- C5 (confirmed): `Break`/`Continue` lowering fails with
`BreakOutsideLoop`/`ContinueOutsideLoop` *exactly* when the loop stack is
empty; with a nonempty loop stack it emits an unconditional jump to the top
frame's end (resp. start) block, appended to the current block. -/
theorem C5_break_continue :
    (∀ ctx : Context,
        (Break.generate_ir .mk ctx = .err .BreakOutsideLoop ↔ ctx.while_stack = []))
      ∧ (∀ ctx : Context,
          (Continue.generate_ir .mk ctx = .err .ContinueOutsideLoop ↔
            ctx.while_stack = []))
      ∧ (∀ (pvals : List (Value × ValueData × Ty)) (pnames : List (Value × String))
          (fs' : List (Nat × FuncData)) (nf k : Nat) (fd : FuncData) (sc : Scope)
          (ft : List (String × Nat)) (bb sb eb : BasicBlock)
          (ws : List WhileInfo) (tc n : Nat) (insts : List Value),
        fd.blocks.lookup bb = some insts →
        ∀ fd₂, fd₂ = ({ fd with vals := (n, .jump eb, .unit) :: fd.vals }.add_inst bb n) →
        Break.generate_ir .mk
            ⟨⟨pvals, pnames, (k, fd) :: fs', nf⟩, some k, sc, ft, some bb,
             ⟨sb, eb⟩ :: ws, tc, n⟩
          = .ok () ⟨⟨pvals, pnames, (k, fd₂) :: assocUpdate fs' k fd₂, nf⟩, some k,
                    sc, ft, some bb, ⟨sb, eb⟩ :: ws, tc, n + 1⟩
          ∧ fd₂.block_insts bb = insts ++ [n]
          ∧ fd₂.vals.lookup n = some (.jump eb, .unit))
      ∧ (∀ (pvals : List (Value × ValueData × Ty)) (pnames : List (Value × String))
          (fs' : List (Nat × FuncData)) (nf k : Nat) (fd : FuncData) (sc : Scope)
          (ft : List (String × Nat)) (bb sb eb : BasicBlock)
          (ws : List WhileInfo) (tc n : Nat) (insts : List Value),
        fd.blocks.lookup bb = some insts →
        ∀ fd₂, fd₂ = ({ fd with vals := (n, .jump sb, .unit) :: fd.vals }.add_inst bb n) →
        Continue.generate_ir .mk
            ⟨⟨pvals, pnames, (k, fd) :: fs', nf⟩, some k, sc, ft, some bb,
             ⟨sb, eb⟩ :: ws, tc, n⟩
          = .ok () ⟨⟨pvals, pnames, (k, fd₂) :: assocUpdate fs' k fd₂, nf⟩, some k,
                    sc, ft, some bb, ⟨sb, eb⟩ :: ws, tc, n + 1⟩
          ∧ fd₂.block_insts bb = insts ++ [n]
          ∧ fd₂.vals.lookup n = some (.jump sb, .unit)) := by
  refine ⟨?_, ?_, ?_, ?_⟩
  · intro ctx
    obtain ⟨prog, func, sc, ft, cbb, ws, tc, n⟩ := ctx
    cases ws with
    | nil =>
      simp [Break.generate_ir, Context.get_while_info]
    | cons wi ws' =>
      simp only [Break.generate_ir, Context.get_while_info, List.head?]
      constructor
      · intro h
        exfalso
        rcases func with _ | k
        · simp [mbind_apply, mpure_apply, ctxNewValue, Context.func_data,
            mGetBB, Context.get_bb, ctxAddInst, Context.setFD] at h
        · rcases hk : List.lookup k prog.funcs with _ | fd
          · simp [mbind_apply, mpure_apply, ctxNewValue, Context.func_data, hk,
              mGetBB, Context.get_bb, ctxAddInst, Context.setFD] at h
          · rcases cbb with _ | bb
            · simp [mbind_apply, mpure_apply, ctxNewValue, Context.func_data, hk,
                mGetBB, Context.get_bb, ctxAddInst, Context.setFD] at h
            · simp [mbind_apply, mpure_apply, ctxNewValue, Context.func_data, hk,
                mGetBB, Context.get_bb, ctxAddInst, Context.setFD,
                lookup_assocUpdate_self] at h
      · intro h
        exact absurd h (by simp)
  · intro ctx
    obtain ⟨prog, func, sc, ft, cbb, ws, tc, n⟩ := ctx
    cases ws with
    | nil =>
      simp [Continue.generate_ir, Context.get_while_info]
    | cons wi ws' =>
      simp only [Continue.generate_ir, Context.get_while_info, List.head?]
      constructor
      · intro h
        exfalso
        rcases func with _ | k
        · simp [mbind_apply, mpure_apply, ctxNewValue, Context.func_data,
            mGetBB, Context.get_bb, ctxAddInst, Context.setFD] at h
        · rcases hk : List.lookup k prog.funcs with _ | fd
          · simp [mbind_apply, mpure_apply, ctxNewValue, Context.func_data, hk,
              mGetBB, Context.get_bb, ctxAddInst, Context.setFD] at h
          · rcases cbb with _ | bb
            · simp [mbind_apply, mpure_apply, ctxNewValue, Context.func_data, hk,
                mGetBB, Context.get_bb, ctxAddInst, Context.setFD] at h
            · simp [mbind_apply, mpure_apply, ctxNewValue, Context.func_data, hk,
                mGetBB, Context.get_bb, ctxAddInst, Context.setFD,
                lookup_assocUpdate_self] at h
      · intro h
        exact absurd h (by simp)
  · intro pvals pnames fs' nf k fd sc ft bb sb eb ws tc n insts hreg fd₂ hfd₂
    subst hfd₂
    refine ⟨?_, ?_, ?_⟩
    · simp [Break.generate_ir, Context.get_while_info, mbind_apply, mpure_apply,
        ctxNewValue, Context.func_data, lookup_cons_self, Context.computeTy,
        Context.setFD, assocUpdate_assocUpdate, assocUpdate_cons_self,
        mGetBB, Context.get_bb, ctxAddInst]
    · simp [FuncData.block_insts, FuncData.add_inst, lookup_map_addInst, hreg]
    · simp [FuncData.add_inst, lookup_cons_self]
  · intro pvals pnames fs' nf k fd sc ft bb sb eb ws tc n insts hreg fd₂ hfd₂
    subst hfd₂
    refine ⟨?_, ?_, ?_⟩
    · simp [Continue.generate_ir, Context.get_while_info, mbind_apply, mpure_apply,
        ctxNewValue, Context.func_data, lookup_cons_self, Context.computeTy,
        Context.setFD, assocUpdate_assocUpdate, assocUpdate_cons_self,
        mGetBB, Context.get_bb, ctxAddInst]
    · simp [FuncData.block_insts, FuncData.add_inst, lookup_map_addInst, hreg]
    · simp [FuncData.add_inst, lookup_cons_self]

/-- Witness for `C5_break_continue` at a concrete input: `break` outside
any loop fails with `BreakOutsideLoop`. -/
theorem C5_break_continue_witness :
    Break.generate_ir .mk Context.initial = .err .BreakOutsideLoop :=
  (C5_break_continue.1 Context.initial).mpr rfl

/-! ## Claim C8: array element addressing and whole-array decay -/

/-- C8 (confirmed): each step of the index-walking loop inspects the
current pointee type: a pointer pointee first loads the current address and
then computes a `get_ptr` offset from the loaded value; an array pointee
computes a `get_elem_ptr` offset directly, with no load; and reading a
whole array-typed variable emits a zero-index `get_elem_ptr` rather than a
load. -/
theorem C8_array_addressing :
    (∀ (pvals : List (Value × ValueData × Ty)) (pnames : List (Value × String))
        (fs' : List (Nat × FuncData)) (nf k : Nat) (fd : FuncData) (sc : Scope)
        (ft : List (String × Nat)) (bb : BasicBlock) (ws : List WhileInfo)
        (tc n : Nat) (insts : List Value) (result index : Value)
        (rest : List Value) (d : ValueData) (t : Ty),
      fd.vals.lookup result = some (d, .pointer (.pointer t)) →
      fd.blocks.lookup bb = some insts →
      ∀ fd₂ fd₄,
        fd₂ = ({ fd with
                   vals := (n, ValueData.load result, Ty.pointer t) :: fd.vals
                 } : FuncData).add_inst bb n →
        fd₄ = ({ fd₂ with
                   vals := (n + 1, ValueData.get_ptr n index, Ty.pointer t) :: fd₂.vals
                 } : FuncData).add_inst bb (n + 1) →
        getArrayPosLoop result (index :: rest)
            ⟨⟨pvals, pnames, (k, fd) :: fs', nf⟩, some k, sc, ft, some bb, ws, tc, n⟩
          = getArrayPosLoop (n + 1) rest
              ⟨⟨pvals, pnames, (k, fd₄) :: assocUpdate fs' k fd₄, nf⟩, some k, sc,
               ft, some bb, ws, tc, n + 2⟩
          ∧ fd₄.block_insts bb = insts ++ [n, n + 1]
          ∧ fd₄.vals.lookup n = some (.load result, .pointer t)
          ∧ fd₄.vals.lookup (n + 1) = some (.get_ptr n index, .pointer t))
      ∧ (∀ (pvals : List (Value × ValueData × Ty)) (pnames : List (Value × String))
          (fs' : List (Nat × FuncData)) (nf k : Nat) (fd : FuncData) (sc : Scope)
          (ft : List (String × Nat)) (bb : BasicBlock) (ws : List WhileInfo)
          (tc n : Nat) (insts : List Value) (result index : Value)
          (rest : List Value) (d : ValueData) (t : Ty) (len : Nat),
        fd.vals.lookup result = some (d, .pointer (.array t len)) →
        fd.blocks.lookup bb = some insts →
        ∀ fd₂,
          fd₂ = ({ fd with
                     vals := (n, ValueData.get_elem_ptr result index, Ty.pointer t)
                       :: fd.vals
                   } : FuncData).add_inst bb n →
          getArrayPosLoop result (index :: rest)
              ⟨⟨pvals, pnames, (k, fd) :: fs', nf⟩, some k, sc, ft, some bb, ws, tc, n⟩
            = getArrayPosLoop n rest
                ⟨⟨pvals, pnames, (k, fd₂) :: assocUpdate fs' k fd₂, nf⟩, some k, sc,
                 ft, some bb, ws, tc, n + 1⟩
            ∧ fd₂.block_insts bb = insts ++ [n]
            ∧ fd₂.vals.lookup n = some (.get_elem_ptr result index, .pointer t))
      ∧ (∀ (pvals : List (Value × ValueData × Ty)) (pnames : List (Value × String))
          (fs' : List (Nat × FuncData)) (nf k : Nat) (fd : FuncData) (sc : Scope)
          (ft : List (String × Nat)) (bb : BasicBlock) (ws : List WhileInfo)
          (tc n : Nat) (insts : List Value) (name : String) (v : Value)
          (d : ValueData) (t : Ty) (len : Nat),
        v ≠ n →
        sc.get_identifier name = some (.Variable ⟨v⟩) →
        fd.vals.lookup v = some (d, .pointer (.array t len)) →
        fd.blocks.lookup bb = some insts →
        ∀ fd₂,
          fd₂ = ({ fd with
                     vals := (n + 1, ValueData.get_elem_ptr v n, Ty.pointer t)
                       :: (n, ValueData.integer 0, Ty.i32) :: fd.vals
                   } : FuncData).add_inst bb (n + 1) →
          LVal.generate_ir (.Var name)
              ⟨⟨pvals, pnames, (k, fd) :: fs', nf⟩, some k, sc, ft, some bb, ws, tc, n⟩
            = .ok (n + 1)
                ⟨⟨pvals, pnames, (k, fd₂) :: assocUpdate fs' k fd₂, nf⟩, some k, sc,
                 ft, some bb, ws, tc, n + 2⟩
            ∧ fd₂.block_insts bb = insts ++ [n + 1]
            ∧ fd₂.vals.lookup (n + 1) = some (.get_elem_ptr v n, .pointer t)) := by
  refine ⟨?_, ?_, ?_⟩
  · intro pvals pnames fs' nf k fd sc ft bb ws tc n insts result index rest d t
      hres hreg fd₂ fd₄ hfd₂ hfd₄
    subst hfd₂
    subst hfd₄
    refine ⟨?_, ?_, ?_, ?_⟩
    · simp [getArrayPosLoop, mbind_apply, mpure_apply, mGetBB, Context.get_bb,
        get_type, Context.func_data, lookup_cons_self, hres, remove_pointer,
        ctxNewValue, Context.computeTy, Context.valueTyOf, Context.setFD,
        assocUpdate_assocUpdate, assocUpdate_cons_self, ctxAddInst,
        FuncData.add_inst]
    · simp [FuncData.block_insts, FuncData.add_inst_insts, hreg]
    · simp [FuncData.add_inst, lookup_cons_self, lookup_cons_ne]
    · simp [FuncData.add_inst, lookup_cons_self]
  · intro pvals pnames fs' nf k fd sc ft bb ws tc n insts result index rest d t
      len hres hreg fd₂ hfd₂
    subst hfd₂
    refine ⟨?_, ?_, ?_⟩
    · simp [getArrayPosLoop, mbind_apply, mpure_apply, mGetBB, Context.get_bb,
        get_type, Context.func_data, lookup_cons_self, hres, remove_pointer,
        ctxNewValue, Context.computeTy, Context.valueTyOf, Context.setFD,
        assocUpdate_assocUpdate, assocUpdate_cons_self, ctxAddInst,
        FuncData.add_inst]
    · simp [FuncData.block_insts, FuncData.add_inst, lookup_map_addInst, hreg]
    · simp [FuncData.add_inst, lookup_cons_self]
  · intro pvals pnames fs' nf k fd sc ft bb ws tc n insts name v d t len
      hvn hid hres hreg fd₂ hfd₂
    subst hfd₂
    refine ⟨?_, ?_, ?_⟩
    · simp [LVal.generate_ir, mbind_apply, mpure_apply, mGetIdentifier, hid,
        mGetBB, Context.get_bb, get_type, Context.func_data, lookup_cons_self,
        hres, remove_pointer, Int.generate_ir, ctxNewValue, Context.computeTy,
        Context.valueTyOf, Context.setFD, assocUpdate_assocUpdate,
        assocUpdate_cons_self, ctxAddInst, FuncData.add_inst, lookup_cons_ne,
        hvn]
    · simp [FuncData.block_insts, FuncData.add_inst, lookup_map_addInst, hreg]
    · simp [FuncData.add_inst, lookup_cons_self]

/-- Witness for `C8_array_addressing` at a concrete input: one step over a
pointer-typed base (`int a[]` parameter, value 0 of type `**i32`) loads
before a `get_ptr`. -/
theorem C8_array_addressing_witness :
    getArrayPosLoop 0 [1]
        ⟨⟨[], [], [(0, { name := "@f", params := [0], ret_ty := .unit,
                         vals := [(0, .func_arg_ref 0, .pointer (.pointer .i32)),
                                  (1, .integer 3, .i32)],
                         names := [], blocks := [(0, [])], nextBB := 1 })], 1⟩,
         some 0, Scope.global, [], some 0, [], 0, 2⟩
      = getArrayPosLoop 3 []
          ⟨⟨[], [], (0, ({ name := "@f", params := [0], ret_ty := .unit,
                           vals := [(3, .get_ptr 2 1, .pointer .i32),
                                    (2, .load 0, .pointer .i32),
                                    (0, .func_arg_ref 0, .pointer (.pointer .i32)),
                                    (1, .integer 3, .i32)],
                           names := [], blocks := [(0, [2, 3])], nextBB := 1 }))
                     :: [], 1⟩,
           some 0, Scope.global, [], some 0, [], 0, 4⟩ := by
  have h := (C8_array_addressing.1 [] [] [] 1 0
    { name := "@f", params := [0], ret_ty := .unit,
      vals := [(0, .func_arg_ref 0, .pointer (.pointer .i32)), (1, .integer 3, .i32)],
      names := [], blocks := [(0, [])], nextBB := 1 }
    Scope.global [] 0 [] 0 2 [] 0 1 [] (.func_arg_ref 0) .i32
    (by simp [List.lookup]) (by simp [List.lookup]) _ _ rfl rfl).1
  rw [h]
  congr 1

/-! ## Well-formedness of emitted functions

`TermOk` is the block-level property claimed by the spec's basic-block
invariant: within one block no instruction may follow a terminator, i.e.
every instruction except possibly the last is a non-terminator (hence at
most one terminator, which can only be the final instruction). -/

/-- The current function's data, if any. -/
def FD (ctx : Context) : Option FuncData :=
  match ctx.func with
  | some k => ctx.program.funcs.lookup k
  | none => none

def TermOk (fd : FuncData) (l : List Value) : Prop :=
  ∀ v ∈ l.dropLast, fd.inst_is_term v = false

/-- Function-level well-formedness, relative to the compilation-wide value
counter `nv`: all value ids and block ids are below their counters, block
keys are unique, and every block satisfies `TermOk`. -/
structure FDWF (fd : FuncData) (nv : Nat) : Prop where
  valsLt : ∀ p ∈ fd.vals, p.1 < nv
  blocksLt : ∀ p ∈ fd.blocks, p.1 < fd.nextBB
  instsLt : ∀ p ∈ fd.blocks, ∀ v ∈ p.2, v < nv
  termOk : ∀ p ∈ fd.blocks, TermOk fd p.2
  blocksNodup : (fd.blocks.map Prod.fst).Nodup

/-- The current block, when set, is not yet terminated. -/
def curOpen (fd : FuncData) (c : Option BasicBlock) : Prop :=
  ∀ bb, c = some bb → fd.block_ended_b bb = false

/-- The current block, when set, is an allocated handle. -/
def curLt (fd : FuncData) (c : Option BasicBlock) : Prop :=
  ∀ bb, c = some bb → bb < fd.nextBB

/-- The facts a lowering segment guarantees between its entry and exit
states, stated relative to an enclosing composite: `nb0` is a lower bound
on every block handle the composite allocates (blocks below `nb0` are
pre-existing and, apart from the composite's entry current block `c0`,
are never touched again), and `c0` is that entry current block. -/
structure SegFacts (nb0 : Nat) (c0 : Option BasicBlock) (ctx ctx' : Context)
    (fd fd' : FuncData) : Prop where
  func_eq : ctx'.func = ctx.func
  ws_eq : ctx'.while_stack = ctx.while_stack
  wf : FDWF fd' ctx'.next_value_id
  nv_le : ctx.next_value_id ≤ ctx'.next_value_id
  bb_le : fd.nextBB ≤ fd'.nextBB
  vals_pres : ∀ v, v < ctx.next_value_id → fd'.vals.lookup v = fd.vals.lookup v
  frame : ∀ b, b < nb0 → c0 ≠ some b → fd'.blocks.lookup b = fd.blocks.lookup b
  grow : ∀ b, b ∈ fd'.blocks.map Prod.fst → b ∈ fd.blocks.map Prod.fst ∨ nb0 ≤ b
  cur_evol : ctx'.current_bb = c0 ∨ ∃ b, ctx'.current_bb = some b ∧ nb0 ≤ b
  cur_lt : curLt fd' ctx'.current_bb
  others : ∀ k', some k' ≠ ctx.func →
             ctx'.program.funcs.lookup k' = ctx.program.funcs.lookup k'

/-- Invariant shape for expression lowering: preserves openness of the
current block. -/
def EInv (ctx ctx' : Context) : Prop :=
  ∀ nb0 c0 fd, FD ctx = some fd → FDWF fd ctx.next_value_id →
    curOpen fd ctx.current_bb → curLt fd ctx.current_bb →
    nb0 ≤ fd.nextBB →
    (ctx.current_bb = c0 ∨ ∃ b, ctx.current_bb = some b ∧ nb0 ≤ b) →
    ∃ fd', FD ctx' = some fd' ∧ SegFacts nb0 c0 ctx ctx' fd fd'
      ∧ curOpen fd' ctx'.current_bb

/-- Invariant shape for statement lowering: the exit block may have been
terminated (return/break/continue). -/
def WInv (ctx ctx' : Context) : Prop :=
  ∀ nb0 c0 fd, FD ctx = some fd → FDWF fd ctx.next_value_id →
    curOpen fd ctx.current_bb → curLt fd ctx.current_bb →
    nb0 ≤ fd.nextBB →
    (ctx.current_bb = c0 ∨ ∃ b, ctx.current_bb = some b ∧ nb0 ≤ b) →
    ∃ fd', FD ctx' = some fd' ∧ SegFacts nb0 c0 ctx ctx' fd fd'

theorem EInv.toW {ctx ctx' : Context} (h : EInv ctx ctx') : WInv ctx ctx' :=
  fun nb0 c0 fd h1 h2 h3 h4 h5 h6 =>
    (h nb0 c0 fd h1 h2 h3 h4 h5 h6).imp (fun _ hh => ⟨hh.1, hh.2.1⟩)

theorem SegFacts.strans {nb0 : Nat} {c0 : Option BasicBlock}
    {c1 c2 c3 : Context} {fd1 fd2 fd3 : FuncData}
    (a : SegFacts nb0 c0 c1 c2 fd1 fd2) (b : SegFacts nb0 c0 c2 c3 fd2 fd3) :
    SegFacts nb0 c0 c1 c3 fd1 fd3 := by
  refine ⟨?_, ?_, b.wf, le_trans a.nv_le b.nv_le, le_trans a.bb_le b.bb_le,
    ?_, ?_, ?_, b.cur_evol, b.cur_lt, ?_⟩
  · rw [b.func_eq, a.func_eq]
  · rw [b.ws_eq, a.ws_eq]
  · intro v hv
    rw [b.vals_pres v (lt_of_lt_of_le hv a.nv_le), a.vals_pres v hv]
  · intro bb hlt hne
    rw [b.frame bb hlt hne, a.frame bb hlt hne]
  · intro bb hmem
    rcases b.grow bb hmem with h | h
    · exact a.grow bb h
    · exact Or.inr h
  · intro k' hk
    have hk2 : some k' ≠ c2.func := by rw [a.func_eq]; exact hk
    rw [b.others k' hk2, a.others k' hk]

theorem EInv.trans {c1 c2 c3 : Context} (a : EInv c1 c2) (b : EInv c2 c3) :
    EInv c1 c3 := by
  intro nb0 c0 fd h1 h2 h3 h4 h5 h6
  obtain ⟨fd2, hfd2, sf, ho⟩ := a nb0 c0 fd h1 h2 h3 h4 h5 h6
  obtain ⟨fd3, hfd3, sf2, ho2⟩ := b nb0 c0 fd2 hfd2 sf.wf ho sf.cur_lt
    (le_trans h5 sf.bb_le) sf.cur_evol
  exact ⟨fd3, hfd3, sf.strans sf2, ho2⟩

theorem EInv.trans_w {c1 c2 c3 : Context} (a : EInv c1 c2) (b : WInv c2 c3) :
    WInv c1 c3 := by
  intro nb0 c0 fd h1 h2 h3 h4 h5 h6
  obtain ⟨fd2, hfd2, sf, ho⟩ := a nb0 c0 fd h1 h2 h3 h4 h5 h6
  obtain ⟨fd3, hfd3, sf2⟩ := b nb0 c0 fd2 hfd2 sf.wf ho sf.cur_lt
    (le_trans h5 sf.bb_le) sf.cur_evol
  exact ⟨fd3, hfd3, sf.strans sf2⟩

/-! ## Basic facts about the context primitives -/

theorem FD_iff_funcdata {ctx : Context} {fd : FuncData} :
    FD ctx = some fd ↔ ctx.func_data = .ok fd := by
  unfold FD Context.func_data
  cases ctx.func with
  | none => simp
  | some k =>
    cases h : ctx.program.funcs.lookup k <;> simp [h]

@[simp] theorem setFD_func (ctx : Context) (fd : FuncData) :
    (ctx.setFD fd).func = ctx.func := by
  unfold Context.setFD
  cases h : ctx.func <;> simp [h]

@[simp] theorem setFD_current_bb (ctx : Context) (fd : FuncData) :
    (ctx.setFD fd).current_bb = ctx.current_bb := by
  unfold Context.setFD
  cases h : ctx.func <;> simp [h]

@[simp] theorem setFD_while_stack (ctx : Context) (fd : FuncData) :
    (ctx.setFD fd).while_stack = ctx.while_stack := by
  unfold Context.setFD
  cases h : ctx.func <;> simp [h]

@[simp] theorem setFD_next_value_id (ctx : Context) (fd : FuncData) :
    (ctx.setFD fd).next_value_id = ctx.next_value_id := by
  unfold Context.setFD
  cases h : ctx.func <;> simp [h]

@[simp] theorem setFD_scope (ctx : Context) (fd : FuncData) :
    (ctx.setFD fd).scope = ctx.scope := by
  unfold Context.setFD
  cases h : ctx.func <;> simp [h]

@[simp] theorem setFD_func_table (ctx : Context) (fd : FuncData) :
    (ctx.setFD fd).func_table = ctx.func_table := by
  unfold Context.setFD
  cases h : ctx.func <;> simp [h]

@[simp] theorem setFD_temp_count (ctx : Context) (fd : FuncData) :
    (ctx.setFD fd).temp_count = ctx.temp_count := by
  unfold Context.setFD
  cases h : ctx.func <;> simp [h]

theorem setFD_lookup_self {ctx : Context} {k : Nat} (hf : ctx.func = some k)
    (h : (ctx.program.funcs.lookup k).isSome) (fd₁ : FuncData) :
    (ctx.setFD fd₁).program.funcs.lookup k = some fd₁ := by
  unfold Context.setFD
  rw [hf]
  exact lookup_assocUpdate_self _ _ _ h

theorem FD_setFD {ctx : Context} {fd : FuncData} (h : FD ctx = some fd)
    (fd₁ : FuncData) : FD (ctx.setFD fd₁) = some fd₁ := by
  have hs : ∃ k, ctx.func = some k ∧ ctx.program.funcs.lookup k = some fd := by
    unfold FD at h
    cases hf : ctx.func with
    | none => rw [hf] at h; simp at h
    | some k => rw [hf] at h; exact ⟨k, rfl, h⟩
  obtain ⟨k, hf, hl⟩ := hs
  unfold FD
  rw [setFD_func, hf]
  exact setFD_lookup_self hf (by rw [hl]; rfl) fd₁

theorem setFD_others {ctx : Context} (fd₁ : FuncData) (k' : Nat)
    (h : some k' ≠ ctx.func) :
    (ctx.setFD fd₁).program.funcs.lookup k' = ctx.program.funcs.lookup k' := by
  unfold Context.setFD
  cases hf : ctx.func with
  | none => rfl
  | some k =>
    rw [hf] at h
    exact lookup_assocUpdate_ne _ _ _ _ (by intro hk; exact h (by rw [hk]))

/-! ## Stability lemmas for function-data operations -/

@[simp] theorem add_inst_vals (fd : FuncData) (bb : BasicBlock) (v : Value) :
    (fd.add_inst bb v).vals = fd.vals := rfl

@[simp] theorem add_inst_nextBB (fd : FuncData) (bb : BasicBlock) (v : Value) :
    (fd.add_inst bb v).nextBB = fd.nextBB := rfl

@[simp] theorem add_bb_vals (fd : FuncData) (bb : BasicBlock) :
    (fd.add_bb bb).vals = fd.vals := rfl

@[simp] theorem add_bb_nextBB (fd : FuncData) (bb : BasicBlock) :
    (fd.add_bb bb).nextBB = fd.nextBB := rfl

theorem keys_add_inst (fd : FuncData) (bb : BasicBlock) (v : Value) :
    (fd.add_inst bb v).blocks.map Prod.fst = fd.blocks.map Prod.fst := by
  unfold FuncData.add_inst
  simp only [List.map_map]
  congr 1
  funext p
  by_cases h : p.1 = bb <;> simp [h]

theorem keys_add_bb (fd : FuncData) (bb : BasicBlock) :
    (fd.add_bb bb).blocks.map Prod.fst = fd.blocks.map Prod.fst ++ [bb] := by
  simp [FuncData.add_bb]

theorem inst_is_term_vals_cons (fd : FuncData) (w : Value) (d : ValueData)
    (t : Ty) (v : Value) (h : v ≠ w) :
    FuncData.inst_is_term { fd with vals := (w, d, t) :: fd.vals } v
      = fd.inst_is_term v := by
  simp [FuncData.inst_is_term, lookup_cons_ne _ _ _ _ h]

theorem inst_is_term_add_inst (fd : FuncData) (bb : BasicBlock) (w v : Value) :
    (fd.add_inst bb w).inst_is_term v = fd.inst_is_term v := rfl

theorem inst_is_term_add_bb (fd : FuncData) (bb : BasicBlock) (v : Value) :
    (fd.add_bb bb).inst_is_term v = fd.inst_is_term v := rfl

theorem block_insts_add_bb_old (fd : FuncData) (bb b : BasicBlock)
    (l : List Value) (h : fd.blocks.lookup b = some l) :
    (fd.add_bb bb).blocks.lookup b = some l := by
  simp [FuncData.add_bb, lookup_append, h]

theorem block_insts_add_bb_new (fd : FuncData) (bb : BasicBlock)
    (h : fd.blocks.lookup bb = none) :
    (fd.add_bb bb).blocks.lookup bb = some [] := by
  simp [FuncData.add_bb, lookup_append, h, lookup_cons_self]

theorem lookup_none_of_not_mem_keys {β : Type} {l : List (Nat × β)} {k : Nat}
    (h : k ∉ l.map Prod.fst) : List.lookup k l = none := by
  induction l with
  | nil => rfl
  | cons p rest ih =>
    obtain ⟨a, b⟩ := p
    simp only [List.map_cons, List.mem_cons] at h
    push_neg at h
    have hb : (k == a) = false := by simpa using h.1
    simp only [List.lookup, hb]
    exact ih h.2

theorem mem_keys_of_lookup {β : Type} {l : List (Nat × β)} {k : Nat} {b : β}
    (h : List.lookup k l = some b) : k ∈ l.map Prod.fst := by
  by_contra hc
  rw [lookup_none_of_not_mem_keys hc] at h
  exact absurd h (by simp)

theorem mem_of_lookup {β : Type} {l : List (Nat × β)} {k : Nat} {b : β}
    (h : List.lookup k l = some b) : (k, b) ∈ l := by
  induction l with
  | nil => simp [List.lookup] at h
  | cons p rest ih =>
    obtain ⟨a, c⟩ := p
    by_cases hk : k = a
    · subst hk
      rw [lookup_cons_self] at h
      injection h with h
      subst h
      exact List.mem_cons_self _ _
    · rw [lookup_cons_ne _ _ _ _ hk] at h
      exact List.mem_cons_of_mem _ (ih h)

theorem lookup_of_mem_nodup {β : Type} {l : List (Nat × β)} {k : Nat} {b : β}
    (hn : (l.map Prod.fst).Nodup) (hm : (k, b) ∈ l) : List.lookup k l = some b := by
  induction l with
  | nil => simp at hm
  | cons p rest ih =>
    obtain ⟨a, c⟩ := p
    simp only [List.map_cons, List.nodup_cons] at hn
    rcases List.mem_cons.mp hm with h | h
    · injection h with h1 h2
      subst h1
      subst h2
      exact lookup_cons_self _ _ _
    · have hka : k ≠ a := by
        intro hk
        subst hk
        exact hn.1 (List.mem_map.mpr ⟨(k, b), h, rfl⟩)
      rw [lookup_cons_ne _ _ _ _ hka]
      exact ih hn.2 h

theorem mem_dropLast_or_getLast {α : Type} {l : List α} {y : α} (h : y ∈ l) :
    y ∈ l.dropLast ∨ l.getLast? = some y := by
  induction l with
  | nil => simp at h
  | cons x rest ih =>
    cases rest with
    | nil =>
      simp at h
      subst h
      simp
    | cons z zs =>
      rcases List.mem_cons.mp h with h1 | h1
      · subst h1
        left
        simp
      · rcases ih h1 with h2 | h2
        · left
          simpa using Or.inr h2
        · right
          simpa using h2

theorem TermOk_append {fd : FuncData} {l : List Value} {v : Value}
    (h : TermOk fd l)
    (hlast : ∀ x, l.getLast? = some x → fd.inst_is_term x = false) :
    TermOk fd (l ++ [v]) := by
  intro y hy
  rw [List.dropLast_concat] at hy
  rcases mem_dropLast_or_getLast hy with h1 | h1
  · exact h y h1
  · exact hlast y h1

theorem TermOk_congr {fd fd' : FuncData} {l : List Value}
    (h : TermOk fd l)
    (heq : ∀ v ∈ l, fd'.inst_is_term v = fd.inst_is_term v) :
    TermOk fd' l := by
  intro y hy
  rw [heq y (List.dropLast_subset _ hy)]
  exact h y hy

/-! ## Preservation of function-level well-formedness by the primitives -/

theorem getLast?_mem {α : Type} {l : List α} {x : α} (h : l.getLast? = some x) :
    x ∈ l := by
  induction l with
  | nil => simp at h
  | cons a rest ih =>
    cases rest with
    | nil =>
      simp at h
      subst h
      simp
    | cons b bs =>
      rw [List.getLast?_cons_cons] at h
      exact List.mem_cons_of_mem _ (ih h)

theorem FDWF.mono {fd : FuncData} {nv nv' : Nat} (h : FDWF fd nv) (hle : nv ≤ nv') :
    FDWF fd nv' := by
  refine ⟨?_, h.blocksLt, ?_, h.termOk, h.blocksNodup⟩
  · intro p hp
    exact lt_of_lt_of_le (h.valsLt p hp) hle
  · intro p hp v hv
    exact lt_of_lt_of_le (h.instsLt p hp v hv) hle

theorem inst_is_term_names (fd : FuncData) (ns : List (Value × String)) (v : Value) :
    FuncData.inst_is_term { fd with names := ns } v = fd.inst_is_term v := rfl

theorem FDWF.setNames {fd : FuncData} {nv : Nat} (h : FDWF fd nv)
    (ns : List (Value × String)) : FDWF { fd with names := ns } nv := by
  refine ⟨h.valsLt, h.blocksLt, h.instsLt, ?_, h.blocksNodup⟩
  intro p hp
  exact TermOk_congr (h.termOk p hp) (fun v _ => inst_is_term_names fd ns v)

theorem FDWF.consVal {fd : FuncData} {nv : Nat} (h : FDWF fd nv)
    (d : ValueData) (t : Ty) :
    FDWF { fd with vals := (nv, d, t) :: fd.vals } (nv + 1) := by
  refine ⟨?_, h.blocksLt, ?_, ?_, h.blocksNodup⟩
  · intro p hp
    rcases List.mem_cons.mp hp with h1 | h1
    · subst h1; simp
    · exact lt_of_lt_of_le (h.valsLt p h1) (Nat.le_succ nv)
  · intro p hp v hv
    exact lt_of_lt_of_le (h.instsLt p hp v hv) (Nat.le_succ nv)
  · intro p hp
    refine TermOk_congr (h.termOk p hp) (fun v hvmem => ?_)
    exact inst_is_term_vals_cons fd nv d t v
      (Nat.ne_of_lt (h.instsLt p hp v hvmem))

theorem block_ended_vals_cons {fd : FuncData} {nv : Nat}
    (h : FDWF fd nv) (d : ValueData) (t : Ty) (bb : BasicBlock) :
    FuncData.block_ended_b { fd with vals := (nv, d, t) :: fd.vals } bb
      = fd.block_ended_b bb := by
  unfold FuncData.block_ended_b FuncData.block_insts
  have hb : ({ fd with vals := (nv, d, t) :: fd.vals } : FuncData).blocks
      = fd.blocks := rfl
  rw [hb]
  cases hl : fd.blocks.lookup bb with
  | none => rfl
  | some l =>
    simp only [Option.getD_some]
    cases hlast : l.getLast? with
    | none => rfl
    | some x =>
      exact inst_is_term_vals_cons fd nv d t x
        (Nat.ne_of_lt (h.instsLt (bb, l) (mem_of_lookup hl) x (getLast?_mem hlast)))

theorem block_ended_add_inst_ne (fd : FuncData) (bb b : BasicBlock) (v : Value)
    (h : b ≠ bb) :
    (fd.add_inst bb v).block_ended_b b = fd.block_ended_b b := by
  unfold FuncData.block_ended_b FuncData.block_insts
  rw [show (fd.add_inst bb v).blocks.lookup b = fd.blocks.lookup b from
    lookup_map_addInst_ne fd.blocks bb b v h]
  rfl

theorem mem_add_inst {fd : FuncData} {bb : BasicBlock} {v : Value} {p} 
    (hp : p ∈ (fd.add_inst bb v).blocks) :
    ∃ q ∈ fd.blocks, (q.1 ≠ bb ∧ p = q) ∨ (q.1 = bb ∧ p = (q.1, q.2 ++ [v])) := by
  unfold FuncData.add_inst at hp
  simp only [List.mem_map] at hp
  obtain ⟨q, hq, hfq⟩ := hp
  refine ⟨q, hq, ?_⟩
  by_cases h : q.1 = bb
  · right
    refine ⟨h, ?_⟩
    rw [← hfq]
    simp [h]
  · left
    refine ⟨h, ?_⟩
    rw [← hfq]
    simp [h]

theorem FDWF.addInst {fd : FuncData} {nv : Nat} (h : FDWF fd nv)
    {bb : BasicBlock} {v : Value}
    (hopen : fd.block_ended_b bb = false) (hv : v < nv) :
    FDWF (fd.add_inst bb v) nv := by
  refine ⟨h.valsLt, ?_, ?_, ?_, ?_⟩
  · intro p hp
    obtain ⟨q, hq, hcase⟩ := mem_add_inst hp
    have hlt := h.blocksLt q hq
    rcases hcase with ⟨_, hpq⟩ | ⟨_, hpq⟩ <;> subst hpq <;> simpa using hlt
  · intro p hp w hw
    obtain ⟨q, hq, hcase⟩ := mem_add_inst hp
    rcases hcase with ⟨_, hpq⟩ | ⟨_, hpq⟩
    · subst hpq
      exact h.instsLt p hq w hw
    · subst hpq
      rcases (show w ∈ q.2 ∨ w = v by simpa using hw) with hw2 | hw2
      · exact h.instsLt q hq w hw2
      · subst hw2
        exact hv
  · intro p hp
    obtain ⟨q, hq, hcase⟩ := mem_add_inst hp
    rcases hcase with ⟨_, hpq⟩ | ⟨hqb, hpq⟩
    · subst hpq
      exact TermOk_congr (h.termOk p hq) (fun w _ => inst_is_term_add_inst fd bb v w)
    · subst hpq
      show TermOk (fd.add_inst bb v) (q.2 ++ [v])
      refine TermOk_congr ?_ (fun w _ => inst_is_term_add_inst fd bb v w)
      refine TermOk_append (h.termOk q hq) (fun x hx => ?_)
      have hlk : fd.blocks.lookup q.1 = some q.2 :=
        lookup_of_mem_nodup h.blocksNodup (by simpa using hq)
      rw [hqb] at hlk
      unfold FuncData.block_ended_b FuncData.block_insts at hopen
      rw [hlk] at hopen
      simp only [Option.getD_some] at hopen
      rw [hx] at hopen
      exact hopen
  · rw [show (fd.add_inst bb v).blocks.map Prod.fst = fd.blocks.map Prod.fst from
      keys_add_inst fd bb v]
    exact h.blocksNodup

theorem FDWF.addBB {fd : FuncData} {nv : Nat} (h : FDWF fd nv)
    {bb : BasicBlock} (hnot : bb ∉ fd.blocks.map Prod.fst) (hlt : bb < fd.nextBB) :
    FDWF (fd.add_bb bb) nv := by
  refine ⟨h.valsLt, ?_, ?_, ?_, ?_⟩
  · intro p hp
    unfold FuncData.add_bb at hp
    simp only [List.mem_append, List.mem_singleton] at hp
    rcases hp with hp | hp
    · exact h.blocksLt p hp
    · subst hp; exact hlt
  · intro p hp w hw
    unfold FuncData.add_bb at hp
    simp only [List.mem_append, List.mem_singleton] at hp
    rcases hp with hp | hp
    · exact h.instsLt p hp w hw
    · subst hp; simp at hw
  · intro p hp
    unfold FuncData.add_bb at hp
    simp only [List.mem_append, List.mem_singleton] at hp
    rcases hp with hp | hp
    · exact TermOk_congr (h.termOk p hp) (fun w _ => inst_is_term_add_bb fd bb w)
    · subst hp
      intro w hw
      simp at hw
  · rw [keys_add_bb]
    simp [List.nodup_append, h.blocksNodup, hnot]

theorem FDWF.bumpBB {fd : FuncData} {nv : Nat} (h : FDWF fd nv) :
    FDWF { fd with nextBB := fd.nextBB + 1 } nv := by
  refine ⟨h.valsLt, ?_, h.instsLt, ?_, h.blocksNodup⟩
  · intro p hp
    exact Nat.lt_succ_of_lt (h.blocksLt p hp)
  · intro p hp
    exact TermOk_congr (h.termOk p hp) (fun w _ => rfl)

theorem inst_is_term_of_pres {fd fd' : FuncData} {nv : Nat} {v : Value}
    (hpres : ∀ w, w < nv → fd'.vals.lookup w = fd.vals.lookup w)
    (hv : v < nv) : fd'.inst_is_term v = fd.inst_is_term v := by
  unfold FuncData.inst_is_term
  rw [hpres v hv]

theorem block_ended_congr {fd fd' : FuncData} {bb : BasicBlock}
    (hl : fd'.blocks.lookup bb = fd.blocks.lookup bb)
    (hterm : ∀ v ∈ (fd.blocks.lookup bb).getD [],
      fd'.inst_is_term v = fd.inst_is_term v) :
    fd'.block_ended_b bb = fd.block_ended_b bb := by
  unfold FuncData.block_ended_b FuncData.block_insts
  rw [hl]
  cases hlk : fd.blocks.lookup bb with
  | none => rfl
  | some l =>
    simp only [Option.getD_some]
    cases hlast : l.getLast? with
    | none => rfl
    | some x =>
      exact hterm x (by rw [hlk]; exact getLast?_mem hlast)

/-! ## Inversion lemmas for the monad and the context primitives -/

theorem bind_ok_inv {α β : Type} {x : M α} {f : α → M β} {ctx : Context}
    {b : β} {ctx' : Context} (h : (x >>= f) ctx = .ok b ctx') :
    ∃ a cmid, x ctx = .ok a cmid ∧ f a cmid = .ok b ctx' := by
  have hb : (x >>= f) ctx
      = match x ctx with
        | .ok a ctx1 => f a ctx1
        | .err e => .err e
        | .fatal c => .fatal c := rfl
  rw [hb] at h
  cases hx : x ctx with
  | ok a cmid =>
    rw [hx] at h
    exact ⟨a, cmid, rfl, h⟩
  | err e => rw [hx] at h; exact absurd h (by simp)
  | fatal c => rw [hx] at h; exact absurd h (by simp)

theorem pure_ok_inv {α : Type} {a : α} {ctx : Context} {b : α} {ctx' : Context}
    (h : (pure a : M α) ctx = .ok b ctx') : b = a ∧ ctx' = ctx := by
  have : (pure a : M α) ctx = .ok a ctx := rfl
  rw [this] at h
  injection h with h1 h2
  exact ⟨h1.symm, h2.symm⟩

theorem mGetBB_spec {ctx : Context} {bb : BasicBlock} {ctx' : Context}
    (h : mGetBB ctx = .ok bb ctx') :
    ctx' = ctx ∧ ctx.current_bb = some bb := by
  unfold mGetBB Context.get_bb at h
  cases hc : ctx.current_bb with
  | none => rw [hc] at h; exact absurd h (by simp)
  | some b =>
    rw [hc] at h
    simp only [MRes.ok.injEq] at h
    refine ⟨h.2.symm, ?_⟩
    rw [h.1]

theorem funcdata_of_FD {ctx : Context} {fd : FuncData} (h : FD ctx = some fd) :
    ctx.func_data = .ok fd := FD_iff_funcdata.mp h

theorem ctxNewValue_spec {d : ValueData} {ctx : Context} {v : Value}
    {ctx' : Context} (h : ctxNewValue d ctx = .ok v ctx') :
    ∃ fd, FD ctx = some fd ∧ v = ctx.next_value_id
      ∧ FD ctx' = some { fd with vals := (v, d, ctx.computeTy d) :: fd.vals }
      ∧ ctx'.func = ctx.func ∧ ctx'.current_bb = ctx.current_bb
      ∧ ctx'.while_stack = ctx.while_stack
      ∧ ctx'.next_value_id = ctx.next_value_id + 1
      ∧ ctx'.scope = ctx.scope ∧ ctx'.func_table = ctx.func_table
      ∧ (∀ k', some k' ≠ ctx.func →
          ctx'.program.funcs.lookup k' = ctx.program.funcs.lookup k') := by
  unfold ctxNewValue at h
  cases hfd : ctx.func_data with
  | error e => rw [hfd] at h; exact absurd h (by simp)
  | ok fd =>
    rw [hfd] at h
    simp only [MRes.ok.injEq] at h
    obtain ⟨hv, hctx⟩ := h
    have hFD : FD ctx = some fd := FD_iff_funcdata.mpr hfd
    subst hv
    subst hctx
    refine ⟨fd, hFD, rfl, ?_, by simp, by simp, by simp, by simp, by simp, by simp, ?_⟩
    · have := FD_setFD hFD { fd with vals := (ctx.next_value_id, d, ctx.computeTy d) :: fd.vals }
      unfold FD at this ⊢
      simp only [setFD_func] at this ⊢
      exact this
    · intro k' hk
      simpa using setFD_others _ k' hk

theorem ctxAddInst_spec {bb : BasicBlock} {v : Value} {ctx : Context}
    {ctx' : Context} (h : ctxAddInst bb v ctx = .ok () ctx') :
    ∃ fd, FD ctx = some fd
      ∧ FD ctx' = some (fd.add_inst bb v)
      ∧ ctx'.func = ctx.func ∧ ctx'.current_bb = ctx.current_bb
      ∧ ctx'.while_stack = ctx.while_stack
      ∧ ctx'.next_value_id = ctx.next_value_id
      ∧ ctx'.scope = ctx.scope ∧ ctx'.func_table = ctx.func_table
      ∧ (∀ k', some k' ≠ ctx.func →
          ctx'.program.funcs.lookup k' = ctx.program.funcs.lookup k') := by
  unfold ctxAddInst at h
  cases hfd : ctx.func_data with
  | error e => rw [hfd] at h; exact absurd h (by simp)
  | ok fd =>
    rw [hfd] at h
    simp only [MRes.ok.injEq] at h
    have hFD : FD ctx = some fd := FD_iff_funcdata.mpr hfd
    replace h := h.2
    subst h
    refine ⟨fd, hFD, FD_setFD hFD _, by simp, by simp, by simp, by simp, by simp,
      by simp, fun k' hk => setFD_others _ k' hk⟩

theorem ctxAddBB_spec {bb : BasicBlock} {ctx : Context} {ctx' : Context}
    (h : ctxAddBB bb ctx = .ok () ctx') :
    ∃ fd, FD ctx = some fd
      ∧ FD ctx' = some (fd.add_bb bb)
      ∧ ctx'.func = ctx.func ∧ ctx'.current_bb = ctx.current_bb
      ∧ ctx'.while_stack = ctx.while_stack
      ∧ ctx'.next_value_id = ctx.next_value_id
      ∧ ctx'.scope = ctx.scope ∧ ctx'.func_table = ctx.func_table
      ∧ (∀ k', some k' ≠ ctx.func →
          ctx'.program.funcs.lookup k' = ctx.program.funcs.lookup k') := by
  unfold ctxAddBB at h
  cases hfd : ctx.func_data with
  | error e => rw [hfd] at h; exact absurd h (by simp)
  | ok fd =>
    rw [hfd] at h
    simp only [MRes.ok.injEq] at h
    have hFD : FD ctx = some fd := FD_iff_funcdata.mpr hfd
    replace h := h.2
    subst h
    refine ⟨fd, hFD, FD_setFD hFD _, by simp, by simp, by simp, by simp, by simp,
      by simp, fun k' hk => setFD_others _ k' hk⟩

theorem ctxNewBB_spec {ctx : Context} {bb : BasicBlock} {ctx' : Context}
    (h : ctxNewBB ctx = .ok bb ctx') :
    ∃ fd, FD ctx = some fd ∧ bb = fd.nextBB
      ∧ FD ctx' = some { fd with nextBB := fd.nextBB + 1 }
      ∧ ctx'.func = ctx.func ∧ ctx'.current_bb = ctx.current_bb
      ∧ ctx'.while_stack = ctx.while_stack
      ∧ ctx'.next_value_id = ctx.next_value_id
      ∧ ctx'.scope = ctx.scope ∧ ctx'.func_table = ctx.func_table
      ∧ (∀ k', some k' ≠ ctx.func →
          ctx'.program.funcs.lookup k' = ctx.program.funcs.lookup k') := by
  unfold ctxNewBB at h
  cases hfd : ctx.func_data with
  | error e => rw [hfd] at h; exact absurd h (by simp)
  | ok fd =>
    rw [hfd] at h
    simp only [MRes.ok.injEq] at h
    obtain ⟨hb, hctx⟩ := h
    have hFD : FD ctx = some fd := FD_iff_funcdata.mpr hfd
    subst hb
    subst hctx
    refine ⟨fd, hFD, rfl, FD_setFD hFD _, by simp, by simp, by simp, by simp,
      by simp, by simp, fun k' hk => setFD_others _ k' hk⟩

theorem setCurrentBB_spec {bb : BasicBlock} {ctx : Context} {ctx' : Context}
    (h : setCurrentBB bb ctx = .ok () ctx') :
    ctx' = { ctx with current_bb := some bb } := by
  unfold setCurrentBB at h
  simp only [MRes.ok.injEq] at h
  exact h.2.symm

theorem ctxSetValueName_spec {v : Value} {name : String} {ctx : Context}
    {ctx' : Context} (h : ctxSetValueName v name ctx = .ok () ctx') :
    ∃ fd, FD ctx = some fd
      ∧ FD ctx' = some { fd with names := (v, name) :: fd.names }
      ∧ ctx'.func = ctx.func ∧ ctx'.current_bb = ctx.current_bb
      ∧ ctx'.while_stack = ctx.while_stack
      ∧ ctx'.next_value_id = ctx.next_value_id
      ∧ ctx'.scope = ctx.scope ∧ ctx'.func_table = ctx.func_table
      ∧ (∀ k', some k' ≠ ctx.func →
          ctx'.program.funcs.lookup k' = ctx.program.funcs.lookup k') := by
  unfold ctxSetValueName at h
  cases hfd : ctx.func_data with
  | error e => rw [hfd] at h; exact absurd h (by simp)
  | ok fd =>
    rw [hfd] at h
    simp only [MRes.ok.injEq] at h
    have hFD : FD ctx = some fd := FD_iff_funcdata.mpr hfd
    replace h := h.2
    subst h
    refine ⟨fd, hFD, FD_setFD hFD _, by simp, by simp, by simp, by simp, by simp,
      by simp, fun k' hk => setFD_others _ k' hk⟩

theorem ctxTempValueName_spec {ctx : Context} {s : String} {ctx' : Context}
    (h : ctxTempValueName ctx = .ok s ctx') :
    ctx' = { ctx with temp_count := ctx.temp_count + 1 } := by
  unfold ctxTempValueName at h
  simp only [MRes.ok.injEq] at h
  exact h.2.symm

theorem ctxBlockEnded_spec {bb : BasicBlock} {ctx : Context} {b : Bool}
    {ctx' : Context} (h : ctxBlockEnded bb ctx = .ok b ctx') :
    ctx' = ctx ∧ ∃ fd, FD ctx = some fd ∧ b = fd.block_ended_b bb := by
  unfold ctxBlockEnded at h
  cases hfd : ctx.func_data with
  | error e => rw [hfd] at h; exact absurd h (by simp)
  | ok fd =>
    rw [hfd] at h
    simp only [MRes.ok.injEq] at h
    exact ⟨h.2.symm, fd, FD_iff_funcdata.mpr hfd, h.1.symm⟩

theorem mGetIdentifier_spec {name : String} {ctx : Context}
    {o : Option Identifier} {ctx' : Context}
    (h : mGetIdentifier name ctx = .ok o ctx') :
    ctx' = ctx ∧ o = ctx.scope.get_identifier name := by
  unfold mGetIdentifier at h
  simp only [MRes.ok.injEq] at h
  exact ⟨h.2.symm, h.1.symm⟩

theorem mEvalExpr_spec {e : Expr} {ctx : Context} {r : EvalResult}
    {ctx' : Context} (h : mEvalExpr e ctx = .ok r ctx') :
    ctx' = ctx ∧ r = e.eval ctx.scope := by
  unfold mEvalExpr at h
  simp only [MRes.ok.injEq] at h
  exact ⟨h.2.symm, h.1.symm⟩

theorem mEvalConst_spec {c : ConstExpr} {ctx : Context} {r : EvalResult}
    {ctx' : Context} (h : mEvalConst c ctx = .ok r ctx') :
    ctx' = ctx ∧ r = c.eval ctx.scope := by
  unfold mEvalConst at h
  simp only [MRes.ok.injEq] at h
  exact ⟨h.2.symm, h.1.symm⟩

theorem scopeAddIdentifier_spec {name : String} {id : Identifier} {ctx : Context}
    {b : Bool} {ctx' : Context} (h : scopeAddIdentifier name id ctx = .ok b ctx') :
    ∃ sc', ctx' = { ctx with scope := sc' } := by
  unfold scopeAddIdentifier at h
  cases ha : ctx.scope.add_identifier name id with
  | ok s =>
    rw [ha] at h
    simp only [MRes.ok.injEq] at h
    exact ⟨s, h.2.symm⟩
  | error u =>
    rw [ha] at h
    simp only [MRes.ok.injEq] at h
    refine ⟨ctx.scope, ?_⟩
    rw [← h.2]

theorem mthrow_not_ok {e : ParseError} {ctx : Context} {a : α} {ctx' : Context}
    (h : (mthrow e : M α) ctx = .ok a ctx') : False := by
  unfold mthrow at h
  exact absurd h (by simp)

theorem show_error_not_ok {msg : String} {code : Nat} {ctx : Context} {a : α}
    {ctx' : Context} (h : (show_error msg code : M α) ctx = .ok a ctx') : False := by
  unfold show_error at h
  exact absurd h (by simp)

theorem mGetFunc_spec {ctx : Context} {k : Nat} {ctx' : Context}
    (h : mGetFunc ctx = .ok k ctx') : ctx' = ctx ∧ ctx.func = some k := by
  unfold mGetFunc Context.get_func at h
  cases hf : ctx.func with
  | none => rw [hf] at h; exact absurd h (by simp)
  | some j =>
    rw [hf] at h
    simp only [MRes.ok.injEq] at h
    exact ⟨h.2.symm, by rw [h.1]⟩

theorem mIsGlobal_spec {ctx : Context} {b : Bool} {ctx' : Context}
    (h : mIsGlobal ctx = .ok b ctx') : ctx' = ctx ∧ b = ctx.func.isNone := by
  unfold mIsGlobal Context.is_global at h
  simp only [MRes.ok.injEq] at h
  exact ⟨h.2.symm, h.1.symm⟩

theorem mCurrentScopeId_spec {ctx : Context} {n : Nat} {ctx' : Context}
    (h : mCurrentScopeId ctx = .ok n ctx') :
    ctx' = ctx ∧ n = ctx.scope.current_scope_id := by
  unfold mCurrentScopeId at h
  simp only [MRes.ok.injEq] at h
  exact ⟨h.2.symm, h.1.symm⟩

theorem get_type_spec {v : Value} {ctx : Context} {t : Ty} {ctx' : Context}
    (h : get_type v ctx = .ok t ctx') : ctx' = ctx := by
  unfold get_type at h
  cases hfd : ctx.func_data with
  | error e =>
    rw [hfd] at h
    simp only [MRes.ok.injEq] at h
    exact h.2.symm
  | ok fd =>
    rw [hfd] at h
    cases hv : fd.vals.lookup v with
    | none =>
      simp only [hv, MRes.ok.injEq] at h
      exact h.2.symm
    | some p =>
      obtain ⟨d0, t0⟩ := p
      simp only [hv, MRes.ok.injEq] at h
      exact h.2.symm

theorem mFuncValueTy_spec {v : Value} {ctx : Context} {t : Ty} {ctx' : Context}
    (h : mFuncValueTy v ctx = .ok t ctx') : ctx' = ctx := by
  unfold mFuncValueTy at h
  cases hfd : ctx.func_data with
  | error e => rw [hfd] at h; exact absurd h (by simp)
  | ok fd =>
    rw [hfd] at h
    simp only [MRes.ok.injEq] at h
    exact h.2.symm

theorem mNewGlobalValue_spec {d : ValueData} {ctx : Context} {v : Value}
    {ctx' : Context} (h : mNewGlobalValue d ctx = .ok v ctx') :
    v = ctx.next_value_id
      ∧ ctx'.program.funcs = ctx.program.funcs
      ∧ ctx'.func = ctx.func ∧ ctx'.current_bb = ctx.current_bb
      ∧ ctx'.while_stack = ctx.while_stack
      ∧ ctx'.next_value_id = ctx.next_value_id + 1
      ∧ ctx'.scope = ctx.scope ∧ ctx'.func_table = ctx.func_table := by
  unfold mNewGlobalValue Context.newGlobalValue at h
  simp only [MRes.ok.injEq] at h
  obtain ⟨hv, hctx⟩ := h
  subst hv
  subst hctx
  simp

theorem mSetGlobalValueName_spec {v : Value} {name : String} {ctx : Context}
    {ctx' : Context} (h : mSetGlobalValueName v name ctx = .ok () ctx') :
    ctx'.program.funcs = ctx.program.funcs
      ∧ ctx'.func = ctx.func ∧ ctx'.current_bb = ctx.current_bb
      ∧ ctx'.while_stack = ctx.while_stack
      ∧ ctx'.next_value_id = ctx.next_value_id
      ∧ ctx'.scope = ctx.scope ∧ ctx'.func_table = ctx.func_table := by
  unfold mSetGlobalValueName Context.setGlobalValueName at h
  simp only [MRes.ok.injEq] at h
  replace h := h.2
  subst h
  simp

theorem ctxAddWhileInfo_spec {s e : BasicBlock} {ctx ctx' : Context}
    (h : ctxAddWhileInfo s e ctx = .ok () ctx') :
    ctx' = { ctx with while_stack := ⟨s, e⟩ :: ctx.while_stack } := by
  unfold ctxAddWhileInfo at h
  simp only [MRes.ok.injEq] at h
  exact h.2.symm

theorem ctxPopWhileInfo_spec {ctx ctx' : Context}
    (h : ctxPopWhileInfo ctx = .ok () ctx') :
    ctx' = { ctx with while_stack := ctx.while_stack.tail } := by
  unfold ctxPopWhileInfo at h
  simp only [MRes.ok.injEq] at h
  exact h.2.symm

theorem mScopeInto_spec {id : Nat} {ctx ctx' : Context}
    (h : mScopeInto id ctx = .ok () ctx') :
    ctx' = { ctx with scope := ctx.scope.go_into_scoop id } := by
  unfold mScopeInto at h
  simp only [MRes.ok.injEq] at h
  exact h.2.symm

theorem mScopeOut_spec {ctx ctx' : Context} (h : mScopeOut ctx = .ok () ctx') :
    ctx' = { ctx with scope := ctx.scope.go_out_scoop } := by
  unfold mScopeOut at h
  simp only [MRes.ok.injEq] at h
  exact h.2.symm

theorem ctxEndBlock_spec {bb target : BasicBlock} {ctx ctx' : Context}
    (h : ctxEndBlock bb target ctx = .ok () ctx') :
    ∃ fd, FD ctx = some fd
      ∧ ((fd.block_ended_b bb = true ∧ ctx' = ctx)
        ∨ (fd.block_ended_b bb = false
            ∧ FD ctx' = some (({ fd with
                  vals := (ctx.next_value_id, ValueData.jump target, Ty.unit) :: fd.vals
                } : FuncData).add_inst bb ctx.next_value_id)
            ∧ ctx'.func = ctx.func ∧ ctx'.current_bb = ctx.current_bb
            ∧ ctx'.while_stack = ctx.while_stack
            ∧ ctx'.next_value_id = ctx.next_value_id + 1
            ∧ ctx'.scope = ctx.scope ∧ ctx'.func_table = ctx.func_table
            ∧ (∀ k', some k' ≠ ctx.func →
                ctx'.program.funcs.lookup k' = ctx.program.funcs.lookup k'))) := by
  unfold ctxEndBlock at h
  cases hfd : ctx.func_data with
  | error e => rw [hfd] at h; exact absurd h (by simp)
  | ok fd =>
    rw [hfd] at h
    simp only [] at h
    have hFD : FD ctx = some fd := FD_iff_funcdata.mpr hfd
    by_cases hend : fd.block_ended_b bb
    · rw [if_pos hend] at h
      simp only [MRes.ok.injEq] at h
      exact ⟨fd, hFD, Or.inl ⟨hend, h.2.symm⟩⟩
    · rw [if_neg hend] at h
      cases hnv : ctxNewValue (.jump target) ctx with
      | ok v c2 =>
        rw [hnv] at h
        obtain ⟨fd0, hfd0, hv, hfd', hfunc, hcur, hws, hnvi, hsc, hft, hoth⟩ :=
          ctxNewValue_spec hnv
        rw [hFD] at hfd0
        injection hfd0 with hfd0
        subst hfd0
        subst hv
        obtain ⟨fd1, hfd1, hfd1', hfunc1, hcur1, hws1, hnvi1, hsc1, hft1, hoth1⟩ :=
          ctxAddInst_spec h
        rw [hfd'] at hfd1
        injection hfd1 with hfd1
        subst hfd1
        refine ⟨fd, hFD, Or.inr ⟨by simpa using hend, ?_, ?_, ?_, ?_, ?_, ?_, ?_, ?_⟩⟩
        · rw [hfd1']
          rfl
        · rw [hfunc1, hfunc]
        · rw [hcur1, hcur]
        · rw [hws1, hws]
        · rw [hnvi1, hnvi]
        · rw [hsc1, hsc]
        · rw [hft1, hft]
        · intro k' hk
          rw [hoth1 k' (by rw [hfunc]; exact hk), hoth k' hk]
      | err e =>
        rw [hnv] at h
        exact absurd h (by simp)
      | fatal c =>
        rw [hnv] at h
        exact absurd h (by simp)

theorem mFuncParams_spec {ctx : Context} {ps : List Value} {ctx' : Context}
    (h : mFuncParams ctx = .ok ps ctx') :
    ctx' = ctx ∧ ∃ fd, FD ctx = some fd ∧ ps = fd.params := by
  unfold mFuncParams at h
  cases hfd : ctx.func_data with
  | error e => rw [hfd] at h; exact absurd h (by simp)
  | ok fd =>
    rw [hfd] at h
    simp only [MRes.ok.injEq] at h
    exact ⟨h.2.symm, fd, FD_iff_funcdata.mpr hfd, h.1.symm⟩

theorem mFuncValueNameTail_spec {v : Value} {ctx : Context} {s : String}
    {ctx' : Context} (h : mFuncValueNameTail v ctx = .ok s ctx') : ctx' = ctx := by
  unfold mFuncValueNameTail at h
  cases hfd : ctx.func_data with
  | error e => rw [hfd] at h; exact absurd h (by simp)
  | ok fd =>
    rw [hfd] at h
    simp only [MRes.ok.injEq] at h
    exact h.2.symm

theorem get_array_type_dims_spec {dims : List Int} {ctx : Context} {t : Ty}
    {ctx' : Context} (h : get_array_type_dims dims ctx = .ok t ctx') : ctx' = ctx := by
  unfold get_array_type_dims at h
  by_cases hc : dims.all (fun v => 0 < v)
  · rw [if_pos hc] at h
    simp only [MRes.ok.injEq] at h
    exact h.2.symm
  · rw [if_neg hc] at h
    exact absurd h (by simp)

theorem get_array_type_spec {shape : List ConstExpr} {ctx : Context} {t : Ty}
    {ctx' : Context} (h : get_array_type shape ctx = .ok t ctx') : ctx' = ctx := by
  unfold get_array_type at h
  exact get_array_type_dims_spec h

theorem from_expr_array_spec {shape : List Int} {arr : List ExprArray}
    {ctx : Context} {l : InitializeList} {ctx' : Context}
    (h : InitializeList.from_expr_array shape arr ctx = .ok l ctx') : ctx' = ctx := by
  unfold InitializeList.from_expr_array at h
  simp only [MRes.ok.injEq] at h
  exact h.2.symm

theorem from_const_array_spec {shape : List ConstExpr} {arr : List ConstArray}
    {ctx : Context} {l : InitializeList} {ctx' : Context}
    (h : InitializeList.from_const_array shape arr ctx = .ok l ctx') : ctx' = ctx := by
  unfold InitializeList.from_const_array at h
  simp only [MRes.ok.injEq] at h
  exact h.2.symm

/-! ## Per-primitive invariant lemmas -/

theorem block_ended_add_inst_self (fd : FuncData) (bb : BasicBlock) (v : Value) :
    (fd.add_inst bb v).block_ended_b bb
      = ((fd.blocks.lookup bb).isSome && fd.inst_is_term v) := by
  unfold FuncData.block_ended_b FuncData.block_insts
  rw [show (fd.add_inst bb v).blocks.lookup bb
    = (fd.blocks.lookup bb).map (fun is => is ++ [v]) from FuncData.add_inst_insts fd bb v]
  cases hl : fd.blocks.lookup bb with
  | none => rfl
  | some l =>
    simp only [Option.map_some', Option.getD_some, Option.isSome_some, Bool.true_and]
    rw [List.getLast?_concat]
    rfl

theorem EInv_of_eq {ctx ctx' : Context} (h : ctx' = ctx) : EInv ctx ctx' := by
  subst h
  intro nb0 c0 fd hfd hwf hopen hlt hnb hc0
  refine ⟨fd, hfd, ⟨rfl, rfl, hwf, le_refl _, le_refl _, fun v _ => rfl,
    fun b _ _ => rfl, fun b hb => Or.inl hb, hc0, hlt, fun k' _ => rfl⟩, hopen⟩

theorem EInv_newValue {d : ValueData} {ctx : Context} {v : Value} {ctx' : Context}
    (h : ctxNewValue d ctx = .ok v ctx') : EInv ctx ctx' := by
  intro nb0 c0 fd hfd hwf hopen hlt hnb hc0
  obtain ⟨fd0, hfd0, hv, hfd', hfunc, hcur, hws, hnv, hsc, hft, hoth⟩ :=
    ctxNewValue_spec h
  rw [hfd] at hfd0
  injection hfd0 with hfd0
  subst hfd0
  subst hv
  refine ⟨_, hfd', ⟨hfunc, hws, ?_, by omega, le_refl _, ?_, fun b _ _ => rfl,
    fun b hb => Or.inl hb, by rw [hcur]; exact hc0, ?_, hoth⟩, ?_⟩
  · rw [hnv]
    exact hwf.consVal d (ctx.computeTy d)
  · intro w hw
    exact lookup_cons_ne _ _ _ _ (Nat.ne_of_lt hw)
  · intro bb hbb
    rw [hcur] at hbb
    exact hlt bb hbb
  · intro bb hbb
    rw [hcur] at hbb
    rw [block_ended_vals_cons hwf]
    exact hopen bb hbb

theorem EInv_setValueName {v : Value} {name : String} {ctx ctx' : Context}
    (h : ctxSetValueName v name ctx = .ok () ctx') : EInv ctx ctx' := by
  intro nb0 c0 fd hfd hwf hopen hlt hnb hc0
  obtain ⟨fd0, hfd0, hfd', hfunc, hcur, hws, hnv, hsc, hft, hoth⟩ :=
    ctxSetValueName_spec h
  rw [hfd] at hfd0
  injection hfd0 with hfd0
  subst hfd0
  refine ⟨_, hfd', ⟨hfunc, hws, ?_, by omega, le_refl _, fun w hw => rfl,
    fun b _ _ => rfl, fun b hb => Or.inl hb, by rw [hcur]; exact hc0, ?_, hoth⟩, ?_⟩
  · rw [hnv]
    exact hwf.setNames _
  · intro bb hbb
    rw [hcur] at hbb
    exact hlt bb hbb
  · intro bb hbb
    rw [hcur] at hbb
    exact hopen bb hbb

theorem EInv_tempName {ctx : Context} {s : String} {ctx' : Context}
    (h : ctxTempValueName ctx = .ok s ctx') : EInv ctx ctx' := by
  have := ctxTempValueName_spec h
  subst this
  intro nb0 c0 fd hfd hwf hopen hlt hnb hc0
  exact ⟨fd, hfd, ⟨rfl, rfl, hwf, le_refl _, le_refl _, fun v _ => rfl,
    fun b _ _ => rfl, fun b hb => Or.inl hb, hc0, hlt, fun k' _ => rfl⟩, hopen⟩

theorem EInv_newBB {ctx : Context} {bb : BasicBlock} {ctx' : Context}
    (h : ctxNewBB ctx = .ok bb ctx') : EInv ctx ctx' := by
  intro nb0 c0 fd hfd hwf hopen hlt hnb hc0
  obtain ⟨fd0, hfd0, hbb, hfd', hfunc, hcur, hws, hnv, hsc, hft, hoth⟩ :=
    ctxNewBB_spec h
  rw [hfd] at hfd0
  injection hfd0 with hfd0
  subst hfd0
  refine ⟨_, hfd', ⟨hfunc, hws, ?_, by omega, by simp, fun w hw => rfl,
    fun b _ _ => rfl, fun b hb => Or.inl hb, by rw [hcur]; exact hc0, ?_, hoth⟩, ?_⟩
  · rw [hnv]
    exact hwf.bumpBB
  · intro b hb
    rw [hcur] at hb
    exact Nat.lt_succ_of_lt (hlt b hb)
  · intro b hb
    rw [hcur] at hb
    exact hopen b hb

theorem EInv_addInst_cur {bb : BasicBlock} {v : Value} {ctx ctx' : Context}
    (h : ctxAddInst bb v ctx = .ok () ctx')
    (hcur : ctx.current_bb = some bb)
    (hv : v < ctx.next_value_id)
    (hterm : ∀ fd, FD ctx = some fd → fd.inst_is_term v = false) : EInv ctx ctx' := by
  intro nb0 c0 fd hfd hwf hopen hlt hnb hc0
  obtain ⟨fd0, hfd0, hfd', hfunc, hcur', hws, hnv, hsc, hft, hoth⟩ :=
    ctxAddInst_spec h
  rw [hfd] at hfd0
  injection hfd0 with hfd0
  subst hfd0
  refine ⟨_, hfd', ⟨hfunc, hws, ?_, by omega, le_refl _, fun w hw => rfl,
    ?_, ?_, by rw [hcur']; exact hc0, ?_, hoth⟩, ?_⟩
  · rw [hnv]
    exact hwf.addInst (hopen bb hcur) hv
  · intro b hb hne
    refine lookup_map_addInst_ne _ _ _ _ ?_
    rcases hc0 with hc | ⟨b', hb', hle⟩
    · rw [hcur] at hc
      intro hbb
      subst hbb
      exact hne (by rw [← hc])
    · rw [hcur] at hb'
      injection hb' with hb'
      subst hb'
      exact Nat.ne_of_lt (lt_of_lt_of_le hb hle)
  · intro b hb
    rw [keys_add_inst] at hb
    exact Or.inl hb
  · intro b hb
    rw [hcur', hcur] at hb
    injection hb with hb
    subst hb
    simpa using hlt bb hcur
  · intro b hb
    rw [hcur', hcur] at hb
    injection hb with hb
    subst hb
    rw [block_ended_add_inst_self]
    simp [hterm fd hfd]

/-- `ctxAddInst` into the current block, with no restriction on the kind of
instruction: the exit block may now be terminated, hence only `WInv`. -/
theorem WInv_addInst_cur {bb : BasicBlock} {v : Value} {ctx ctx' : Context}
    (h : ctxAddInst bb v ctx = .ok () ctx')
    (hcur : ctx.current_bb = some bb)
    (hv : v < ctx.next_value_id) : WInv ctx ctx' := by
  intro nb0 c0 fd hfd hwf hopen hlt hnb hc0
  obtain ⟨fd0, hfd0, hfd', hfunc, hcur', hws, hnv, hsc, hft, hoth⟩ :=
    ctxAddInst_spec h
  rw [hfd] at hfd0
  injection hfd0 with hfd0
  subst hfd0
  refine ⟨_, hfd', ⟨hfunc, hws, ?_, by omega, le_refl _, fun w hw => rfl,
    ?_, ?_, by rw [hcur']; exact hc0, ?_, hoth⟩⟩
  · rw [hnv]
    exact hwf.addInst (hopen bb hcur) hv
  · intro b hb hne
    refine lookup_map_addInst_ne _ _ _ _ ?_
    rcases hc0 with hc | ⟨b', hb', hle⟩
    · rw [hcur] at hc
      intro hbb
      subst hbb
      exact hne (by rw [← hc])
    · rw [hcur] at hb'
      injection hb' with hb'
      subst hb'
      exact Nat.ne_of_lt (lt_of_lt_of_le hb hle)
  · intro b hb
    rw [keys_add_inst] at hb
    exact Or.inl hb
  · intro b hb
    rw [hcur', hcur] at hb
    injection hb with hb
    subst hb
    simpa using hlt bb hcur

/-! ## Segment-level step lemmas

These expose the exact output `FuncData` of a primitive together with its
`SegFacts` (for every admissible relative bound), for the composite
lowerings that interleave block bookkeeping with sub-lowerings. -/

/-- The running current block is either the composite's entry block `c0`
or a block allocated by the composite (hence at least `nb0`). -/
def curAt (nb0 : Nat) (c0 cur : Option BasicBlock) : Prop :=
  cur = c0 ∨ ∃ b, cur = some b ∧ nb0 ≤ b

theorem curAt_resolve {nb0 : Nat} {c0 cur : Option BasicBlock} {bb : BasicBlock}
    (h : curAt nb0 c0 cur) (hc : cur = some bb) : some bb = c0 ∨ nb0 ≤ bb := by
  rcases h with h | ⟨b, hb, hle⟩
  · left
    rw [← hc, h]
  · right
    rw [hc] at hb
    injection hb with hb
    rw [hb]
    exact hle

theorem curAt_congr {nb0 : Nat} {c0 cur cur' : Option BasicBlock}
    (h : curAt nb0 c0 cur) (he : cur' = cur) : curAt nb0 c0 cur' := by
  rw [he]
  exact h

theorem SegFacts.refl {nb0 : Nat} {c0 : Option BasicBlock} {ctx : Context}
    {fd : FuncData} (hwf : FDWF fd ctx.next_value_id)
    (hclt : curLt fd ctx.current_bb)
    (hc0 : curAt nb0 c0 ctx.current_bb) :
    SegFacts nb0 c0 ctx ctx fd fd :=
  ⟨rfl, rfl, hwf, le_refl _, le_refl _, fun v _ => rfl, fun b _ _ => rfl,
    fun b hb => Or.inl hb, hc0, hclt, fun k' _ => rfl⟩

/-- Chain an accumulated segment with an expression-shaped sub-lowering. -/
theorem chainE {nb0 : Nat} {c0 : Option BasicBlock} {ctx c1 c2 : Context}
    {fd fd1 : FuncData}
    (acc : SegFacts nb0 c0 ctx c1 fd fd1) (hfd1 : FD c1 = some fd1)
    (ho1 : curOpen fd1 c1.current_bb) (hnb : nb0 ≤ fd.nextBB)
    (e : EInv c1 c2) :
    ∃ fd2, FD c2 = some fd2 ∧ SegFacts nb0 c0 ctx c2 fd fd2
      ∧ curOpen fd2 c2.current_bb := by
  obtain ⟨fd2, hfd2, sf, ho⟩ := e nb0 c0 fd1 hfd1 acc.wf ho1 acc.cur_lt
    (le_trans hnb acc.bb_le) acc.cur_evol
  exact ⟨fd2, hfd2, acc.strans sf, ho⟩

/-- Chain an accumulated segment with a statement-shaped sub-lowering. -/
theorem chainW {nb0 : Nat} {c0 : Option BasicBlock} {ctx c1 c2 : Context}
    {fd fd1 : FuncData}
    (acc : SegFacts nb0 c0 ctx c1 fd fd1) (hfd1 : FD c1 = some fd1)
    (ho1 : curOpen fd1 c1.current_bb) (hnb : nb0 ≤ fd.nextBB)
    (w : WInv c1 c2) :
    ∃ fd2, FD c2 = some fd2 ∧ SegFacts nb0 c0 ctx c2 fd fd2 := by
  obtain ⟨fd2, hfd2, sf⟩ := w nb0 c0 fd1 hfd1 acc.wf ho1 acc.cur_lt
    (le_trans hnb acc.bb_le) acc.cur_evol
  exact ⟨fd2, hfd2, acc.strans sf⟩

/-- A segment whose `grow` bound starts at the entry `nextBB` never adds a
pre-existing or not-yet-allocated block key. -/
theorem keys_fresh {nb0 : Nat} {c0 : Option BasicBlock} {ctx ctx' : Context}
    {fd fd' : FuncData} (sf : SegFacts nb0 c0 ctx ctx' fd fd')
    {bb : BasicBlock} (hbb : bb < nb0) (hnotin : bb ∉ fd.blocks.map Prod.fst) :
    bb ∉ fd'.blocks.map Prod.fst := by
  intro hmem
  rcases sf.grow bb hmem with h | h
  · exact hnotin h
  · exact absurd hbb (not_lt.2 h)

theorem block_ended_pres {nb0 : Nat} {c0 : Option BasicBlock} {ctx ctx' : Context}
    {fd fd' : FuncData} (sf : SegFacts nb0 c0 ctx ctx' fd fd')
    (hwf : FDWF fd ctx.next_value_id) {b : BasicBlock}
    (hb : b < nb0) (hne : c0 ≠ some b) :
    fd'.block_ended_b b = fd.block_ended_b b := by
  refine block_ended_congr (sf.frame b hb hne) ?_
  intro v hv
  cases hl : fd.blocks.lookup b with
  | none => rw [hl] at hv; simp at hv
  | some l =>
    rw [hl] at hv
    simp only [Option.getD_some] at hv
    exact inst_is_term_of_pres sf.vals_pres
      (hwf.instsLt (b, l) (mem_of_lookup hl) v hv)

theorem lookup_add_bb_ne (fd : FuncData) (bb b : BasicBlock) (h : b ≠ bb) :
    (fd.add_bb bb).blocks.lookup b = fd.blocks.lookup b := by
  show List.lookup b (fd.blocks ++ [(bb, [])]) = _
  rw [lookup_append]
  cases hl : fd.blocks.lookup b with
  | some l => rfl
  | none =>
    have hb : (b == bb) = false := by simpa using h
    simp [List.lookup, hb]

theorem lookup_add_bb_self (fd : FuncData) (bb : BasicBlock)
    (hnotin : bb ∉ fd.blocks.map Prod.fst) :
    (fd.add_bb bb).blocks.lookup bb = some [] := by
  show List.lookup bb (fd.blocks ++ [(bb, [])]) = _
  rw [lookup_append, lookup_none_of_not_mem_keys hnotin]
  simp [List.lookup]

theorem block_ended_add_bb_ne (fd : FuncData) (bb b : BasicBlock) (h : b ≠ bb) :
    (fd.add_bb bb).block_ended_b b = fd.block_ended_b b := by
  unfold FuncData.block_ended_b FuncData.block_insts
  rw [lookup_add_bb_ne fd bb b h]
  rfl

theorem block_ended_add_bb_self (fd : FuncData) (bb : BasicBlock)
    (hnotin : bb ∉ fd.blocks.map Prod.fst) :
    (fd.add_bb bb).block_ended_b bb = false := by
  unfold FuncData.block_ended_b FuncData.block_insts
  rw [lookup_add_bb_self fd bb hnotin]
  rfl

theorem block_ended_names (fd : FuncData) (ns : List (Value × String))
    (b : BasicBlock) :
    FuncData.block_ended_b { fd with names := ns } b = fd.block_ended_b b :=
  block_ended_congr rfl (fun v _ => inst_is_term_names fd ns v)

theorem block_ended_bumpBB (fd : FuncData) (b : BasicBlock) :
    FuncData.block_ended_b { fd with nextBB := fd.nextBB + 1 } b
      = fd.block_ended_b b :=
  block_ended_congr rfl (fun v _ => rfl)

/-- A step that leaves the program, the function handle, the current block,
the loop stack and the value counter unchanged (it may touch the scope or
the temporary counter). -/
theorem seg_ctx_only {ctx ctx' : Context} {fd : FuncData}
    (hfd : FD ctx = some fd) (hwf : FDWF fd ctx.next_value_id)
    (hclt : curLt fd ctx.current_bb)
    (hfuncs : ctx'.program.funcs = ctx.program.funcs)
    (hfunc : ctx'.func = ctx.func) (hcur : ctx'.current_bb = ctx.current_bb)
    (hws : ctx'.while_stack = ctx.while_stack)
    (hnv : ctx'.next_value_id = ctx.next_value_id) :
    FD ctx' = some fd
      ∧ ∀ nb0 c0, curAt nb0 c0 ctx.current_bb →
          SegFacts nb0 c0 ctx ctx' fd fd := by
  have hfd' : FD ctx' = some fd := by
    unfold FD at hfd ⊢
    rw [hfunc, hfuncs]
    exact hfd
  refine ⟨hfd', fun nb0 c0 hc0 => ⟨hfunc, hws, by rw [hnv]; exact hwf, by omega,
    le_refl _, fun w hw => rfl, fun b _ _ => rfl, fun b hb => Or.inl hb,
    curAt_congr hc0 hcur, by rw [hcur]; exact hclt, fun k' _ => by rw [hfuncs]⟩⟩

/-- `ctxNewValue`, exposing the output `FuncData` through equations. -/
theorem seg_newValue {d : ValueData} {ctx : Context} {v : Value}
    {ctx' : Context} {fd : FuncData}
    (h : ctxNewValue d ctx = .ok v ctx')
    (hfd : FD ctx = some fd) (hwf : FDWF fd ctx.next_value_id)
    (hclt : curLt fd ctx.current_bb) :
    ∃ fd', FD ctx' = some fd'
      ∧ v = ctx.next_value_id
      ∧ ctx'.current_bb = ctx.current_bb
      ∧ ctx'.next_value_id = ctx.next_value_id + 1
      ∧ ctx'.while_stack = ctx.while_stack
      ∧ fd'.vals = (v, d, ctx.computeTy d) :: fd.vals
      ∧ fd'.blocks = fd.blocks
      ∧ fd'.nextBB = fd.nextBB
      ∧ (∀ b, fd'.block_ended_b b = fd.block_ended_b b)
      ∧ fd'.inst_is_term v = d.is_terminator
      ∧ ∀ nb0 c0, curAt nb0 c0 ctx.current_bb →
          SegFacts nb0 c0 ctx ctx' fd fd' := by
  obtain ⟨fd0, hfd0, hv, hfd', hfunc, hcur, hws, hnv, hsc, hft, hoth⟩ :=
    ctxNewValue_spec h
  rw [hfd] at hfd0
  injection hfd0 with hfd0
  subst hfd0
  refine ⟨_, hfd', hv, hcur, hnv, hws, rfl, rfl, rfl, ?_, ?_, fun nb0 c0 hc0 =>
    ⟨hfunc, hws, ?_, by omega, le_refl _, ?_, fun b _ _ => rfl,
      fun b hb => Or.inl hb, curAt_congr hc0 hcur, ?_, hoth⟩⟩
  · intro b
    rw [hv]
    exact block_ended_vals_cons hwf d (ctx.computeTy d) b
  · unfold FuncData.inst_is_term
    rw [show ({ fd with vals := (v, d, ctx.computeTy d) :: fd.vals }
      : FuncData).vals = (v, d, ctx.computeTy d) :: fd.vals from rfl]
    rw [lookup_cons_self]
  · rw [hnv, hv]
    exact hwf.consVal d (ctx.computeTy d)
  · intro w hw
    rw [hv]
    exact lookup_cons_ne _ _ _ _ (Nat.ne_of_lt hw)
  · intro b hb
    rw [hcur] at hb
    exact hclt b hb

/-- `ctxSetValueName`, exposing the output `FuncData` through equations. -/
theorem seg_setValueName {v : Value} {name : String} {ctx ctx' : Context}
    {fd : FuncData}
    (h : ctxSetValueName v name ctx = .ok () ctx')
    (hfd : FD ctx = some fd) (hwf : FDWF fd ctx.next_value_id)
    (hclt : curLt fd ctx.current_bb) :
    ∃ fd', FD ctx' = some fd'
      ∧ ctx'.current_bb = ctx.current_bb
      ∧ ctx'.next_value_id = ctx.next_value_id
      ∧ ctx'.while_stack = ctx.while_stack
      ∧ fd'.vals = fd.vals
      ∧ fd'.blocks = fd.blocks
      ∧ fd'.nextBB = fd.nextBB
      ∧ (∀ b, fd'.block_ended_b b = fd.block_ended_b b)
      ∧ (∀ w, fd'.inst_is_term w = fd.inst_is_term w)
      ∧ ∀ nb0 c0, curAt nb0 c0 ctx.current_bb →
          SegFacts nb0 c0 ctx ctx' fd fd' := by
  obtain ⟨fd0, hfd0, hfd', hfunc, hcur, hws, hnv, hsc, hft, hoth⟩ :=
    ctxSetValueName_spec h
  rw [hfd] at hfd0
  injection hfd0 with hfd0
  subst hfd0
  refine ⟨_, hfd', hcur, hnv, hws, rfl, rfl, rfl,
    fun b => block_ended_names fd _ b,
    fun w => inst_is_term_names fd _ w,
    fun nb0 c0 hc0 =>
    ⟨hfunc, hws, by rw [hnv]; exact hwf.setNames _, by omega, le_refl _,
      fun w hw => rfl, fun b _ _ => rfl, fun b hb => Or.inl hb,
      curAt_congr hc0 hcur, ?_, hoth⟩⟩
  · intro b hb
    rw [hcur] at hb
    exact hclt b hb

/-- `ctxNewBB`, exposing the returned handle and the bumped counter. -/
theorem seg_newBB {ctx : Context} {bb : BasicBlock} {ctx' : Context}
    {fd : FuncData}
    (h : ctxNewBB ctx = .ok bb ctx')
    (hfd : FD ctx = some fd) (hwf : FDWF fd ctx.next_value_id)
    (hclt : curLt fd ctx.current_bb) :
    ∃ fd', FD ctx' = some fd'
      ∧ bb = fd.nextBB
      ∧ ctx'.current_bb = ctx.current_bb
      ∧ ctx'.next_value_id = ctx.next_value_id
      ∧ ctx'.while_stack = ctx.while_stack
      ∧ fd'.vals = fd.vals
      ∧ fd'.blocks = fd.blocks
      ∧ fd'.nextBB = fd.nextBB + 1
      ∧ (∀ b, fd'.block_ended_b b = fd.block_ended_b b)
      ∧ (∀ w, fd'.inst_is_term w = fd.inst_is_term w)
      ∧ ∀ nb0 c0, curAt nb0 c0 ctx.current_bb →
          SegFacts nb0 c0 ctx ctx' fd fd' := by
  obtain ⟨fd0, hfd0, hbb, hfd', hfunc, hcur, hws, hnv, hsc, hft, hoth⟩ :=
    ctxNewBB_spec h
  rw [hfd] at hfd0
  injection hfd0 with hfd0
  subst hfd0
  refine ⟨_, hfd', hbb, hcur, hnv, hws, rfl, rfl, rfl,
    fun b => block_ended_bumpBB fd b, fun w => rfl,
    fun nb0 c0 hc0 =>
    ⟨hfunc, hws, by rw [hnv]; exact hwf.bumpBB, by omega, by simp,
      fun w hw => rfl, fun b _ _ => rfl, fun b hb => Or.inl hb,
      curAt_congr hc0 hcur, ?_, hoth⟩⟩
  · intro b hb
    rw [hcur] at hb
    exact Nat.lt_succ_of_lt (hclt b hb)

/-- `ctxAddBB` of a handle allocated by the enclosing composite. -/
theorem seg_addBB {bb : BasicBlock} {ctx ctx' : Context} {fd : FuncData}
    (h : ctxAddBB bb ctx = .ok () ctx')
    (hfd : FD ctx = some fd) (hwf : FDWF fd ctx.next_value_id)
    (hclt : curLt fd ctx.current_bb)
    (hnotin : bb ∉ fd.blocks.map Prod.fst) (hlt : bb < fd.nextBB) :
    ∃ fd', FD ctx' = some fd'
      ∧ ctx'.current_bb = ctx.current_bb
      ∧ ctx'.next_value_id = ctx.next_value_id
      ∧ ctx'.while_stack = ctx.while_stack
      ∧ fd'.vals = fd.vals
      ∧ fd'.blocks = fd.blocks ++ [(bb, [])]
      ∧ fd'.blocks.map Prod.fst = fd.blocks.map Prod.fst ++ [bb]
      ∧ fd'.nextBB = fd.nextBB
      ∧ (∀ b, b ≠ bb → fd'.block_ended_b b = fd.block_ended_b b)
      ∧ fd'.block_ended_b bb = false
      ∧ fd'.blocks.lookup bb = some []
      ∧ (∀ w, fd'.inst_is_term w = fd.inst_is_term w)
      ∧ ∀ nb0 c0, curAt nb0 c0 ctx.current_bb → nb0 ≤ bb →
          SegFacts nb0 c0 ctx ctx' fd fd' := by
  obtain ⟨fd0, hfd0, hfd', hfunc, hcur, hws, hnv, hsc, hft, hoth⟩ := ctxAddBB_spec h
  rw [hfd] at hfd0
  injection hfd0 with hfd0
  subst hfd0
  refine ⟨_, hfd', hcur, hnv, hws, rfl, rfl, keys_add_bb fd bb, rfl,
    fun b hb => block_ended_add_bb_ne fd bb b hb,
    block_ended_add_bb_self fd bb hnotin,
    lookup_add_bb_self fd bb hnotin, fun w => rfl,
    fun nb0 c0 hc0 hnb =>
    ⟨hfunc, hws, ?_, by omega, by simp, fun w hw => rfl, ?_, ?_,
      curAt_congr hc0 hcur, ?_, hoth⟩⟩
  · rw [hnv]
    exact hwf.addBB hnotin hlt
  · intro b hb hne
    exact lookup_add_bb_ne fd bb b (Nat.ne_of_lt (lt_of_lt_of_le hb hnb))
  · intro b hb
    rw [keys_add_bb] at hb
    rcases List.mem_append.mp hb with hb | hb
    · exact Or.inl hb
    · simp only [List.mem_singleton] at hb
      subst hb
      exact Or.inr hnb
  · intro b hb
    rw [hcur] at hb
    simpa using hclt b hb

/-- `setCurrentBB` to a handle allocated by the enclosing composite. -/
theorem seg_setCur {bb : BasicBlock} {ctx ctx' : Context} {fd : FuncData}
    (h : setCurrentBB bb ctx = .ok () ctx')
    (hfd : FD ctx = some fd) (hwf : FDWF fd ctx.next_value_id)
    (hlt : bb < fd.nextBB) :
    FD ctx' = some fd
      ∧ ctx'.current_bb = some bb
      ∧ ctx'.next_value_id = ctx.next_value_id
      ∧ ctx'.while_stack = ctx.while_stack
      ∧ ∀ nb0 c0, nb0 ≤ bb → SegFacts nb0 c0 ctx ctx' fd fd := by
  have hctx := setCurrentBB_spec h
  subst hctx
  exact ⟨hfd, rfl, rfl, rfl, fun nb0 c0 hnb =>
    ⟨rfl, rfl, hwf, le_refl _, le_refl _, fun v _ => rfl,
      fun b _ _ => rfl, fun b hb => Or.inl hb, Or.inr ⟨bb, rfl, hnb⟩,
      fun b hb => by injection hb with hb; rw [← hb]; exact hlt,
      fun k' _ => rfl⟩⟩

/-- `ctxAddInst` into any block of the composite (its entry current block
or a handle it allocated), exposing the output `FuncData` through
equations. -/
theorem seg_addInst {bb : BasicBlock} {v : Value} {ctx ctx' : Context}
    {fd : FuncData}
    (h : ctxAddInst bb v ctx = .ok () ctx')
    (hfd : FD ctx = some fd) (hwf : FDWF fd ctx.next_value_id)
    (hclt : curLt fd ctx.current_bb)
    (hopenbb : fd.block_ended_b bb = false) (hv : v < ctx.next_value_id) :
    ∃ fd', FD ctx' = some fd'
      ∧ ctx'.current_bb = ctx.current_bb
      ∧ ctx'.next_value_id = ctx.next_value_id
      ∧ ctx'.while_stack = ctx.while_stack
      ∧ fd'.vals = fd.vals
      ∧ fd'.blocks.map Prod.fst = fd.blocks.map Prod.fst
      ∧ fd'.nextBB = fd.nextBB
      ∧ (∀ b, b ≠ bb → fd'.blocks.lookup b = fd.blocks.lookup b)
      ∧ fd'.blocks.lookup bb = (fd.blocks.lookup bb).map (fun is => is ++ [v])
      ∧ (∀ b, b ≠ bb → fd'.block_ended_b b = fd.block_ended_b b)
      ∧ fd'.block_ended_b bb = ((fd.blocks.lookup bb).isSome && fd.inst_is_term v)
      ∧ (∀ w, fd'.inst_is_term w = fd.inst_is_term w)
      ∧ ∀ nb0 c0, curAt nb0 c0 ctx.current_bb → (some bb = c0 ∨ nb0 ≤ bb) →
          SegFacts nb0 c0 ctx ctx' fd fd' := by
  obtain ⟨fd0, hfd0, hfd', hfunc, hcur, hws, hnv, hsc, hft, hoth⟩ :=
    ctxAddInst_spec h
  rw [hfd] at hfd0
  injection hfd0 with hfd0
  subst hfd0
  refine ⟨_, hfd', hcur, hnv, hws, rfl, keys_add_inst fd bb v, rfl,
    fun b hb => lookup_map_addInst_ne fd.blocks bb b v hb,
    FuncData.add_inst_insts fd bb v,
    fun b hb => block_ended_add_inst_ne fd bb b v hb,
    block_ended_add_inst_self fd bb v,
    fun w => inst_is_term_add_inst fd bb v w,
    fun nb0 c0 hc0 hbb =>
    ⟨hfunc, hws, ?_, by omega, by simp, fun w hw => rfl, ?_, ?_,
      curAt_congr hc0 hcur, ?_, hoth⟩⟩
  · rw [hnv]
    exact hwf.addInst hopenbb hv
  · intro b hb hne
    refine lookup_map_addInst_ne _ _ _ _ ?_
    rcases hbb with hc | hle
    · intro hbeq
      subst hbeq
      exact hne hc.symm
    · exact Nat.ne_of_lt (lt_of_lt_of_le hb hle)
  · intro b hb
    rw [keys_add_inst] at hb
    exact Or.inl hb
  · intro b hb
    rw [hcur] at hb
    simpa using hclt b hb

/-- A context change that only touches the scope or the temporary counter
is invisible to the invariants. -/
theorem EInv_same_fd {ctx ctx' : Context}
    (hfuncs : ctx'.program.funcs = ctx.program.funcs)
    (hfunc : ctx'.func = ctx.func) (hcur : ctx'.current_bb = ctx.current_bb)
    (hws : ctx'.while_stack = ctx.while_stack)
    (hnv : ctx'.next_value_id = ctx.next_value_id) : EInv ctx ctx' := by
  intro nb0 c0 fd hfd hwf hopen hlt hnb hc0
  obtain ⟨hfd', hsf⟩ := seg_ctx_only hfd hwf hlt hfuncs hfunc hcur hws hnv
  exact ⟨fd, hfd', hsf nb0 c0 hc0, by rw [hcur]; exact hopen⟩

/-- A loop-stack push, a stack-preserving middle segment and the final pop
compose to a stack-preserving segment. -/
theorem SegFacts.push_pop {nb0 : Nat} {c0 : Option BasicBlock}
    {s e : BasicBlock} {c1 c2 c3 c4 : Context} {fd1 fd2 : FuncData}
    (hpush : ctxAddWhileInfo s e c1 = .ok () c2)
    (sf : SegFacts nb0 c0 c2 c3 fd1 fd2)
    (hpop : ctxPopWhileInfo c3 = .ok () c4) :
    SegFacts nb0 c0 c1 c4 fd1 fd2 := by
  have h2 := ctxAddWhileInfo_spec hpush
  have h4 := ctxPopWhileInfo_spec hpop
  subst h2
  subst h4
  refine ⟨sf.func_eq, ?_, sf.wf, sf.nv_le, sf.bb_le, sf.vals_pres, sf.frame,
    sf.grow, sf.cur_evol, sf.cur_lt, sf.others⟩
  show c3.while_stack.tail = c1.while_stack
  rw [sf.ws_eq]
  rfl

/-- The loop-stack push leaves the function data untouched. -/
theorem FD_push {s e : BasicBlock} {c1 c2 : Context}
    (hpush : ctxAddWhileInfo s e c1 = .ok () c2) :
    FD c2 = FD c1 ∧ c2.current_bb = c1.current_bb
      ∧ c2.next_value_id = c1.next_value_id
      ∧ c2.while_stack = ⟨s, e⟩ :: c1.while_stack := by
  have h2 := ctxAddWhileInfo_spec hpush
  subst h2
  exact ⟨rfl, rfl, rfl, rfl⟩

theorem FD_pop {c3 c4 : Context} (hpop : ctxPopWhileInfo c3 = .ok () c4) :
    FD c4 = FD c3 ∧ c4.current_bb = c3.current_bb
      ∧ c4.next_value_id = c3.next_value_id
      ∧ c4.while_stack = c3.while_stack.tail := by
  have h4 := ctxPopWhileInfo_spec hpop
  subst h4
  exact ⟨rfl, rfl, rfl, rfl⟩

/-! ## The expression-lowering invariant -/

theorem newValue_data {d : ValueData} {ctx : Context} {v : Value} {ctx' : Context}
    (h : ctxNewValue d ctx = .ok v ctx') :
    ∀ fd, FD ctx' = some fd → fd.inst_is_term v = (d.is_terminator) := by
  intro fd hfd
  obtain ⟨fd0, _, hv, hfd', _, _, _, _, _, _, _⟩ := ctxNewValue_spec h
  rw [hfd'] at hfd
  injection hfd with hfd
  subst hfd
  unfold FuncData.inst_is_term
  rw [lookup_cons_self]

theorem einv_newValue_addInst {d : ValueData} {ctx : Context} {v : Value}
    {c1 : Context} {u : Unit} {c2 : Context} {bb : BasicBlock}
    (hnv : ctxNewValue d ctx = .ok v c1)
    (hadd : ctxAddInst bb v c1 = .ok u c2)
    (hcb : ctx.current_bb = some bb)
    (hd : d.is_terminator = false) :
    EInv ctx c2 ∧ c2.current_bb = ctx.current_bb
      ∧ c2.next_value_id = ctx.next_value_id + 1 ∧ v = ctx.next_value_id := by
  obtain ⟨fd0, hfd0, hv, hfd', hf1, hc1, hw1, hn1, _, _, _⟩ := ctxNewValue_spec hnv
  obtain ⟨u2⟩ := u
  obtain ⟨fd1, hfd1, hfd1', hf2, hc2, hw2, hn2, _, _, _⟩ := ctxAddInst_spec hadd
  have e1 : EInv ctx c1 := EInv_newValue hnv
  have e2 : EInv c1 c2 := EInv_addInst_cur hadd (by rw [hc1, hcb])
    (by show v < c1.next_value_id; rw [hn1, hv]; exact Nat.lt_succ_self _)
    (by
      intro fd hfd
      have := newValue_data hnv fd hfd
      rw [this, hd])
  exact ⟨e1.trans e2, by rw [hc2, hc1], by rw [hn2, hn1], hv⟩

theorem getArrayPosLoop_einv :
    ∀ (idxs : List Value) (res : Value) (ctx : Context) (v : Value) (ctx' : Context),
    getArrayPosLoop res idxs ctx = .ok v ctx' → EInv ctx ctx' := by
  intro idxs
  induction idxs with
  | nil =>
    intro res ctx v ctx' h
    unfold getArrayPosLoop at h
    exact EInv_of_eq (pure_ok_inv h).2
  | cons index rest ih =>
    intro res ctx v ctx' h0
    unfold getArrayPosLoop at h0
    obtain ⟨bb, c1, hbb, h1⟩ := bind_ok_inv h0
    clear h0
    obtain ⟨hc1, hcb0⟩ := mGetBB_spec hbb
    subst hc1
    obtain ⟨rt, c2, hrt, h2⟩ := bind_ok_inv h1
    clear h1
    have hc2 := get_type_spec hrt
    subst hc2
    simp only [] at h2
    cases hmt : remove_pointer rt with
    | pointer t =>
      rw [hmt] at h2
      simp only [] at h2
      obtain ⟨ld, c3, hld, h3⟩ := bind_ok_inv h2
      clear h2
      obtain ⟨u1, c4, hadd, h4⟩ := bind_ok_inv h3
      clear h3
      obtain ⟨gp, c5, hgp, h5⟩ := bind_ok_inv h4
      clear h4
      obtain ⟨u2, c6, hadd2, h6⟩ := bind_ok_inv h5
      clear h5
      obtain ⟨e1, hc4cur, hc4nv, _⟩ := einv_newValue_addInst hld hadd hcb0 rfl
      obtain ⟨e2, hc6cur, hc6nv, _⟩ := einv_newValue_addInst hgp hadd2
        (by rw [hc4cur, hcb0]) rfl
      exact (e1.trans e2).trans (ih gp c6 v ctx' h6)
    | i32 =>
      rw [hmt] at h2
      simp only [] at h2
      obtain ⟨ge, c3, hge, h3⟩ := bind_ok_inv h2
      clear h2
      obtain ⟨u1, c4, hadd, h4⟩ := bind_ok_inv h3
      clear h3
      obtain ⟨e1, hc4cur, hc4nv, _⟩ := einv_newValue_addInst hge hadd hcb0 rfl
      exact e1.trans (ih ge c4 v ctx' h4)
    | unit =>
      rw [hmt] at h2
      simp only [] at h2
      obtain ⟨ge, c3, hge, h3⟩ := bind_ok_inv h2
      clear h2
      obtain ⟨u1, c4, hadd, h4⟩ := bind_ok_inv h3
      clear h3
      obtain ⟨e1, hc4cur, hc4nv, _⟩ := einv_newValue_addInst hge hadd hcb0 rfl
      exact e1.trans (ih ge c4 v ctx' h4)
    | array t len =>
      rw [hmt] at h2
      simp only [] at h2
      obtain ⟨ge, c3, hge, h3⟩ := bind_ok_inv h2
      clear h2
      obtain ⟨u1, c4, hadd, h4⟩ := bind_ok_inv h3
      clear h3
      obtain ⟨e1, hc4cur, hc4nv, _⟩ := einv_newValue_addInst hge hadd hcb0 rfl
      exact e1.trans (ih ge c4 v ctx' h4)

theorem LOr_body_eq (lhs : LOrExpr) (rhs : LAndExpr) :
    LOrExpr.generate_ir (.Or lhs rhs)
      = scBody lhs.generate_ir rhs.generate_ir
          (fun l e s => ValueData.branch l e s) := by
  simp only [LOrExpr.generate_ir]
  rfl

theorem LAnd_body_eq (lhs : LAndExpr) (rhs : EqExpr) :
    LAndExpr.generate_ir (.And lhs rhs)
      = scBody lhs.generate_ir rhs.generate_ir
          (fun l e s => ValueData.branch l s e) := by
  simp only [LAndExpr.generate_ir]
  rfl


theorem scBody_einv (lhsGen rhsGen : M Value)
    (brf : Value → BasicBlock → BasicBlock → ValueData)
    (lhsE : ∀ c v c', lhsGen c = .ok v c' → EInv c c')
    (rhsE : ∀ c v c', rhsGen c = .ok v c' → EInv c c') :
    ∀ ctx v ctx', scBody lhsGen rhsGen brf ctx = .ok v ctx' → EInv ctx ctx' := by
  intro ctx v ctx' h0
  unfold scBody at h0
  obtain ⟨lhsv, a1, hl, h1⟩ := bind_ok_inv h0
  obtain ⟨result, a2, hres, h2⟩ := bind_ok_inv h1
  obtain ⟨rname, a3, hnam, h3⟩ := bind_ok_inv h2
  obtain ⟨u4, a4, hsetn, h4⟩ := bind_ok_inv h3
  obtain ⟨cb, a5, hgbb, h5⟩ := bind_ok_inv h4
  obtain ⟨u6, a6, haddres, h6⟩ := bind_ok_inv h5
  obtain ⟨zero, a7, hzero, h7⟩ := bind_ok_inv h6
  obtain ⟨lhs2, a8, hlhs2, h8⟩ := bind_ok_inv h7
  obtain ⟨u9, a9, haddl2, h9⟩ := bind_ok_inv h8
  obtain ⟨store, a10, hstore, h10⟩ := bind_ok_inv h9
  obtain ⟨u11, a11, haddst, h11⟩ := bind_ok_inv h10
  obtain ⟨end_bb, a12, hnbb1, h12⟩ := bind_ok_inv h11
  obtain ⟨snd_bb, a13, hnbb2, h13⟩ := bind_ok_inv h12
  obtain ⟨load, a14, hload, h14⟩ := bind_ok_inv h13
  obtain ⟨u15, a15, haddld, h15⟩ := bind_ok_inv h14
  obtain ⟨branch, a16, hbr, h16⟩ := bind_ok_inv h15
  obtain ⟨u17, a17, haddbr, h17⟩ := bind_ok_inv h16
  obtain ⟨u18, a18, haddsnd, h18⟩ := bind_ok_inv h17
  obtain ⟨u19, a19, hsetsnd, h19⟩ := bind_ok_inv h18
  obtain ⟨rhsv, a20, hr, h20⟩ := bind_ok_inv h19
  obtain ⟨cb2, a21, hgbb2, h21⟩ := bind_ok_inv h20
  obtain ⟨zero2, a22, hzero2, h22⟩ := bind_ok_inv h21
  obtain ⟨rhs2, a23, hrhs2, h23⟩ := bind_ok_inv h22
  obtain ⟨u24, a24, haddr2, h24⟩ := bind_ok_inv h23
  obtain ⟨store2, a25, hstore2, h25⟩ := bind_ok_inv h24
  obtain ⟨u26, a26, haddst2, h26⟩ := bind_ok_inv h25
  obtain ⟨jmp, a27, hjmp, h27⟩ := bind_ok_inv h26
  obtain ⟨u28, a28, haddj, h28⟩ := bind_ok_inv h27
  obtain ⟨u29, a29, haddend, h29⟩ := bind_ok_inv h28
  obtain ⟨u30, a30, hsetend, h30⟩ := bind_ok_inv h29
  obtain ⟨lres, a31, hlres, h31⟩ := bind_ok_inv h30
  obtain ⟨u32, a32, haddlres, h32⟩ := bind_ok_inv h31
  obtain ⟨hveq, hctx'⟩ := pure_ok_inv h32
  clear h0 h1 h2 h3 h4 h5 h6 h7 h8 h9 h10 h11 h12 h13 h14 h15 h16 h17 h18
  clear h19 h20 h21 h22 h23 h24 h25 h26 h27 h28 h29 h30 h31 h32
  subst hctx'
  unfold Int.generate_ir at hzero hzero2
  intro nb0 c00 fd0 hfd0 hwf0 hopen0 hclt0 hnb hcat0
  obtain ⟨fd1, hfd1, acc1, ho1⟩ :=
    (lhsE ctx lhsv a1 hl) nb0 c00 fd0 hfd0 hwf0 hopen0 hclt0 hnb hcat0
  obtain ⟨fd2, hfd2, hreseq, hcur2, hnv2, hws2, hvl2, hbk2, hnn2, hbe2, hit2, sfb2⟩ :=
    seg_newValue hres hfd1 acc1.wf acc1.cur_lt
  subst hreseq
  have acc2 := acc1.strans (sfb2 nb0 c00 acc1.cur_evol)
  have hc3 := ctxTempValueName_spec hnam
  obtain ⟨hfd3, sfb3⟩ := seg_ctx_only hfd2 acc2.wf acc2.cur_lt
    (show a3.program.funcs = a2.program.funcs by rw [hc3])
    (by rw [hc3]) (by rw [hc3]) (by rw [hc3]) (by rw [hc3])
  have hcur3 : a3.current_bb = a2.current_bb := by rw [hc3]
  have hnv3 : a3.next_value_id = a2.next_value_id := by rw [hc3]
  have acc3 := acc2.strans (sfb3 nb0 c00 acc2.cur_evol)
  obtain ⟨fd4, hfd4, hcur4, hnv4, hws4, hvl4, hbk4, hnn4, hbe4, hitp4, sfb4⟩ :=
    seg_setValueName hsetn hfd3 acc3.wf acc3.cur_lt
  have acc4 := acc3.strans (sfb4 nb0 c00 acc3.cur_evol)
  obtain ⟨hc5, hcb4⟩ := mGetBB_spec hgbb
  subst hc5
  have hcb1 : a1.current_bb = some cb := by
    rw [← hcur2, ← hcur3, ← hcur4]
    exact hcb4
  have hob2 := (hbe2 cb).trans (ho1 cb hcb1)
  have hob4 := (hbe4 cb).trans hob2
  have hvres : a1.next_value_id < a5.next_value_id := by
    rw [hnv4, hnv3, hnv2]
    omega
  obtain ⟨fd6, hfd6, hcur6, hnv6, hws6, hvl6, hkk6, hnn6, hlkne6, hlkself6,
      hbene6, hbeself6, hitp6, sfb6⟩ :=
    seg_addInst haddres hfd4 acc4.wf acc4.cur_lt hob4 hvres
  have acc6 := acc4.strans (sfb6 nb0 c00 acc4.cur_evol
    (curAt_resolve acc4.cur_evol hcb4))
  have hterm4 := (hitp4 a1.next_value_id).trans hit2
  rw [hterm4] at hbeself6
  simp only [ValueData.is_terminator, Bool.and_false] at hbeself6
  have hcb6 : a6.current_bb = some cb := by rw [hcur6]; exact hcb4
  obtain ⟨fd7, hfd7, hzeq, hcur7, hnv7, hws7, hvl7, hbk7, hnn7, hbe7, hit7, sfb7⟩ :=
    seg_newValue hzero hfd6 acc6.wf acc6.cur_lt
  subst hzeq
  have acc7 := acc6.strans (sfb7 nb0 c00 acc6.cur_evol)
  have hob7 := (hbe7 cb).trans hbeself6
  have hcb7 : a7.current_bb = some cb := by rw [hcur7]; exact hcb6
  obtain ⟨fd8, hfd8, hl2eq, hcur8, hnv8, hws8, hvl8, hbk8, hnn8, hbe8, hit8, sfb8⟩ :=
    seg_newValue hlhs2 hfd7 acc7.wf acc7.cur_lt
  subst hl2eq
  have acc8 := acc7.strans (sfb8 nb0 c00 acc7.cur_evol)
  have hob8 := (hbe8 cb).trans hob7
  have hcb8 : a8.current_bb = some cb := by rw [hcur8]; exact hcb7
  have hv9 : a7.next_value_id < a8.next_value_id := by rw [hnv8]; omega
  obtain ⟨fd9, hfd9, hcur9, hnv9, hws9, hvl9, hkk9, hnn9, hlkne9, hlkself9,
      hbene9, hbeself9, hitp9, sfb9⟩ :=
    seg_addInst haddl2 hfd8 acc8.wf acc8.cur_lt hob8 hv9
  have acc9 := acc8.strans (sfb9 nb0 c00 acc8.cur_evol
    (curAt_resolve acc8.cur_evol hcb8))
  rw [hit8] at hbeself9
  simp only [ValueData.is_terminator, Bool.and_false] at hbeself9
  have hcb9 : a9.current_bb = some cb := by rw [hcur9]; exact hcb8
  obtain ⟨fd10, hfd10, hsteq, hcur10, hnv10, hws10, hvl10, hbk10, hnn10, hbe10,
      hit10, sfb10⟩ :=
    seg_newValue hstore hfd9 acc9.wf acc9.cur_lt
  subst hsteq
  have acc10 := acc9.strans (sfb10 nb0 c00 acc9.cur_evol)
  have hob10 := (hbe10 cb).trans hbeself9
  have hcb10 : a10.current_bb = some cb := by rw [hcur10]; exact hcb9
  have hv11 : a9.next_value_id < a10.next_value_id := by rw [hnv10]; omega
  obtain ⟨fd11, hfd11, hcur11, hnv11, hws11, hvl11, hkk11, hnn11, hlkne11,
      hlkself11, hbene11, hbeself11, hitp11, sfb11⟩ :=
    seg_addInst haddst hfd10 acc10.wf acc10.cur_lt hob10 hv11
  have acc11 := acc10.strans (sfb11 nb0 c00 acc10.cur_evol
    (curAt_resolve acc10.cur_evol hcb10))
  rw [hit10] at hbeself11
  simp only [ValueData.is_terminator, Bool.and_false] at hbeself11
  have hcb11 : a11.current_bb = some cb := by rw [hcur11]; exact hcb10
  obtain ⟨fd12, hfd12, hendeq, hcur12, hnv12, hws12, hvl12, hbk12, hnn12, hbe12,
      hitp12, sfb12⟩ :=
    seg_newBB hnbb1 hfd11 acc11.wf acc11.cur_lt
  have acc12 := acc11.strans (sfb12 nb0 c00 acc11.cur_evol)
  have hob12 := (hbe12 cb).trans hbeself11
  have hcb12 : a12.current_bb = some cb := by rw [hcur12]; exact hcb11
  have hnnAll11 : fd11.nextBB = fd1.nextBB :=
    hnn11.trans (hnn10.trans (hnn9.trans (hnn8.trans (hnn7.trans (hnn6.trans
      (hnn4.trans hnn2))))))
  have hend1 : end_bb = fd1.nextBB := hendeq.trans hnnAll11
  obtain ⟨fd13, hfd13, hsndeq, hcur13, hnv13, hws13, hvl13, hbk13, hnn13, hbe13,
      hitp13, sfb13⟩ :=
    seg_newBB hnbb2 hfd12 acc12.wf acc12.cur_lt
  have acc13 := acc12.strans (sfb13 nb0 c00 acc12.cur_evol)
  have hob13 := (hbe13 cb).trans hob12
  have hcb13 : a13.current_bb = some cb := by rw [hcur13]; exact hcb12
  have hsnd1 : snd_bb = fd1.nextBB + 1 :=
    hsndeq.trans (hnn12.trans (congrArg (fun x => x + 1) hnnAll11))
  obtain ⟨fd14, hfd14, hldeq, hcur14, hnv14, hws14, hvl14, hbk14, hnn14, hbe14,
      hit14, sfb14⟩ :=
    seg_newValue hload hfd13 acc13.wf acc13.cur_lt
  subst hldeq
  have acc14 := acc13.strans (sfb14 nb0 c00 acc13.cur_evol)
  have hob14 := (hbe14 cb).trans hob13
  have hcb14 : a14.current_bb = some cb := by rw [hcur14]; exact hcb13
  have hv15 : a13.next_value_id < a14.next_value_id := by rw [hnv14]; omega
  obtain ⟨fd15, hfd15, hcur15, hnv15, hws15, hvl15, hkk15, hnn15, hlkne15,
      hlkself15, hbene15, hbeself15, hitp15, sfb15⟩ :=
    seg_addInst haddld hfd14 acc14.wf acc14.cur_lt hob14 hv15
  have acc15 := acc14.strans (sfb15 nb0 c00 acc14.cur_evol
    (curAt_resolve acc14.cur_evol hcb14))
  rw [hit14] at hbeself15
  simp only [ValueData.is_terminator, Bool.and_false] at hbeself15
  have hcb15 : a15.current_bb = some cb := by rw [hcur15]; exact hcb14
  obtain ⟨fd16, hfd16, hbreq, hcur16, hnv16, hws16, hvl16, hbk16, hnn16, hbe16,
      hit16, sfb16⟩ :=
    seg_newValue hbr hfd15 acc15.wf acc15.cur_lt
  subst hbreq
  have acc16 := acc15.strans (sfb16 nb0 c00 acc15.cur_evol)
  have hob16 := (hbe16 cb).trans hbeself15
  have hcb16 : a16.current_bb = some cb := by rw [hcur16]; exact hcb15
  have hv17 : a15.next_value_id < a16.next_value_id := by rw [hnv16]; omega
  obtain ⟨fd17, hfd17, hcur17, hnv17, hws17, hvl17, hkk17, hnn17, hlkne17,
      hlkself17, hbene17, hbeself17, hitp17, sfb17⟩ :=
    seg_addInst haddbr hfd16 acc16.wf acc16.cur_lt hob16 hv17
  have acc17 := acc16.strans (sfb17 nb0 c00 acc16.cur_evol
    (curAt_resolve acc16.cur_evol hcb16))
  have hkkAll : fd17.blocks.map Prod.fst = fd1.blocks.map Prod.fst :=
    hkk17.trans ((congrArg (List.map Prod.fst) hbk16).trans (hkk15.trans
      ((congrArg (List.map Prod.fst) hbk14).trans ((congrArg (List.map Prod.fst)
      hbk13).trans ((congrArg (List.map Prod.fst) hbk12).trans (hkk11.trans
      ((congrArg (List.map Prod.fst) hbk10).trans (hkk9.trans ((congrArg
      (List.map Prod.fst) hbk8).trans ((congrArg (List.map Prod.fst) hbk7).trans
      (hkk6.trans ((congrArg (List.map Prod.fst) hbk4).trans (congrArg
      (List.map Prod.fst) hbk2)))))))))))))
  have hnnB17 : fd17.nextBB = fd1.nextBB + 1 + 1 :=
    hnn17.trans (hnn16.trans (hnn15.trans (hnn14.trans (hnn13.trans
      (congrArg (fun x => x + 1) (hnn12.trans
        (congrArg (fun x => x + 1) hnnAll11)))))))
  have hnotin1 : snd_bb ∉ fd1.blocks.map Prod.fst := by
    intro hmem
    obtain ⟨p, hp, hpe⟩ := List.mem_map.mp hmem
    have hpl := acc1.wf.blocksLt p hp
    rw [hpe, hsnd1] at hpl
    exact absurd hpl (Nat.not_lt.mpr (Nat.le_succ _))
  obtain ⟨fd18, hfd18, hcur18, hnv18, hws18, hvl18, hbl18, hkkA18, hnn18,
      hbene18, hbeself18, hlkself18, hitp18, sfb18⟩ :=
    seg_addBB haddsnd hfd17 acc17.wf acc17.cur_lt
      (by rw [hkkAll]; exact hnotin1)
      (by rw [hnnB17, hsnd1]; exact Nat.lt_succ_self _)
  have hnbsnd : nb0 ≤ snd_bb := by
    rw [hsnd1]
    have hle1 := acc1.bb_le
    omega
  have acc18 := acc17.strans (sfb18 nb0 c00 acc17.cur_evol hnbsnd)
  obtain ⟨hfd19, hcur19, hnv19, hws19, sfb19⟩ :=
    seg_setCur hsetsnd hfd18 acc18.wf
      (by rw [hnn18, hnnB17, hsnd1]; exact Nat.lt_succ_self _)
  have acc19 := acc18.strans (sfb19 nb0 c00 hnbsnd)
  have ho19 : curOpen fd18 a19.current_bb := by
    intro b hb
    rw [hcur19] at hb
    injection hb with hb
    subst hb
    exact hbeself18
  obtain ⟨fd20, hfd20, acc20, ho20⟩ := chainE acc19 hfd19 ho19 hnb
    (rhsE a19 rhsv a20 hr)
  obtain ⟨fd20f, hfd20f, sf20f, ho20f⟩ :=
    (rhsE a19 rhsv a20 hr) _ _ _ hfd19 acc19.wf ho19 acc19.cur_lt
      (le_refl _) (Or.inl rfl)
  rw [hfd20] at hfd20f
  injection hfd20f with hfd20f
  subst hfd20f
  obtain ⟨hc21, hcb20⟩ := mGetBB_spec hgbb2
  subst hc21
  have hob20 : fd20.block_ended_b cb2 = false := ho20 cb2 hcb20
  obtain ⟨fd22, hfd22, hz2eq, hcur22, hnv22, hws22, hvl22, hbk22, hnn22, hbe22,
      hit22, sfb22⟩ :=
    seg_newValue hzero2 hfd20 acc20.wf acc20.cur_lt
  subst hz2eq
  have acc22 := acc20.strans (sfb22 nb0 c00 acc20.cur_evol)
  have accf22 := sf20f.strans (sfb22 _ _ sf20f.cur_evol)
  have hob22 := (hbe22 cb2).trans hob20
  have hcb22 : a22.current_bb = some cb2 := by rw [hcur22]; exact hcb20
  obtain ⟨fd23, hfd23, hr2eq, hcur23, hnv23, hws23, hvl23, hbk23, hnn23, hbe23,
      hit23, sfb23⟩ :=
    seg_newValue hrhs2 hfd22 acc22.wf acc22.cur_lt
  subst hr2eq
  have acc23 := acc22.strans (sfb23 nb0 c00 acc22.cur_evol)
  have accf23 := accf22.strans (sfb23 _ _ accf22.cur_evol)
  have hob23 := (hbe23 cb2).trans hob22
  have hcb23 : a23.current_bb = some cb2 := by rw [hcur23]; exact hcb22
  have hv24 : a22.next_value_id < a23.next_value_id := by rw [hnv23]; omega
  obtain ⟨fd24, hfd24, hcur24, hnv24, hws24, hvl24, hkk24, hnn24, hlkne24,
      hlkself24, hbene24, hbeself24, hitp24, sfb24⟩ :=
    seg_addInst haddr2 hfd23 acc23.wf acc23.cur_lt hob23 hv24
  have acc24 := acc23.strans (sfb24 nb0 c00 acc23.cur_evol
    (curAt_resolve acc23.cur_evol hcb23))
  have accf24 := accf23.strans (sfb24 _ _ accf23.cur_evol
    (curAt_resolve accf23.cur_evol hcb23))
  rw [hit23] at hbeself24
  simp only [ValueData.is_terminator, Bool.and_false] at hbeself24
  have hcb24 : a24.current_bb = some cb2 := by rw [hcur24]; exact hcb23
  obtain ⟨fd25, hfd25, hst2eq, hcur25, hnv25, hws25, hvl25, hbk25, hnn25, hbe25,
      hit25, sfb25⟩ :=
    seg_newValue hstore2 hfd24 acc24.wf acc24.cur_lt
  subst hst2eq
  have acc25 := acc24.strans (sfb25 nb0 c00 acc24.cur_evol)
  have accf25 := accf24.strans (sfb25 _ _ accf24.cur_evol)
  have hob25 := (hbe25 cb2).trans hbeself24
  have hcb25 : a25.current_bb = some cb2 := by rw [hcur25]; exact hcb24
  have hv26 : a24.next_value_id < a25.next_value_id := by rw [hnv25]; omega
  obtain ⟨fd26, hfd26, hcur26, hnv26, hws26, hvl26, hkk26, hnn26, hlkne26,
      hlkself26, hbene26, hbeself26, hitp26, sfb26⟩ :=
    seg_addInst haddst2 hfd25 acc25.wf acc25.cur_lt hob25 hv26
  have acc26 := acc25.strans (sfb26 nb0 c00 acc25.cur_evol
    (curAt_resolve acc25.cur_evol hcb25))
  have accf26 := accf25.strans (sfb26 _ _ accf25.cur_evol
    (curAt_resolve accf25.cur_evol hcb25))
  rw [hit25] at hbeself26
  simp only [ValueData.is_terminator, Bool.and_false] at hbeself26
  have hcb26 : a26.current_bb = some cb2 := by rw [hcur26]; exact hcb25
  obtain ⟨fd27, hfd27, hjeq, hcur27, hnv27, hws27, hvl27, hbk27, hnn27, hbe27,
      hit27, sfb27⟩ :=
    seg_newValue hjmp hfd26 acc26.wf acc26.cur_lt
  subst hjeq
  have acc27 := acc26.strans (sfb27 nb0 c00 acc26.cur_evol)
  have accf27 := accf26.strans (sfb27 _ _ accf26.cur_evol)
  have hob27 := (hbe27 cb2).trans hbeself26
  have hcb27 : a27.current_bb = some cb2 := by rw [hcur27]; exact hcb26
  have hv28 : a26.next_value_id < a27.next_value_id := by rw [hnv27]; omega
  obtain ⟨fd28, hfd28, hcur28, hnv28, hws28, hvl28, hkk28, hnn28, hlkne28,
      hlkself28, hbene28, hbeself28, hitp28, sfb28⟩ :=
    seg_addInst haddj hfd27 acc27.wf acc27.cur_lt hob27 hv28
  have acc28 := acc27.strans (sfb28 nb0 c00 acc27.cur_evol
    (curAt_resolve acc27.cur_evol hcb27))
  have accf28 := accf27.strans (sfb28 _ _ accf27.cur_evol
    (curAt_resolve accf27.cur_evol hcb27))
  have hltE : end_bb < fd18.nextBB := by
    rw [hnn18, hnnB17, hend1]
    exact Nat.lt_succ_of_lt (Nat.lt_succ_self _)
  have hnotinEnd := keys_fresh accf28 hltE
    (by
      rw [hkkA18, hkkAll]
      intro hmem
      rcases List.mem_append.mp hmem with hm | hm
      · obtain ⟨p, hp, hpe⟩ := List.mem_map.mp hm
        have hpl := acc1.wf.blocksLt p hp
        rw [hpe, hend1] at hpl
        exact Nat.lt_irrefl _ hpl
      · simp only [List.mem_singleton] at hm
        rw [hend1, hsnd1] at hm
        exact absurd hm (Nat.ne_of_lt (Nat.lt_succ_self _)))
  obtain ⟨fd29, hfd29, hcur29, hnv29, hws29, hvl29, hbl29, hkkA29, hnn29,
      hbene29, hbeself29, hlkself29, hitp29, sfb29⟩ :=
    seg_addBB haddend hfd28 acc28.wf acc28.cur_lt hnotinEnd
      (lt_of_lt_of_le hltE accf28.bb_le)
  have hnbend : nb0 ≤ end_bb := by
    rw [hend1]
    have hle1 := acc1.bb_le
    omega
  have acc29 := acc28.strans (sfb29 nb0 c00 acc28.cur_evol hnbend)
  obtain ⟨hfd30, hcur30, hnv30, hws30, sfb30⟩ :=
    seg_setCur hsetend hfd29 acc29.wf
      (by rw [hnn29]; exact lt_of_lt_of_le hltE accf28.bb_le)
  have acc30 := acc29.strans (sfb30 nb0 c00 hnbend)
  obtain ⟨fd31, hfd31, hlreq, hcur31, hnv31, hws31, hvl31, hbk31, hnn31, hbe31,
      hit31, sfb31⟩ :=
    seg_newValue hlres hfd30 acc30.wf acc30.cur_lt
  subst hlreq
  have acc31 := acc30.strans (sfb31 nb0 c00 acc30.cur_evol)
  have hcb31 : a31.current_bb = some end_bb := by rw [hcur31]; exact hcur30
  have hob31 := (hbe31 end_bb).trans hbeself29
  have hv32 : a30.next_value_id < a31.next_value_id := by rw [hnv31]; omega
  obtain ⟨fd32, hfd32, hcur32, hnv32, hws32, hvl32, hkk32, hnn32, hlkne32,
      hlkself32, hbene32, hbeself32, hitp32, sfb32⟩ :=
    seg_addInst haddlres hfd31 acc31.wf acc31.cur_lt hob31 hv32
  have acc32 := acc31.strans (sfb32 nb0 c00 acc31.cur_evol
    (curAt_resolve acc31.cur_evol hcb31))
  rw [hit31] at hbeself32
  simp only [ValueData.is_terminator, Bool.and_false] at hbeself32
  refine ⟨fd32, hfd32, acc32, ?_⟩
  intro b hb
  rw [hcur32, hcur31, hcur30] at hb
  injection hb with hb
  subst hb
  exact hbeself32

/-- The `get current block / create value / append / return` tail shared by
the binary-expression lowerings. -/
theorem tail_getbb_new_add {d : ValueData} (hterm : d.is_terminator = false)
    {c : Context} {v : Value} {c' : Context}
    (h : (do
      let current_bb ← mGetBB
      let value ← ctxNewValue d
      ctxAddInst current_bb value
      pure value : M Value) c = .ok v c') : EInv c c' := by
  obtain ⟨bb, c1, hbb, h1⟩ := bind_ok_inv h
  obtain ⟨hc1, hcb⟩ := mGetBB_spec hbb
  subst hc1
  obtain ⟨nv, c2, hnv, h2⟩ := bind_ok_inv h1
  obtain ⟨u3, c3, hadd, h3⟩ := bind_ok_inv h2
  obtain ⟨hveq, hc⟩ := pure_ok_inv h3
  subst hc
  obtain ⟨fd0, hfd0, hnveq, hfd2, hfunc2, hcur2, hws2, hnvi2, hsc2, hft2, hoth2⟩ :=
    ctxNewValue_spec hnv
  refine (EInv_newValue hnv).trans (EInv_addInst_cur hadd ?_ ?_ ?_)
  · rw [hcur2]
    exact hcb
  · rw [hnvi2, hnveq]
    exact Nat.lt_succ_self _
  · intro fd hfd
    rw [newValue_data hnv fd hfd]
    exact hterm

/-- The `create value / get current block / append / return` tail used by
the call and indexed-load lowerings. -/
theorem tail_new_getbb_add {d : ValueData} (hterm : d.is_terminator = false)
    {c : Context} {v : Value} {c' : Context}
    (h : (do
      let value ← ctxNewValue d
      let current_bb ← mGetBB
      ctxAddInst current_bb value
      pure value : M Value) c = .ok v c') : EInv c c' := by
  obtain ⟨nv, c1, hnv, h1⟩ := bind_ok_inv h
  obtain ⟨bb, c2, hbb, h2⟩ := bind_ok_inv h1
  obtain ⟨hc2, hcb⟩ := mGetBB_spec hbb
  subst hc2
  obtain ⟨u3, c3, hadd, h3⟩ := bind_ok_inv h2
  obtain ⟨hveq, hc⟩ := pure_ok_inv h3
  subst hc
  obtain ⟨fd0, hfd0, hnveq, hfd2, hfunc2, hcur2, hws2, hnvi2, hsc2, hft2, hoth2⟩ :=
    ctxNewValue_spec hnv
  refine (EInv_newValue hnv).trans (EInv_addInst_cur hadd hcb ?_ ?_)
  · rw [hnvi2, hnveq]
    exact Nat.lt_succ_self _
  · intro fd hfd
    rw [newValue_data hnv fd hfd]
    exact hterm

/-- The inline function-table lookup of `FuncCall::generate_ir`. -/
theorem funcLookup_spec {nm : String} {c : Context} {f : Nat} {c' : Context}
    (h : (fun ctx => match ctx.func_table.lookup nm with
      | some f => MRes.ok f ctx
      | none => MRes.err ParseError.FunctionNotFound) c = .ok f c') : c' = c := by
  cases hlk : c.func_table.lookup nm with
  | some g =>
    simp only [hlk] at h
    simp only [MRes.ok.injEq] at h
    exact h.2.symm
  | none =>
    simp only [hlk] at h
    exact absurd h (by simp)

/-- The `create value / append to a known block / return` tail of the
scalar-variable load. -/
theorem tail_new_add {d : ValueData} (hterm : d.is_terminator = false)
    {bb : BasicBlock} {c : Context} {v : Value} {c' : Context}
    (hcb : c.current_bb = some bb)
    (h : (do
      let value ← ctxNewValue d
      ctxAddInst bb value
      pure value : M Value) c = .ok v c') : EInv c c' := by
  obtain ⟨nv, c1, hnv, h1⟩ := bind_ok_inv h
  obtain ⟨u2, c2, hadd, h2⟩ := bind_ok_inv h1
  obtain ⟨hveq, hc⟩ := pure_ok_inv h2
  subst hc
  obtain ⟨fd0, hfd0, hnveq, hfd2, hfunc2, hcur2, hws2, hnvi2, hsc2, hft2, hoth2⟩ :=
    ctxNewValue_spec hnv
  refine (EInv_newValue hnv).trans (EInv_addInst_cur hadd ?_ ?_ ?_)
  · rw [hcur2]
    exact hcb
  · rw [hnvi2, hnveq]
    exact Nat.lt_succ_self _
  · intro fd hfd
    rw [newValue_data hnv fd hfd]
    exact hterm

mutual

/-- `Expr` lowering preserves the expression invariant. -/
theorem Expr_ir_einv : ∀ (e : Expr) (c : Context) (v : Value) (c' : Context),
    Expr.generate_ir e c = .ok v c' → EInv c c'
  | .mk e, c, v, c', h0 => by
    simp only [Expr.generate_ir] at h0
    exact LOr_ir_einv e c v c' h0
termination_by e _ _ _ _ => sizeOf e

theorem LOr_ir_einv : ∀ (e : LOrExpr) (c : Context) (v : Value) (c' : Context),
    LOrExpr.generate_ir e c = .ok v c' → EInv c c'
  | .LAndExpr a, c, v, c', h0 => by
    simp only [LOrExpr.generate_ir] at h0
    exact LAnd_ir_einv a c v c' h0
  | .Or lhs rhs, c, v, c', h0 => by
    rw [LOr_body_eq] at h0
    exact scBody_einv _ _ _
      (fun c1 v1 c1' hh => LOr_ir_einv lhs c1 v1 c1' hh)
      (fun c1 v1 c1' hh => LAnd_ir_einv rhs c1 v1 c1' hh) c v c' h0
termination_by e _ _ _ _ => sizeOf e

theorem LAnd_ir_einv : ∀ (e : LAndExpr) (c : Context) (v : Value) (c' : Context),
    LAndExpr.generate_ir e c = .ok v c' → EInv c c'
  | .EqExpr a, c, v, c', h0 => by
    simp only [LAndExpr.generate_ir] at h0
    exact Eq_ir_einv a c v c' h0
  | .And lhs rhs, c, v, c', h0 => by
    rw [LAnd_body_eq] at h0
    exact scBody_einv _ _ _
      (fun c1 v1 c1' hh => LAnd_ir_einv lhs c1 v1 c1' hh)
      (fun c1 v1 c1' hh => Eq_ir_einv rhs c1 v1 c1' hh) c v c' h0
termination_by e _ _ _ _ => sizeOf e

theorem Eq_ir_einv : ∀ (e : EqExpr) (c : Context) (v : Value) (c' : Context),
    EqExpr.generate_ir e c = .ok v c' → EInv c c'
  | .RelExpr a, c, v, c', h0 => by
    simp only [EqExpr.generate_ir] at h0
    exact Rel_ir_einv a c v c' h0
  | .Eq lhs op rhs, c, v, c', h0 => by
    simp only [EqExpr.generate_ir] at h0
    obtain ⟨lv, c1, hlv, h1⟩ := bind_ok_inv h0
    obtain ⟨rv, c2, hrv, h2⟩ := bind_ok_inv h1
    exact ((Eq_ir_einv lhs c lv c1 hlv).trans
      (Rel_ir_einv rhs c1 rv c2 hrv)).trans (tail_getbb_new_add (by rfl) h2)
termination_by e _ _ _ _ => sizeOf e

theorem Rel_ir_einv : ∀ (e : RelExpr) (c : Context) (v : Value) (c' : Context),
    RelExpr.generate_ir e c = .ok v c' → EInv c c'
  | .AddExpr a, c, v, c', h0 => by
    simp only [RelExpr.generate_ir] at h0
    exact Add_ir_einv a c v c' h0
  | .Rel lhs op rhs, c, v, c', h0 => by
    simp only [RelExpr.generate_ir] at h0
    obtain ⟨lv, c1, hlv, h1⟩ := bind_ok_inv h0
    obtain ⟨rv, c2, hrv, h2⟩ := bind_ok_inv h1
    exact ((Rel_ir_einv lhs c lv c1 hlv).trans
      (Add_ir_einv rhs c1 rv c2 hrv)).trans (tail_getbb_new_add (by rfl) h2)
termination_by e _ _ _ _ => sizeOf e

theorem Add_ir_einv : ∀ (e : AddExpr) (c : Context) (v : Value) (c' : Context),
    AddExpr.generate_ir e c = .ok v c' → EInv c c'
  | .MulExpr a, c, v, c', h0 => by
    simp only [AddExpr.generate_ir] at h0
    exact Mul_ir_einv a c v c' h0
  | .Add lhs op rhs, c, v, c', h0 => by
    simp only [AddExpr.generate_ir] at h0
    obtain ⟨lv, c1, hlv, h1⟩ := bind_ok_inv h0
    obtain ⟨rv, c2, hrv, h2⟩ := bind_ok_inv h1
    exact ((Add_ir_einv lhs c lv c1 hlv).trans
      (Mul_ir_einv rhs c1 rv c2 hrv)).trans (tail_getbb_new_add (by rfl) h2)
termination_by e _ _ _ _ => sizeOf e

theorem Mul_ir_einv : ∀ (e : MulExpr) (c : Context) (v : Value) (c' : Context),
    MulExpr.generate_ir e c = .ok v c' → EInv c c'
  | .UnaryExpr a, c, v, c', h0 => by
    simp only [MulExpr.generate_ir] at h0
    exact Unary_ir_einv a c v c' h0
  | .Mul lhs op rhs, c, v, c', h0 => by
    simp only [MulExpr.generate_ir] at h0
    obtain ⟨lv, c1, hlv, h1⟩ := bind_ok_inv h0
    obtain ⟨rv, c2, hrv, h2⟩ := bind_ok_inv h1
    exact ((Mul_ir_einv lhs c lv c1 hlv).trans
      (Unary_ir_einv rhs c1 rv c2 hrv)).trans (tail_getbb_new_add (by rfl) h2)
termination_by e _ _ _ _ => sizeOf e

theorem Unary_ir_einv : ∀ (e : UnaryExpr) (c : Context) (v : Value) (c' : Context),
    UnaryExpr.generate_ir e c = .ok v c' → EInv c c'
  | .PrimaryExpr a, c, v, c', h0 => by
    simp only [UnaryExpr.generate_ir] at h0
    exact Primary_ir_einv a c v c' h0
  | .FuncCall f, c, v, c', h0 => by
    simp only [UnaryExpr.generate_ir] at h0
    exact FuncCall_ir_einv f c v c' h0
  | .Unary op e, c, v, c', h0 => by
    simp only [UnaryExpr.generate_ir] at h0
    obtain ⟨ev, c1, hev, h1⟩ := bind_ok_inv h0
    have eE : EInv c c1 := Unary_ir_einv e c ev c1 hev
    obtain ⟨cbv, c2, hcb, h2⟩ := bind_ok_inv h1
    obtain ⟨hc2, hcbv⟩ := mGetBB_spec hcb
    subst hc2
    obtain ⟨z, c3, hz, h3⟩ := bind_ok_inv h2
    obtain ⟨fdz, hfdz, hzeq, hfd3, hfunc3, hcur3, hws3, hnvi3, hsc3, hft3, hoth3⟩ :=
      ctxNewValue_spec hz
    cases op with
    | Pos =>
      simp only [] at h3
      obtain ⟨hveq, hc⟩ := pure_ok_inv h3
      subst hc
      exact eE.trans (EInv_newValue hz)
    | Neg =>
      simp only [] at h3
      obtain ⟨bv, c4, hbv, h4⟩ := bind_ok_inv h3
      obtain ⟨u5, c5, hadd, h5⟩ := bind_ok_inv h4
      obtain ⟨hveq, hc⟩ := pure_ok_inv h5
      subst hc
      obtain ⟨fdb, hfdb, hbveq, hfd4, hfunc4, hcur4, hws4, hnvi4, hsc4, hft4,
          hoth4⟩ := ctxNewValue_spec hbv
      refine eE.trans ((EInv_newValue hz).trans ((EInv_newValue hbv).trans
        (EInv_addInst_cur hadd ?_ ?_ ?_)))
      · rw [hcur4, hcur3]
        exact hcbv
      · rw [hnvi4, hbveq]
        exact Nat.lt_succ_self _
      · intro fd hfd
        rw [newValue_data hbv fd hfd]
        rfl
    | Not =>
      simp only [] at h3
      obtain ⟨bv, c4, hbv, h4⟩ := bind_ok_inv h3
      obtain ⟨u5, c5, hadd, h5⟩ := bind_ok_inv h4
      obtain ⟨hveq, hc⟩ := pure_ok_inv h5
      subst hc
      obtain ⟨fdb, hfdb, hbveq, hfd4, hfunc4, hcur4, hws4, hnvi4, hsc4, hft4,
          hoth4⟩ := ctxNewValue_spec hbv
      refine eE.trans ((EInv_newValue hz).trans ((EInv_newValue hbv).trans
        (EInv_addInst_cur hadd ?_ ?_ ?_)))
      · rw [hcur4, hcur3]
        exact hcbv
      · rw [hnvi4, hbveq]
        exact Nat.lt_succ_self _
      · intro fd hfd
        rw [newValue_data hbv fd hfd]
        rfl
termination_by e _ _ _ _ => sizeOf e

theorem Primary_ir_einv : ∀ (e : PrimaryExpr) (c : Context) (v : Value)
    (c' : Context), PrimaryExpr.generate_ir e c = .ok v c' → EInv c c'
  | .Expr e, c, v, c', h0 => by
    simp only [PrimaryExpr.generate_ir] at h0
    exact Expr_ir_einv e c v c' h0
  | .LVal l, c, v, c', h0 => by
    simp only [PrimaryExpr.generate_ir] at h0
    exact LVal_ir_einv l c v c' h0
  | .Number n, c, v, c', h0 => by
    simp only [PrimaryExpr.generate_ir] at h0
    unfold Int.generate_ir at h0
    exact EInv_newValue h0
termination_by e _ _ _ _ => sizeOf e

theorem FuncCall_ir_einv : ∀ (f : FuncCall) (c : Context) (v : Value)
    (c' : Context), FuncCall.generate_ir f c = .ok v c' → EInv c c'
  | .mk nm args, c, v, c', h0 => by
    simp only [FuncCall.generate_ir] at h0
    obtain ⟨ps, c1, hps, h1⟩ := bind_ok_inv h0
    obtain ⟨fk, c2, hfk, h2⟩ := bind_ok_inv h1
    have hc2 := funcLookup_spec hfk
    subst hc2
    exact (genExprList_einv args c ps c2 hps).trans (tail_new_getbb_add (by rfl) h2)
termination_by f _ _ _ _ => sizeOf f

theorem get_array_pos_einv : ∀ (ae : ArrayElem) (c : Context) (v : Value)
    (c' : Context), get_array_pos ae c = .ok v c' → EInv c c'
  | .mk nm idxs, c, v, c', h0 => by
    simp only [get_array_pos] at h0
    obtain ⟨ids, c1, hids, h1⟩ := bind_ok_inv h0
    obtain ⟨ident, c2, hident, h2⟩ := bind_ok_inv h1
    obtain ⟨hc2, hidval⟩ := mGetIdentifier_spec hident
    subst hc2
    have eI : EInv c c2 := genExprList_einv idxs c ids c2 hids
    cases ident with
    | none =>
      simp only [] at h2
      obtain ⟨a, c3, hth, h3⟩ := bind_ok_inv h2
      exact absurd hth (fun hh => mthrow_not_ok hh)
    | some id =>
      cases id with
      | Variable var =>
        simp only [] at h2
        obtain ⟨a, c3, hpu, h3⟩ := bind_ok_inv h2
        obtain ⟨haeq, hc3⟩ := pure_ok_inv hpu
        subst hc3
        exact eI.trans (getArrayPosLoop_einv ids a c3 v c' h3)
      | Constant cc =>
        simp only [] at h2
        obtain ⟨a, c3, hth, h3⟩ := bind_ok_inv h2
        exact absurd hth (fun hh => mthrow_not_ok hh)
      | ConstArray ca =>
        simp only [] at h2
        obtain ⟨a, c3, hpu, h3⟩ := bind_ok_inv h2
        obtain ⟨haeq, hc3⟩ := pure_ok_inv hpu
        subst hc3
        exact eI.trans (getArrayPosLoop_einv ids a c3 v c' h3)
termination_by ae _ _ _ _ => sizeOf ae

theorem LVal_ir_einv : ∀ (l : LVal) (c : Context) (v : Value) (c' : Context),
    LVal.generate_ir l c = .ok v c' → EInv c c'
  | .Var var, c, v, c', h0 => by
    simp only [LVal.generate_ir] at h0
    obtain ⟨ident, c1, hident, h1⟩ := bind_ok_inv h0
    obtain ⟨hc1, hidval⟩ := mGetIdentifier_spec hident
    subst hc1
    cases ident with
    | none => exact absurd h1 (fun hh => mthrow_not_ok hh)
    | some id =>
      cases id with
      | Variable vr =>
        simp only [] at h1
        obtain ⟨bb, c2, hbb, h2⟩ := bind_ok_inv h1
        obtain ⟨hc2, hcb⟩ := mGetBB_spec hbb
        subst hc2
        obtain ⟨rt, c3, hrt, h3⟩ := bind_ok_inv h2
        have hc3 := get_type_spec hrt
        subst hc3
        cases hmt : remove_pointer rt with
        | array t len =>
          rw [hmt] at h3
          simp only [] at h3
          unfold Int.generate_ir at h3
          obtain ⟨z, c4, hz, h4⟩ := bind_ok_inv h3
          obtain ⟨ld, c5, hld, h5⟩ := bind_ok_inv h4
          obtain ⟨u6, c6, hadd, h6⟩ := bind_ok_inv h5
          obtain ⟨hveq, hc⟩ := pure_ok_inv h6
          subst hc
          obtain ⟨fdz, hfdz, hzeq, hfd4, hfunc4, hcur4, hws4, hnvi4, hsc4, hft4,
              hoth4⟩ := ctxNewValue_spec hz
          obtain ⟨fdl, hfdl, hldeq, hfd5, hfunc5, hcur5, hws5, hnvi5, hsc5, hft5,
              hoth5⟩ := ctxNewValue_spec hld
          refine (EInv_newValue hz).trans ((EInv_newValue hld).trans
            (EInv_addInst_cur hadd ?_ ?_ ?_))
          · rw [hcur5, hcur4]
            exact hcb
          · rw [hnvi5, hldeq]
            exact Nat.lt_succ_self _
          · intro fd hfd
            rw [newValue_data hld fd hfd]
            rfl
        | i32 =>
          rw [hmt] at h3
          simp only [] at h3
          exact tail_new_add (by rfl) hcb h3
        | unit =>
          rw [hmt] at h3
          simp only [] at h3
          exact tail_new_add (by rfl) hcb h3
        | pointer t =>
          rw [hmt] at h3
          simp only [] at h3
          exact tail_new_add (by rfl) hcb h3
      | Constant cc =>
        simp only [] at h1
        unfold Int.generate_ir at h1
        exact EInv_newValue h1
      | ConstArray ca => exact absurd h1 (fun hh => mthrow_not_ok hh)
  | .ArrayElem ae, c, v, c', h0 => by
    simp only [LVal.generate_ir] at h0
    obtain ⟨pos, c1, hpos, h1⟩ := bind_ok_inv h0
    have eP : EInv c c1 := get_array_pos_einv ae c pos c1 hpos
    obtain ⟨pt, c2, hpt, h2⟩ := bind_ok_inv h1
    have hc2 := mFuncValueTy_spec hpt
    subst hc2
    cases hmt : remove_pointer pt with
    | i32 =>
      rw [hmt] at h2
      simp only [] at h2
      exact eP.trans (tail_new_getbb_add (by rfl) h2)
    | unit =>
      rw [hmt] at h2
      simp only [] at h2
      unfold Int.generate_ir at h2
      obtain ⟨z, c3, hz, h3⟩ := bind_ok_inv h2
      exact eP.trans ((EInv_newValue hz).trans (tail_new_getbb_add (by rfl) h3))
    | array t len =>
      rw [hmt] at h2
      simp only [] at h2
      unfold Int.generate_ir at h2
      obtain ⟨z, c3, hz, h3⟩ := bind_ok_inv h2
      exact eP.trans ((EInv_newValue hz).trans (tail_new_getbb_add (by rfl) h3))
    | pointer t =>
      rw [hmt] at h2
      simp only [] at h2
      unfold Int.generate_ir at h2
      obtain ⟨z, c3, hz, h3⟩ := bind_ok_inv h2
      exact eP.trans ((EInv_newValue hz).trans (tail_new_getbb_add (by rfl) h3))
termination_by l _ _ _ _ => sizeOf l

theorem genExprList_einv : ∀ (es : List Expr) (c : Context) (vs : List Value)
    (c' : Context), genExprList es c = .ok vs c' → EInv c c'
  | [], c, vs, c', h0 => by
    simp only [genExprList] at h0
    exact EInv_of_eq (pure_ok_inv h0).2
  | e :: es, c, vs, c', h0 => by
    simp only [genExprList] at h0
    obtain ⟨ev, c1, hev, h1⟩ := bind_ok_inv h0
    obtain ⟨evs, c2, hevs, h2⟩ := bind_ok_inv h1
    obtain ⟨hvseq, hc⟩ := pure_ok_inv h2
    subst hc
    exact (Expr_ir_einv e c ev c1 hev).trans (genExprList_einv es c1 evs c' hevs)
termination_by es _ _ _ _ => sizeOf es

end

/-- `mNewGlobalValue` leaves every function untouched and bumps the
compilation-wide value counter. -/
theorem EInv_newGlobal {d : ValueData} {ctx : Context} {v : Value}
    {ctx' : Context} (h : mNewGlobalValue d ctx = .ok v ctx') : EInv ctx ctx' := by
  obtain ⟨hv, hfuncs, hfunc, hcur, hws, hnv, hsc, hft⟩ := mNewGlobalValue_spec h
  intro nb0 c0 fd hfd hwf hopen hlt hnb hc0
  have hfd' : FD ctx' = some fd := by
    unfold FD at hfd ⊢
    rw [hfunc, hfuncs]
    exact hfd
  exact ⟨fd, hfd', ⟨hfunc, hws, by rw [hnv]; exact hwf.mono (Nat.le_succ _),
    by omega, le_refl _, fun w hw => rfl, fun b _ _ => rfl, fun b hb => Or.inl hb,
    by rw [hcur]; exact hc0, by rw [hcur]; exact hlt,
    fun k' _ => by rw [hfuncs]⟩, by rw [hcur]; exact hopen⟩

theorem EInv_setGlobalName {v : Value} {name : String} {ctx ctx' : Context}
    (h : mSetGlobalValueName v name ctx = .ok () ctx') : EInv ctx ctx' := by
  obtain ⟨hfuncs, hfunc, hcur, hws, hnv, hsc, hft⟩ := mSetGlobalValueName_spec h
  exact EInv_same_fd hfuncs hfunc hcur hws hnv

theorem EInv_scopeAdd {name : String} {id : Identifier} {ctx : Context}
    {b : Bool} {ctx' : Context}
    (h : scopeAddIdentifier name id ctx = .ok b ctx') : EInv ctx ctx' := by
  obtain ⟨sc', hctx⟩ := scopeAddIdentifier_spec h
  subst hctx
  exact EInv_same_fd rfl rfl rfl rfl rfl

theorem EInv_scopeInto {id : Nat} {ctx ctx' : Context}
    (h : mScopeInto id ctx = .ok () ctx') : EInv ctx ctx' := by
  have hctx := mScopeInto_spec h
  subst hctx
  exact EInv_same_fd rfl rfl rfl rfl rfl

theorem EInv_scopeOut {ctx ctx' : Context}
    (h : mScopeOut ctx = .ok () ctx') : EInv ctx ctx' := by
  have hctx := mScopeOut_spec h
  subst hctx
  exact EInv_same_fd rfl rfl rfl rfl rfl

/-- The `alloc / name / append` motif of the declaration lowerings. -/
theorem einv_new_setname_add {d : ValueData} {nm : String} {bb : BasicBlock}
    {c c1 c2 c3 : Context} {a : Value} {u1 u2 : Unit}
    (h1 : ctxNewValue d c = .ok a c1)
    (h2 : ctxSetValueName a nm c1 = .ok u1 c2)
    (h3 : ctxAddInst bb a c2 = .ok u2 c3)
    (hcb : c.current_bb = some bb)
    (hterm : d.is_terminator = false) :
    EInv c c3 ∧ c3.current_bb = c.current_bb
      ∧ c3.next_value_id = c.next_value_id + 1 ∧ a = c.next_value_id := by
  obtain ⟨u1'⟩ := u1
  obtain ⟨u2'⟩ := u2
  obtain ⟨fd0, hfd0, haeq, hfd1, hfunc1, hcur1, hws1, hnv1, hsc1, hft1, hoth1⟩ :=
    ctxNewValue_spec h1
  obtain ⟨fd1, hfd1', hfd2, hfunc2, hcur2, hws2, hnv2, hsc2, hft2, hoth2⟩ :=
    ctxSetValueName_spec h2
  obtain ⟨fd2, hfd2', hfd3, hfunc3, hcur3, hws3, hnv3, hsc3, hft3, hoth3⟩ :=
    ctxAddInst_spec h3
  rw [hfd1] at hfd1'
  injection hfd1' with hfd1'
  subst hfd1'
  refine ⟨(EInv_newValue h1).trans ((EInv_setValueName h2).trans
    (EInv_addInst_cur h3 ?_ ?_ ?_)), by rw [hcur3, hcur2, hcur1],
    by rw [hnv3, hnv2, hnv1], haeq⟩
  · rw [hcur2, hcur1]
    exact hcb
  · rw [hnv2, hnv1, haeq]
    exact Nat.lt_succ_self _
  · intro fd hfd
    rw [hfd2] at hfd
    injection hfd with hfd
    subst hfd
    rw [inst_is_term_names]
    rw [newValue_data h1 _ hfd1]
    exact hterm

/-- `impl GenerateIR for ConstExpr` preserves the invariant. -/
theorem ConstExpr_ir_einv {ce : ConstExpr} {c : Context} {v : Value}
    {c' : Context} (h : ConstExpr.generate_ir ce c = .ok v c') : EInv c c' := by
  unfold ConstExpr.generate_ir at h
  cases hev : ce.val.eval c.scope with
  | error e =>
    rw [hev] at h
    exact absurd h (by simp)
  | ok val =>
    rw [hev] at h
    cases hgf : c.get_func with
    | ok k =>
      rw [hgf] at h
      exact EInv_newValue h
    | error e =>
      rw [hgf] at h
      exact EInv_newGlobal h

/-- `impl GenerateIR for Return` terminates the current block. -/
theorem Return_winv {r : Return} {c : Context} {c' : Context}
    (h : Return.generate_ir r c = .ok () c') : WInv c c' := by
  unfold Return.generate_ir at h
  cases r with
  | none =>
    obtain ⟨rv, c1, hrv, h1⟩ := bind_ok_inv h
    obtain ⟨bb, c2, hbb, h2⟩ := bind_ok_inv h1
    obtain ⟨hc2, hcb⟩ := mGetBB_spec hbb
    subst hc2
    obtain ⟨fd0, hfd0, hrveq, hfd1, hfunc1, hcur1, hws1, hnv1, hsc1, hft1,
        hoth1⟩ := ctxNewValue_spec hrv
    exact (EInv_newValue hrv).trans_w (WInv_addInst_cur h2 hcb
      (by rw [hnv1, hrveq]; exact Nat.lt_succ_self _))
  | some expr =>
    obtain ⟨r0, c1, hr0, h1⟩ := bind_ok_inv h
    obtain ⟨hc1, hrval⟩ := mEvalExpr_spec hr0
    subst hc1
    cases r0 with
    | ok rv =>
      simp only [] at h1
      obtain ⟨iv, c2, hiv, h2⟩ := bind_ok_inv h1
      obtain ⟨retv, c3, hretv, h3⟩ := bind_ok_inv h2
      obtain ⟨bb, c4, hbb, h4⟩ := bind_ok_inv h3
      obtain ⟨hc4, hcb⟩ := mGetBB_spec hbb
      subst hc4
      obtain ⟨fd2, hfd2, hreq, hfd3, hfunc3, hcur3, hws3, hnv3, hsc3, hft3,
          hoth3⟩ := ctxNewValue_spec hretv
      exact (EInv_newValue hiv).trans_w ((EInv_newValue hretv).trans_w
        (WInv_addInst_cur h4 hcb
          (by rw [hnv3, hreq]; exact Nat.lt_succ_self _)))
    | error e =>
      simp only [] at h1
      obtain ⟨ev, c2, hev, h2⟩ := bind_ok_inv h1
      obtain ⟨retv, c3, hretv, h3⟩ := bind_ok_inv h2
      obtain ⟨bb, c4, hbb, h4⟩ := bind_ok_inv h3
      obtain ⟨hc4, hcb⟩ := mGetBB_spec hbb
      subst hc4
      obtain ⟨fd2, hfd2, hreq, hfd3, hfunc3, hcur3, hws3, hnv3, hsc3, hft3,
          hoth3⟩ := ctxNewValue_spec hretv
      exact (Expr_ir_einv expr c1 ev c2 hev).trans_w ((EInv_newValue hretv).trans_w
        (WInv_addInst_cur h4 hcb
          (by rw [hnv3, hreq]; exact Nat.lt_succ_self _)))

/-- `impl GenerateIR for Break` terminates the current block with a jump to
the innermost loop's end block. -/
theorem Break_winv {b : Break} {c : Context} {c' : Context}
    (h : Break.generate_ir b c = .ok () c') : WInv c c' := by
  unfold Break.generate_ir at h
  cases hwi : c.get_while_info with
  | none =>
    rw [hwi] at h
    exact absurd h (by simp)
  | some info =>
    rw [hwi] at h
    obtain ⟨jv, c1, hjv, h1⟩ := bind_ok_inv h
    obtain ⟨bb, c2, hbb, h2⟩ := bind_ok_inv h1
    obtain ⟨hc2, hcb⟩ := mGetBB_spec hbb
    subst hc2
    obtain ⟨fd0, hfd0, hjeq, hfd1, hfunc1, hcur1, hws1, hnv1, hsc1, hft1,
        hoth1⟩ := ctxNewValue_spec hjv
    exact (EInv_newValue hjv).trans_w (WInv_addInst_cur h2 hcb
      (by rw [hnv1, hjeq]; exact Nat.lt_succ_self _))

/-- `impl GenerateIR for Continue`, symmetric to `Break`. -/
theorem Continue_winv {cn : Continue} {c : Context} {c' : Context}
    (h : Continue.generate_ir cn c = .ok () c') : WInv c c' := by
  unfold Continue.generate_ir at h
  cases hwi : c.get_while_info with
  | none =>
    rw [hwi] at h
    exact absurd h (by simp)
  | some info =>
    rw [hwi] at h
    obtain ⟨jv, c1, hjv, h1⟩ := bind_ok_inv h
    obtain ⟨bb, c2, hbb, h2⟩ := bind_ok_inv h1
    obtain ⟨hc2, hcb⟩ := mGetBB_spec hbb
    subst hc2
    obtain ⟨fd0, hfd0, hjeq, hfd1, hfunc1, hcur1, hws1, hnv1, hsc1, hft1,
        hoth1⟩ := ctxNewValue_spec hjv
    exact (EInv_newValue hjv).trans_w (WInv_addInst_cur h2 hcb
      (by rw [hnv1, hjeq]; exact Nat.lt_succ_self _))

/-- `impl GenerateIR for Assign` stores into the resolved l-value; the
current block stays open. -/
theorem Assign_einv {a : Assign} {c : Context} {c' : Context}
    (h : Assign.generate_ir a c = .ok () c') : EInv c c' := by
  obtain ⟨tgt, value⟩ := a
  unfold Assign.generate_ir at h
  cases tgt with
  | Var var =>
    simp only [] at h
    obtain ⟨vv, c1, hvv, h1⟩ := bind_ok_inv h
    obtain ⟨ident, c2, hident, h2⟩ := bind_ok_inv h1
    obtain ⟨hc2, hidval⟩ := mGetIdentifier_spec hident
    subst hc2
    have eV : EInv c c2 := Expr_ir_einv value c vv c2 hvv
    cases ident with
    | none =>
      simp only [] at h2
      obtain ⟨w, c3, hth, h3⟩ := bind_ok_inv h2
      exact absurd hth (fun hh => mthrow_not_ok hh)
    | some id =>
      cases hkd : id.koopa_def with
      | none =>
        simp only [hkd] at h2
        obtain ⟨w, c3, hth, h3⟩ := bind_ok_inv h2
        exact absurd hth (fun hh => mthrow_not_ok hh)
      | some vd =>
        simp only [hkd] at h2
        obtain ⟨w, c3, hpu, h3⟩ := bind_ok_inv h2
        obtain ⟨hweq, hc3⟩ := pure_ok_inv hpu
        subst hc3
        refine eV.trans ?_
        obtain ⟨st, c4, hst, h4⟩ := bind_ok_inv h3
        obtain ⟨bb, c5, hbb, h5⟩ := bind_ok_inv h4
        obtain ⟨hc5, hcb⟩ := mGetBB_spec hbb
        subst hc5
        obtain ⟨fd3, hfd3, hsteq, hfd4, hfunc4, hcur4, hws4, hnv4, hsc4, hft4,
            hoth4⟩ := ctxNewValue_spec hst
        refine (EInv_newValue hst).trans (EInv_addInst_cur h5 ?_ ?_ ?_)
        · exact hcb
        · rw [hnv4, hsteq]
          exact Nat.lt_succ_self _
        · intro fd hfd
          rw [newValue_data hst fd hfd]
          rfl
  | ArrayElem ae =>
    simp only [] at h
    obtain ⟨pos, c1, hpos, h1⟩ := bind_ok_inv h
    obtain ⟨vv, c2, hvv, h2⟩ := bind_ok_inv h1
    obtain ⟨st, c3, hst, h3⟩ := bind_ok_inv h2
    obtain ⟨bb, c4, hbb, h4⟩ := bind_ok_inv h3
    obtain ⟨hc4, hcb⟩ := mGetBB_spec hbb
    subst hc4
    obtain ⟨fd2, hfd2, hsteq, hfd3, hfunc3, hcur3, hws3, hnv3, hsc3, hft3,
        hoth3⟩ := ctxNewValue_spec hst
    refine ((get_array_pos_einv ae c pos c1 hpos).trans
      (Expr_ir_einv value c1 vv c2 hvv)).trans
      ((EInv_newValue hst).trans (EInv_addInst_cur h4 ?_ ?_ ?_))
    · exact hcb
    · rw [hnv3, hsteq]
      exact Nat.lt_succ_self _
    · intro fd hfd
      rw [newValue_data hst fd hfd]
      rfl

/-- The `add_identifier` + success-check tail shared by the declaration
lowerings: the scope write is invisible to the function invariant, and the
failure arm never returns normally. -/
theorem einv_scopeAdd_then {α : Type} {name : String} {id : Identifier}
    {res other : M α} {c : Context} {v : α} {c' : Context}
    (h : (do
      let okb ← scopeAddIdentifier name id
      if okb then res else other) c = .ok v c')
    (hres : ∀ cB w cB', res cB = .ok w cB' → cB' = cB)
    (hother : ∀ cB w cB', other cB = .ok w cB' → False) : EInv c c' := by
  obtain ⟨okb, cB, hok, h1⟩ := bind_ok_inv h
  have E : EInv c cB := EInv_scopeAdd hok
  cases okb with
  | true =>
    rw [if_pos rfl] at h1
    have hceq := hres cB v c' h1
    subst hceq
    exact E
  | false =>
    rw [if_neg (by simp)] at h1
    exact absurd h1 (fun hh => hother cB v c' hh)

/-- `impl GenerateIR for VarDef` preserves the invariant: a local definition
appends an alloc (and possibly an initializing store) to the open current
block; a global definition only touches the program arena and the scope. -/
theorem VarDef_ir_einv {vd : VarDef} {c : Context} {v : Value} {c' : Context}
    (h : VarDef.generate_ir vd c = .ok v c') : EInv c c' := by
  cases vd with
  | NormalVarDef nv =>
    simp only [VarDef.generate_ir] at h
    obtain ⟨sid, c1, hsid, h1⟩ := bind_ok_inv h
    have E0 : EInv c c1 := EInv_of_eq (mCurrentScopeId_spec hsid).1
    obtain ⟨isG, c2, hig, h2⟩ := bind_ok_inv h1
    have E0b : EInv c1 c2 := EInv_of_eq (mIsGlobal_spec hig).1
    refine (E0.trans E0b).trans ?_
    cases isG with
    | false =>
      simp only [Bool.not_false, if_true] at h2
      obtain ⟨bb, c3, hbb, h3⟩ := bind_ok_inv h2
      obtain ⟨hc3, hcb⟩ := mGetBB_spec hbb
      subst hc3
      obtain ⟨var_alloc, c4, halloc, h4⟩ := bind_ok_inv h3
      obtain ⟨u5, c5, hsn, h5⟩ := bind_ok_inv h4
      obtain ⟨u6, c6, hai, h6⟩ := bind_ok_inv h5
      obtain ⟨E1, hcur6, hnv6, haeq⟩ :=
        einv_new_setname_add halloc hsn hai hcb rfl
      refine E1.trans ?_
      cases hval : nv.value with
      | some init =>
        rw [hval] at h6
        simp only [] at h6
        obtain ⟨initv, cA, hinit, hA⟩ := bind_ok_inv h6
        obtain ⟨store, cB, hst, hB⟩ := bind_ok_inv hA
        obtain ⟨current_bb, cC, hgbb2, hC⟩ := bind_ok_inv hB
        obtain ⟨hcC, hcb2⟩ := mGetBB_spec hgbb2
        subst hcC
        obtain ⟨uD, cD, haiD, hD⟩ := bind_ok_inv hC
        obtain ⟨fdB, hfdB, hsteq, hfdC, hfuncC, hcurC, hwsC, hnvC, hscC,
            hftC, hothC⟩ := ctxNewValue_spec hst
        refine ((Expr_ir_einv init c6 initv cA hinit).trans
          ((EInv_newValue hst).trans (EInv_addInst_cur haiD hcb2 ?_ ?_))).trans
          (einv_scopeAdd_then hD (fun cB w cB' hh => (pure_ok_inv hh).2)
            (fun cB w cB' hh => mthrow_not_ok hh))
        · rw [hnvC, hsteq]
          exact Nat.lt_succ_self _
        · intro fd hfd
          rw [newValue_data hst fd hfd]
          rfl
      | none =>
        rw [hval] at h6
        simp only [] at h6
        obtain ⟨uA, cA, hpu, hA⟩ := bind_ok_inv h6
        have hcA := (pure_ok_inv hpu).2
        subst hcA
        exact einv_scopeAdd_then hA (fun cB w cB' hh => (pure_ok_inv hh).2)
          (fun cB w cB' hh => mthrow_not_ok hh)
    | true =>
      simp only [Bool.not_true, if_false] at h2
      obtain ⟨v0, c3, hv0, h3⟩ := bind_ok_inv h2
      simp only [MRes.ok.injEq] at hv0
      obtain ⟨hv0v, hc3⟩ := hv0
      obtain ⟨val, c4, hg1, h4⟩ := bind_ok_inv h3
      obtain ⟨var_alloc, c5, hg2, h5⟩ := bind_ok_inv h4
      obtain ⟨u6, c6, hsn, h6⟩ := bind_ok_inv h5
      exact ((EInv_of_eq hc3.symm).trans
        ((EInv_newGlobal hg1).trans (EInv_newGlobal hg2))).trans
        ((EInv_setGlobalName hsn).trans
          (einv_scopeAdd_then h6 (fun cB w cB' hh => (pure_ok_inv hh).2)
            (fun cB w cB' hh => mthrow_not_ok hh)))
  | ArrayVarDef av =>
    simp only [VarDef.generate_ir] at h
    obtain ⟨sid, c1, hsid, h1⟩ := bind_ok_inv h
    have E0 : EInv c c1 := EInv_of_eq (mCurrentScopeId_spec hsid).1
    obtain ⟨shape, c2, hsh, h2⟩ := bind_ok_inv h1
    simp only [MRes.ok.injEq] at hsh
    obtain ⟨hshv, hc2⟩ := hsh
    obtain ⟨isG, c3, hig, h3⟩ := bind_ok_inv h2
    have E0b : EInv c1 c3 :=
      (EInv_of_eq hc2.symm).trans (EInv_of_eq (mIsGlobal_spec hig).1)
    refine (E0.trans E0b).trans ?_
    cases isG with
    | true =>
      rw [if_pos rfl] at h3
      cases hvals : av.values with
      | some initial =>
        rw [hvals] at h3
        cases initial with
        | Val e =>
          simp only [] at h3
          obtain ⟨y, cA, hse, hA⟩ := bind_ok_inv h3
          exact absurd hse (fun hh => show_error_not_ok hh)
        | Array arr =>
          simp only [] at h3
          obtain ⟨il, cA, hil, hA⟩ := bind_ok_inv h3
          have EA : EInv c3 cA := EInv_of_eq (from_expr_array_spec hil)
          obtain ⟨init_value, cB, hgv, hB⟩ := bind_ok_inv hA
          unfold InitializeList.to_global_value at hgv
          obtain ⟨alloc, cC, hga, hC⟩ := bind_ok_inv hB
          obtain ⟨uD, cD, hsn, hD⟩ := bind_ok_inv hC
          exact ((EA.trans (EInv_newGlobal hgv)).trans
            (EInv_newGlobal hga)).trans
            ((EInv_setGlobalName hsn).trans
              (einv_scopeAdd_then hD (fun cB w cB' hh => (pure_ok_inv hh).2)
                (fun cB w cB' hh => mthrow_not_ok hh)))
      | none =>
        rw [hvals] at h3
        obtain ⟨il, cA, hpu, hA⟩ := bind_ok_inv h3
        have EA : EInv c3 cA := EInv_of_eq (pure_ok_inv hpu).2
        obtain ⟨init_value, cB, hgv, hB⟩ := bind_ok_inv hA
        unfold InitializeList.to_global_value at hgv
        obtain ⟨alloc, cC, hga, hC⟩ := bind_ok_inv hB
        obtain ⟨uD, cD, hsn, hD⟩ := bind_ok_inv hC
        exact ((EA.trans (EInv_newGlobal hgv)).trans
          (EInv_newGlobal hga)).trans
          ((EInv_setGlobalName hsn).trans
            (einv_scopeAdd_then hD (fun cB w cB' hh => (pure_ok_inv hh).2)
              (fun cB w cB' hh => mthrow_not_ok hh)))
    | false =>
      rw [if_neg (by simp)] at h3
      obtain ⟨array_type, cA, hat, hA⟩ := bind_ok_inv h3
      have hcA := get_array_type_dims_spec hat
      subst hcA
      obtain ⟨bb, cB, hbb, hB⟩ := bind_ok_inv hA
      obtain ⟨hcB, hcb⟩ := mGetBB_spec hbb
      subst hcB
      obtain ⟨alloc, cC, halloc, hC⟩ := bind_ok_inv hB
      obtain ⟨uD, cD, hsn, hD⟩ := bind_ok_inv hC
      obtain ⟨uE, cE, hai, hE⟩ := bind_ok_inv hD
      obtain ⟨E1, hcurE, hnvE, haeq⟩ :=
        einv_new_setname_add halloc hsn hai hcb rfl
      refine E1.trans ?_
      cases hvals : av.values with
      | some initial =>
        rw [hvals] at hE
        cases initial with
        | Val e =>
          simp only [] at hE
          obtain ⟨y, cF, hse, hF⟩ := bind_ok_inv hE
          exact absurd hse (fun hh => show_error_not_ok hh)
        | Array arr =>
          simp only [] at hE
          obtain ⟨il, cF, hil, hF⟩ := bind_ok_inv hE
          have hcF := from_expr_array_spec hil
          obtain ⟨init_value, cG, hlv, hG⟩ := bind_ok_inv hF
          unfold InitializeList.to_local_value at hlv
          obtain ⟨store, cH, hst, hH⟩ := bind_ok_inv hG
          obtain ⟨uI, cI, hai2, hI⟩ := bind_ok_inv hH
          obtain ⟨fdF, hfdF, hiveq, hfdG, hfuncG, hcurG, hwsG, hnvG, hscG,
              hftG, hothG⟩ := ctxNewValue_spec hlv
          obtain ⟨fdG, hfdG2, hsteq, hfdH, hfuncH, hcurH, hwsH, hnvH, hscH,
              hftH, hothH⟩ := ctxNewValue_spec hst
          refine ((EInv_of_eq hcF).trans ((EInv_newValue hlv).trans
            ((EInv_newValue hst).trans
              (EInv_addInst_cur hai2 ?_ ?_ ?_)))).trans
            (einv_scopeAdd_then hI (fun cB w cB' hh => (pure_ok_inv hh).2)
              (fun cB w cB' hh => mthrow_not_ok hh))
          · rw [hcurH, hcurG, hcF, hcurE]
            exact hcb
          · rw [hnvH, hsteq]
            exact Nat.lt_succ_self _
          · intro fd hfd
            rw [newValue_data hst fd hfd]
            rfl
      | none =>
        rw [hvals] at hE
        simp only [] at hE
        obtain ⟨uF, cF, hpu, hF⟩ := bind_ok_inv hE
        have hcF := (pure_ok_inv hpu).2
        subst hcF
        exact einv_scopeAdd_then hF (fun cB w cB' hh => (pure_ok_inv hh).2)
          (fun cB w cB' hh => mthrow_not_ok hh)

/-- `impl GenerateIR for ConstDef` preserves the invariant. -/
theorem ConstDef_ir_einv {cd : ConstDef} {c : Context} {u : Unit} {c' : Context}
    (h : ConstDef.generate_ir cd c = .ok u c') : EInv c c' := by
  cases cd with
  | NormalConstDef normal =>
    simp only [ConstDef.generate_ir] at h
    obtain ⟨r, c1, hr, h1⟩ := bind_ok_inv h
    refine (EInv_of_eq (mEvalConst_spec hr).1).trans ?_
    cases r with
    | error e =>
      exact absurd h1 (fun hh => mthrow_not_ok hh)
    | ok val =>
      exact einv_scopeAdd_then h1 (fun cB w cB' hh => (pure_ok_inv hh).2)
        (fun cB w cB' hh => show_error_not_ok hh)
  | ArrayConstDef const_array =>
    simp only [ConstDef.generate_ir] at h
    cases hvals : const_array.values with
    | Val e =>
      rw [hvals] at h
      obtain ⟨arr, c1, hse, h1⟩ := bind_ok_inv h
      exact absurd hse (fun hh => show_error_not_ok hh)
    | Array a =>
      rw [hvals] at h
      obtain ⟨arr, c1, hpu, h1⟩ := bind_ok_inv h
      have E0 : EInv c c1 := EInv_of_eq (pure_ok_inv hpu).2
      obtain ⟨il, c2, hil, h2⟩ := bind_ok_inv h1
      have E1 : EInv c1 c2 := EInv_of_eq (from_const_array_spec hil)
      obtain ⟨sid, c3, hsid, h3⟩ := bind_ok_inv h2
      have E2 : EInv c2 c3 := EInv_of_eq (mCurrentScopeId_spec hsid).1
      obtain ⟨isG, c4, hig, h4⟩ := bind_ok_inv h3
      have E3 : EInv c3 c4 := EInv_of_eq (mIsGlobal_spec hig).1
      refine (((E0.trans E1).trans E2).trans E3).trans ?_
      cases isG with
      | true =>
        rw [if_pos rfl] at h4
        obtain ⟨init_value, cA, hgv, hA⟩ := bind_ok_inv h4
        unfold InitializeList.to_global_value at hgv
        obtain ⟨alloc, cB, hga, hB⟩ := bind_ok_inv hA
        obtain ⟨uC, cC, hsn, hC⟩ := bind_ok_inv hB
        obtain ⟨kd, cD, hpu2, hD⟩ := bind_ok_inv hC
        have hcD := (pure_ok_inv hpu2).2
        subst hcD
        exact ((EInv_newGlobal hgv).trans (EInv_newGlobal hga)).trans
          ((EInv_setGlobalName hsn).trans
            (einv_scopeAdd_then hD (fun cB w cB' hh => (pure_ok_inv hh).2)
              (fun cB w cB' hh => show_error_not_ok hh)))
      | false =>
        rw [if_neg (by simp)] at h4
        obtain ⟨array_type, cA, hat, hA⟩ := bind_ok_inv h4
        have hcA := get_array_type_spec hat
        subst hcA
        obtain ⟨bb, cB, hbb, hB⟩ := bind_ok_inv hA
        obtain ⟨hcB, hcb⟩ := mGetBB_spec hbb
        subst hcB
        obtain ⟨alloc, cC, halloc, hC⟩ := bind_ok_inv hB
        obtain ⟨uD, cD, hsn, hD⟩ := bind_ok_inv hC
        obtain ⟨uE, cE, hai, hE⟩ := bind_ok_inv hD
        obtain ⟨EA, hcurE, hnvE, haeq⟩ :=
          einv_new_setname_add halloc hsn hai hcb rfl
        obtain ⟨init_value, cF, hlv, hF⟩ := bind_ok_inv hE
        unfold InitializeList.to_local_value at hlv
        obtain ⟨store, cG, hst, hG⟩ := bind_ok_inv hF
        obtain ⟨uH, cH, hai2, hH⟩ := bind_ok_inv hG
        obtain ⟨kd, cI, hpu2, hI⟩ := bind_ok_inv hH
        have hcI := (pure_ok_inv hpu2).2
        subst hcI
        obtain ⟨fdE, hfdE, hiveq, hfdF, hfuncF, hcurF, hwsF, hnvF, hscF,
            hftF, hothF⟩ := ctxNewValue_spec hlv
        obtain ⟨fdF, hfdF2, hsteq, hfdG, hfuncG, hcurG, hwsG, hnvG, hscG,
            hftG, hothG⟩ := ctxNewValue_spec hst
        refine (EA.trans ((EInv_newValue hlv).trans
          ((EInv_newValue hst).trans
            (EInv_addInst_cur hai2 ?_ ?_ ?_)))).trans
          (einv_scopeAdd_then hI (fun cB w cB' hh => (pure_ok_inv hh).2)
            (fun cB w cB' hh => show_error_not_ok hh))
        · rw [hcurG, hcurF, hcurE]
          exact hcb
        · rw [hnvG, hsteq]
          exact Nat.lt_succ_self _
        · intro fd hfd
          rw [newValue_data hst fd hfd]
          rfl

theorem genConstDefs_einv (l : List ConstDef) :
    ∀ c u c', genConstDefs l c = .ok u c' → EInv c c' := by
  induction l with
  | nil =>
    intro c u c' h
    exact EInv_of_eq (pure_ok_inv h).2
  | cons d rest ih =>
    intro c u c' h
    simp only [genConstDefs] at h
    obtain ⟨u1, c1, hd, h1⟩ := bind_ok_inv h
    exact (ConstDef_ir_einv hd).trans (ih c1 u c' h1)

theorem genVarDefs_einv (l : List VarDef) :
    ∀ c u c', genVarDefs l c = .ok u c' → EInv c c' := by
  induction l with
  | nil =>
    intro c u c' h
    exact EInv_of_eq (pure_ok_inv h).2
  | cons d rest ih =>
    intro c u c' h
    simp only [genVarDefs] at h
    obtain ⟨v1, c1, hd, h1⟩ := bind_ok_inv h
    exact (VarDef_ir_einv hd).trans (ih c1 u c' h1)

/-- `impl GenerateIR for Decl` preserves the invariant. -/
theorem Decl_ir_einv {d : Decl} {c : Context} {u : Unit} {c' : Context}
    (h : Decl.generate_ir d c = .ok u c') : EInv c c' := by
  cases d with
  | ConstDecl defs =>
    simp only [Decl.generate_ir] at h
    exact genConstDefs_einv defs c u c' h
  | VarDecl defs =>
    simp only [Decl.generate_ir] at h
    exact genVarDefs_einv defs c u c' h

/-- `ctx.end_block(bb, target)`: a no-op on an already-terminated block,
otherwise a jump into `bb`; either way every other block is untouched. -/
theorem seg_endBlock {bb target : BasicBlock} {ctx ctx' : Context}
    {fd : FuncData}
    (h : ctxEndBlock bb target ctx = .ok () ctx')
    (hfd : FD ctx = some fd) (hwf : FDWF fd ctx.next_value_id)
    (hclt : curLt fd ctx.current_bb) :
    ∃ fd', FD ctx' = some fd'
      ∧ ctx'.current_bb = ctx.current_bb
      ∧ ctx.next_value_id ≤ ctx'.next_value_id
      ∧ ctx'.while_stack = ctx.while_stack
      ∧ fd'.blocks.map Prod.fst = fd.blocks.map Prod.fst
      ∧ fd'.nextBB = fd.nextBB
      ∧ (∀ b, b ≠ bb → fd'.block_ended_b b = fd.block_ended_b b)
      ∧ ∀ nb0 c0, curAt nb0 c0 ctx.current_bb → (some bb = c0 ∨ nb0 ≤ bb) →
          SegFacts nb0 c0 ctx ctx' fd fd' := by
  unfold ctxEndBlock at h
  have hfdok := FD_iff_funcdata.mp hfd
  rw [hfdok] at h
  simp only [] at h
  cases hend : fd.block_ended_b bb with
  | true =>
    rw [if_pos hend] at h
    simp only [MRes.ok.injEq] at h
    have hceq : ctx = ctx' := h.2
    subst hceq
    exact ⟨fd, hfd, rfl, le_refl _, rfl, rfl, rfl, fun b _ => rfl,
      fun nb0 c0 hc0 _ => SegFacts.refl hwf hclt hc0⟩
  | false =>
    rw [if_neg (by rw [hend]; simp)] at h
    cases hnv : ctxNewValue (.jump target) ctx with
    | ok v c2 =>
      rw [hnv] at h
      obtain ⟨fd1, hfd1, hveq, hcur1, hnv1, hws1, hvl1, hbk1, hnn1, hbe1,
          hit1, sfb1⟩ := seg_newValue hnv hfd hwf hclt
      have sf1 := sfb1 0 ctx.current_bb (Or.inl rfl)
      have hob : fd1.block_ended_b bb = false := (hbe1 bb).trans hend
      have hv : v < c2.next_value_id := by
        rw [hnv1, hveq]
        exact Nat.lt_succ_self _
      obtain ⟨fd2, hfd2, hcur2, hnv2, hws2, hvl2, hkk2, hnn2, hlkne2,
          hlkself2, hbene2, hbeself2, hitp2, sfb2⟩ :=
        seg_addInst h hfd1 sf1.wf sf1.cur_lt hob hv
      refine ⟨fd2, hfd2, hcur2.trans hcur1, by rw [hnv2, hnv1]; omega,
        hws2.trans hws1, hkk2.trans (congrArg (List.map Prod.fst) hbk1),
        hnn2.trans hnn1, fun b hb => (hbene2 b hb).trans (hbe1 b),
        fun nb0 c0 hc0 hbb =>
          (sfb1 nb0 c0 hc0).strans (sfb2 nb0 c0 (curAt_congr hc0 hcur1) hbb)⟩
    | err e =>
      rw [hnv] at h
      exact absurd h (by simp)
    | fatal k =>
      rw [hnv] at h
      exact absurd h (by simp)

set_option maxRecDepth 8000 in
mutual

theorem Stmt_ir_winv : ∀ (s : Stmt) (c : Context) (u : Unit) (c' : Context),
    Stmt.generate_ir s c = .ok u c' → WInv c c'
  | .Assign a, c, u, c', h0 => by
    simp only [Stmt.generate_ir] at h0
    exact (Assign_einv h0).toW
  | .Expr e, c, u, c', h0 => by
    simp only [Stmt.generate_ir] at h0
    obtain ⟨v1, c1, he, h1⟩ := bind_ok_inv h0
    exact ((Expr_ir_einv e c v1 c1 he).trans
      (EInv_of_eq (pure_ok_inv h1).2)).toW
  | .Block b, c, u, c', h0 => by
    simp only [Stmt.generate_ir] at h0
    obtain ⟨u1, c1, hin, h1⟩ := bind_ok_inv h0
    obtain ⟨u2, c2, hb, h2⟩ := bind_ok_inv h1
    exact (((EInv_scopeInto hin).trans (Block_ir_einv b c1 u2 c2 hb)).trans
      (EInv_scopeOut h2)).toW
  | .If i, c, u, c', h0 => by
    simp only [Stmt.generate_ir] at h0
    exact (If_ir_einv i c u c' h0).toW
  | .While w, c, u, c', h0 => by
    simp only [Stmt.generate_ir] at h0
    exact (While_ir_einv w c u c' h0).toW
  | .Return r, c, u, c', h0 => by
    simp only [Stmt.generate_ir] at h0
    exact Return_winv h0
  | .Break b, c, u, c', h0 => by
    simp only [Stmt.generate_ir] at h0
    exact Break_winv h0
  | .Continue cn, c, u, c', h0 => by
    simp only [Stmt.generate_ir] at h0
    exact Continue_winv h0
  | .Empty, c, u, c', h0 => by
    simp only [Stmt.generate_ir] at h0
    exact (EInv_of_eq (pure_ok_inv h0).2).toW
termination_by s _ _ _ _ => sizeOf s

theorem Block_ir_einv : ∀ (b : Block) (c : Context) (u : Unit) (c' : Context),
    Block.generate_ir b c = .ok u c' → EInv c c'
  | .mk id items, c, u, c', h0 => by
    simp only [Block.generate_ir] at h0
    obtain ⟨bb, c1, hnb1, h1⟩ := bind_ok_inv h0
    obtain ⟨u2, c2, hab1, h2⟩ := bind_ok_inv h1
    obtain ⟨u3, c3, hsc1, h3⟩ := bind_ok_inv h2
    obtain ⟨u4, c4, hitems, h4⟩ := bind_ok_inv h3
    obtain ⟨bb2, c5, hnb2, h5⟩ := bind_ok_inv h4
    obtain ⟨u6, c6, hab2, h6⟩ := bind_ok_inv h5
    clear h0 h1 h2 h3 h4 h5
    intro nb0 c0 fd0 hfd0 hwf0 hopen0 hclt0 hnb hcat0
    obtain ⟨fd1, hfd1, hbbeq, hcur1, hnv1, hws1, hvl1, hbk1, hnn1, hbe1,
        hitp1, sfb1⟩ := seg_newBB hnb1 hfd0 hwf0 hclt0
    have acc1 := sfb1 nb0 c0 hcat0
    have hnotin1 : bb ∉ fd1.blocks.map Prod.fst := by
      rw [hbk1, hbbeq]
      intro hmem
      obtain ⟨p, hp, hpe⟩ := List.mem_map.mp hmem
      have hpl := hwf0.blocksLt p hp
      rw [hpe] at hpl
      exact Nat.lt_irrefl _ hpl
    obtain ⟨fd2, hfd2, hcur2, hnv2, hws2, hvl2, hbl2, hkkA2, hnn2, hbene2,
        hbeself2, hlkself2, hitp2, sfb2⟩ :=
      seg_addBB hab1 hfd1 acc1.wf acc1.cur_lt hnotin1
        (by rw [hnn1, hbbeq]; exact Nat.lt_succ_self _)
    have hnbbb : nb0 ≤ bb := by rw [hbbeq]; exact hnb
    have acc2 := acc1.strans (sfb2 nb0 c0 acc1.cur_evol hnbbb)
    obtain ⟨hfd3, hcur3, hnv3, hws3, sfb3⟩ :=
      seg_setCur hsc1 hfd2 acc2.wf
        (by rw [hnn2, hnn1, hbbeq]; exact Nat.lt_succ_self _)
    have acc3 := acc2.strans (sfb3 nb0 c0 hnbbb)
    have ho3 : curOpen fd2 c3.current_bb := by
      intro b hb
      rw [hcur3] at hb
      injection hb with hb
      subst hb
      exact hbeself2
    obtain ⟨fd4, hfd4, acc4⟩ := chainW acc3 hfd3 ho3 hnb
      (genBlockItems_winv items c3 u4 c4 hitems)
    obtain ⟨fd5, hfd5, hbb2eq, hcur5, hnv5, hws5, hvl5, hbk5, hnn5, hbe5,
        hitp5, sfb5⟩ := seg_newBB hnb2 hfd4 acc4.wf acc4.cur_lt
    have acc5 := acc4.strans (sfb5 nb0 c0 acc4.cur_evol)
    have hnotin5 : bb2 ∉ fd5.blocks.map Prod.fst := by
      rw [hbk5, hbb2eq]
      intro hmem
      obtain ⟨p, hp, hpe⟩ := List.mem_map.mp hmem
      have hpl := acc4.wf.blocksLt p hp
      rw [hpe] at hpl
      exact Nat.lt_irrefl _ hpl
    obtain ⟨fd6, hfd6, hcur6, hnv6, hws6, hvl6, hbl6, hkkA6, hnn6, hbene6,
        hbeself6, hlkself6, hitp6, sfb6⟩ :=
      seg_addBB hab2 hfd5 acc5.wf acc5.cur_lt hnotin5
        (by rw [hnn5, hbb2eq]; exact Nat.lt_succ_self _)
    have hnbbb2 : nb0 ≤ bb2 := by
      rw [hbb2eq]
      exact le_trans hnb acc4.bb_le
    have acc6 := acc5.strans (sfb6 nb0 c0 acc5.cur_evol hnbbb2)
    obtain ⟨hfd7, hcur7, hnv7, hws7, sfb7⟩ :=
      seg_setCur h6 hfd6 acc6.wf
        (by rw [hnn6, hnn5, hbb2eq]; exact Nat.lt_succ_self _)
    have acc7 := acc6.strans (sfb7 nb0 c0 hnbbb2)
    refine ⟨fd6, hfd7, acc7, ?_⟩
    intro b hb
    rw [hcur7] at hb
    injection hb with hb
    subst hb
    exact hbeself6
termination_by b _ _ _ _ => sizeOf b

theorem genBlockItems_winv : ∀ (l : List BlockItem) (c : Context) (u : Unit)
    (c' : Context), genBlockItems l c = .ok u c' → WInv c c'
  | [], c, u, c', h0 => by
    simp only [genBlockItems] at h0
    exact (EInv_of_eq (pure_ok_inv h0).2).toW
  | .Stmt (.Return r) :: rest, c, u, c', h0 => by
    simp only [genBlockItems] at h0
    exact Stmt_ir_winv (.Return r) c u c' h0
  | .Stmt (.Break b) :: rest, c, u, c', h0 => by
    simp only [genBlockItems] at h0
    exact Stmt_ir_winv (.Break b) c u c' h0
  | .Stmt (.Continue cn) :: rest, c, u, c', h0 => by
    simp only [genBlockItems] at h0
    exact Stmt_ir_winv (.Continue cn) c u c' h0
  | .Stmt (.Assign a) :: rest, c, u, c', h0 => by
    simp only [genBlockItems, Stmt.generate_ir] at h0
    obtain ⟨u1, c1, hs, h1⟩ := bind_ok_inv h0
    exact (Assign_einv hs).trans_w (genBlockItems_winv rest c1 u c' h1)
  | .Stmt (.Expr e) :: rest, c, u, c', h0 => by
    simp only [genBlockItems, Stmt.generate_ir] at h0
    obtain ⟨u1, c1, hs, h1⟩ := bind_ok_inv h0
    obtain ⟨v1, cA, he, hA⟩ := bind_ok_inv hs
    exact ((Expr_ir_einv e c v1 cA he).trans
      (EInv_of_eq (pure_ok_inv hA).2)).trans_w
      (genBlockItems_winv rest c1 u c' h1)
  | .Stmt (.Block b) :: rest, c, u, c', h0 => by
    simp only [genBlockItems, Stmt.generate_ir] at h0
    obtain ⟨u1, c1, hs, h1⟩ := bind_ok_inv h0
    obtain ⟨uA, cA, hin, hA⟩ := bind_ok_inv hs
    obtain ⟨uB, cB, hb, hB⟩ := bind_ok_inv hA
    exact (((EInv_scopeInto hin).trans (Block_ir_einv b cA uB cB hb)).trans
      (EInv_scopeOut hB)).trans_w (genBlockItems_winv rest c1 u c' h1)
  | .Stmt (.If i) :: rest, c, u, c', h0 => by
    simp only [genBlockItems, Stmt.generate_ir] at h0
    obtain ⟨u1, c1, hs, h1⟩ := bind_ok_inv h0
    exact (If_ir_einv i c u1 c1 hs).trans_w
      (genBlockItems_winv rest c1 u c' h1)
  | .Stmt (.While w) :: rest, c, u, c', h0 => by
    simp only [genBlockItems, Stmt.generate_ir] at h0
    obtain ⟨u1, c1, hs, h1⟩ := bind_ok_inv h0
    exact (While_ir_einv w c u1 c1 hs).trans_w
      (genBlockItems_winv rest c1 u c' h1)
  | .Stmt .Empty :: rest, c, u, c', h0 => by
    simp only [genBlockItems, Stmt.generate_ir] at h0
    obtain ⟨u1, c1, hs, h1⟩ := bind_ok_inv h0
    exact (EInv_of_eq (pure_ok_inv hs).2).trans_w
      (genBlockItems_winv rest c1 u c' h1)
  | .Decl d :: rest, c, u, c', h0 => by
    simp only [genBlockItems] at h0
    obtain ⟨u1, c1, hd, h1⟩ := bind_ok_inv h0
    exact (Decl_ir_einv hd).trans_w (genBlockItems_winv rest c1 u c' h1)
termination_by l _ _ _ _ => sizeOf l

theorem If_ir_einv : ∀ (i : If) (c : Context) (u : Unit) (c' : Context),
    If.generate_ir i c = .ok u c' → EInv c c'
  | .mk cond then_stmt else_stmt, c, u, c', h0 => by
    simp only [If.generate_ir] at h0
    obtain ⟨condv, a1, hcond, h1⟩ := bind_ok_inv h0
    obtain ⟨current_bb, a2, hgbb, h2⟩ := bind_ok_inv h1
    obtain ⟨ha2, hcb⟩ := mGetBB_spec hgbb
    subst ha2
    obtain ⟨then_bb, a3, hnbT, h3⟩ := bind_ok_inv h2
    obtain ⟨u4, a4, habT, h4⟩ := bind_ok_inv h3
    obtain ⟨u5, a5, hscT, h5⟩ := bind_ok_inv h4
    obtain ⟨u6, a6, hthen, h6⟩ := bind_ok_inv h5
    obtain ⟨then_bb_end, a7, hgbb2, h7⟩ := bind_ok_inv h6
    obtain ⟨ha7, hcbte⟩ := mGetBB_spec hgbb2
    subst ha7
    obtain ⟨end_bb, a8, hnbE, h8⟩ := bind_ok_inv h7
    clear h0 h1 h2 h3 h4 h5 h6 h7
    intro nb0 c0 fd0 hfd0 hwf0 hopen0 hclt0 hnb hcat0
    obtain ⟨fd1, hfd1, acc1, ho1⟩ :=
      (Expr_ir_einv cond c condv a2 hcond) nb0 c0 fd0 hfd0 hwf0 hopen0
        hclt0 hnb hcat0
    have hob1 : fd1.block_ended_b current_bb = false := ho1 _ hcb
    have hcbres := curAt_resolve acc1.cur_evol hcb
    have hclt1 : current_bb < fd1.nextBB := acc1.cur_lt _ hcb
    obtain ⟨fd3, hfd3, hteq, hcur3, hnv3, hws3, hvl3, hbk3, hnn3, hbe3,
        hitp3, sfb3⟩ := seg_newBB hnbT hfd1 acc1.wf acc1.cur_lt
    have acc3 := acc1.strans (sfb3 nb0 c0 acc1.cur_evol)
    have hnotinT : then_bb ∉ fd3.blocks.map Prod.fst := by
      rw [hbk3, hteq]
      intro hmem
      obtain ⟨p, hp, hpe⟩ := List.mem_map.mp hmem
      have hpl := acc1.wf.blocksLt p hp
      rw [hpe] at hpl
      exact Nat.lt_irrefl _ hpl
    obtain ⟨fd4, hfd4, hcur4, hnv4, hws4, hvl4, hbl4, hkkA4, hnn4, hbene4,
        hbeself4, hlkself4, hitp4, sfb4⟩ :=
      seg_addBB habT hfd3 acc3.wf acc3.cur_lt hnotinT
        (by rw [hnn3, hteq]; exact Nat.lt_succ_self _)
    have hnbT2 : nb0 ≤ then_bb := by
      rw [hteq]
      exact le_trans hnb acc1.bb_le
    have acc4 := acc3.strans (sfb4 nb0 c0 acc3.cur_evol hnbT2)
    have hneTC : current_bb ≠ then_bb := by
      rw [hteq]
      exact Nat.ne_of_lt hclt1
    have hob4 : fd4.block_ended_b current_bb = false :=
      ((hbene4 current_bb hneTC).trans (hbe3 current_bb)).trans hob1
    obtain ⟨hfd5, hcur5, hnv5, hws5, sfb5⟩ :=
      seg_setCur hscT hfd4 acc4.wf
        (by rw [hnn4, hnn3, hteq]; exact Nat.lt_succ_self _)
    have acc5 := acc4.strans (sfb5 nb0 c0 hnbT2)
    have ho5 : curOpen fd4 a5.current_bb := by
      intro b hb
      rw [hcur5] at hb
      injection hb with hb
      subst hb
      exact hbeself4
    obtain ⟨fd6, hfd6, acc6⟩ := chainW acc5 hfd5 ho5 hnb
      (Stmt_ir_winv then_stmt a5 u6 a7 hthen)
    obtain ⟨fd6f, hfd6f, sfTf⟩ :=
      (Stmt_ir_winv then_stmt a5 u6 a7 hthen) fd4.nextBB (some then_bb) fd4
        hfd5 acc5.wf ho5 acc5.cur_lt (le_refl _) (Or.inl hcur5)
    rw [hfd6] at hfd6f
    injection hfd6f with hfd6f
    subst hfd6f
    have hblt : current_bb < fd4.nextBB := by
      rw [hnn4, hnn3]
      exact Nat.lt_succ_of_lt hclt1
    have hneTB : (some then_bb : Option BasicBlock) ≠ some current_bb := by
      intro hh
      injection hh with hh
      exact hneTC hh.symm
    have hob6 : fd6.block_ended_b current_bb = false :=
      (block_ended_pres sfTf acc5.wf hblt hneTB).trans hob4
    have hclt6 : then_bb_end < fd6.nextBB := acc6.cur_lt _ hcbte
    have hneCTE : current_bb ≠ then_bb_end := by
      rcases sfTf.cur_evol with hh | ⟨b, hb, hble⟩
      · rw [hcbte] at hh
        injection hh with hh
        rw [hh]
        exact hneTC
      · rw [hcbte] at hb
        injection hb with hb
        subst hb
        exact Nat.ne_of_lt (lt_of_lt_of_le hblt hble)
    obtain ⟨fd8, hfd8, hendeq, hcur8, hnv8, hws8, hvl8, hbk8, hnn8, hbe8,
        hitp8, sfb8⟩ := seg_newBB hnbE hfd6 acc6.wf acc6.cur_lt
    have acc8 := acc6.strans (sfb8 nb0 c0 acc6.cur_evol)
    have hob8 : fd8.block_ended_b current_bb = false :=
      (hbe8 current_bb).trans hob6
    have hltCE : current_bb < end_bb := by
      rw [hendeq]
      exact lt_of_lt_of_le hblt sfTf.bb_le
    have hneEC : current_bb ≠ end_bb := Nat.ne_of_lt hltCE
    have hltTE : then_bb_end < end_bb := by
      rw [hendeq]
      exact hclt6
    have hneETE : end_bb ≠ then_bb_end := (Nat.ne_of_lt hltTE).symm
    have hnotinE : end_bb ∉ fd8.blocks.map Prod.fst := by
      rw [hbk8, hendeq]
      intro hmem
      obtain ⟨p, hp, hpe⟩ := List.mem_map.mp hmem
      have hpl := acc6.wf.blocksLt p hp
      rw [hpe] at hpl
      exact Nat.lt_irrefl _ hpl
    have hnbE2 : nb0 ≤ end_bb := by
      rw [hendeq]
      exact le_trans hnb acc6.bb_le
    have hTEres := curAt_resolve acc6.cur_evol hcbte
    cases else_stmt with
    | none =>
      obtain ⟨uB, aB, habE, hB⟩ := bind_ok_inv h8
      obtain ⟨uC, aC, hebT, hC⟩ := bind_ok_inv hB
      obtain ⟨branch, aD, hbr, hD⟩ := bind_ok_inv hC
      obtain ⟨uE, aE, haddbr, hE⟩ := bind_ok_inv hD
      obtain ⟨fd9, hfd9, hcur9, hnv9, hws9, hvl9, hbl9, hkkA9, hnn9, hbene9,
          hbeself9, hlkself9, hitp9, sfb9⟩ :=
        seg_addBB habE hfd8 acc8.wf acc8.cur_lt hnotinE
          (by rw [hnn8, hendeq]; exact Nat.lt_succ_self _)
      have acc9 := acc8.strans (sfb9 nb0 c0 acc8.cur_evol hnbE2)
      have hob9 : fd9.block_ended_b current_bb = false :=
        (hbene9 current_bb hneEC).trans hob8
      have hbeE9 : fd9.block_ended_b end_bb = false := hbeself9
      obtain ⟨fd10, hfd10, hcur10, hnvle10, hws10, hkk10, hnn10, hbene10,
          sfb10⟩ := seg_endBlock hebT hfd9 acc9.wf acc9.cur_lt
      have acc10 := acc9.strans (sfb10 nb0 c0 acc9.cur_evol hTEres)
      have hob10 : fd10.block_ended_b current_bb = false :=
        (hbene10 current_bb hneCTE).trans hob9
      have hbeE10 : fd10.block_ended_b end_bb = false :=
        (hbene10 end_bb hneETE).trans hbeE9
      obtain ⟨fd11, hfd11, hbreq, hcur11, hnv11, hws11, hvl11, hbk11, hnn11,
          hbe11, hit11, sfb11⟩ := seg_newValue hbr hfd10 acc10.wf acc10.cur_lt
      have acc11 := acc10.strans (sfb11 nb0 c0 acc10.cur_evol)
      have hob11 : fd11.block_ended_b current_bb = false :=
        (hbe11 current_bb).trans hob10
      have hbeE11 : fd11.block_ended_b end_bb = false :=
        (hbe11 end_bb).trans hbeE10
      obtain ⟨fd12, hfd12, hcur12, hnv12, hws12, hvl12, hkk12, hnn12,
          hlkne12, hlkself12, hbene12, hbeself12, hitp12, sfb12⟩ :=
        seg_addInst haddbr hfd11 acc11.wf acc11.cur_lt hob11
          (by rw [hnv11, hbreq]; exact Nat.lt_succ_self _)
      have acc12 := acc11.strans (sfb12 nb0 c0 acc11.cur_evol hcbres)
      have hbeE12 : fd12.block_ended_b end_bb = false :=
        (hbene12 end_bb hneEC.symm).trans hbeE11
      obtain ⟨hfd13, hcur13, hnv13, hws13, sfb13⟩ :=
        seg_setCur hE hfd12 acc12.wf
          (by
            rw [hnn12, hnn11, hnn10, hnn9, hnn8, hendeq]
            exact Nat.lt_succ_self _)
      have acc13 := acc12.strans (sfb13 nb0 c0 hnbE2)
      refine ⟨fd12, hfd13, acc13, ?_⟩
      intro b hb
      rw [hcur13] at hb
      injection hb with hb
      subst hb
      exact hbeE12
    | some els =>
      obtain ⟨else_bb, aB, hnbEl, hB⟩ := bind_ok_inv h8
      obtain ⟨uC, aC, habEl, hC⟩ := bind_ok_inv hB
      obtain ⟨uD, aD, hscEl, hD⟩ := bind_ok_inv hC
      obtain ⟨uE, aE, hels, hE⟩ := bind_ok_inv hD
      obtain ⟨else_bb_end, aF, hgbb3, hF⟩ := bind_ok_inv hE
      obtain ⟨haF, hcbee⟩ := mGetBB_spec hgbb3
      subst haF
      obtain ⟨uG, aG, habE, hG⟩ := bind_ok_inv hF
      obtain ⟨uH, aH, hebT, hH⟩ := bind_ok_inv hG
      obtain ⟨uI, aI, hebE, hI⟩ := bind_ok_inv hH
      obtain ⟨branch, aJ, hbr, hJ⟩ := bind_ok_inv hI
      obtain ⟨uK, aK, haddbr, hK⟩ := bind_ok_inv hJ
      clear hB hC hD hE hF hG hH hI hJ
      obtain ⟨fd9, hfd9, helbeq, hcur9, hnv9, hws9, hvl9, hbk9, hnn9, hbe9,
          hitp9, sfb9⟩ := seg_newBB hnbEl hfd8 acc8.wf acc8.cur_lt
      have acc9 := acc8.strans (sfb9 nb0 c0 acc8.cur_evol)
      have hltEEl : end_bb < else_bb := by
        rw [helbeq, hnn8, hendeq]
        exact Nat.lt_succ_self _
      have hnotinEl : else_bb ∉ fd9.blocks.map Prod.fst := by
        rw [hbk9, helbeq]
        intro hmem
        obtain ⟨p, hp, hpe⟩ := List.mem_map.mp hmem
        have hpl := acc8.wf.blocksLt p hp
        rw [hpe] at hpl
        exact Nat.lt_irrefl _ hpl
      obtain ⟨fd10, hfd10, hcur10, hnv10, hws10, hvl10, hbl10, hkkA10, hnn10,
          hbene10, hbeself10, hlkself10, hitp10, sfb10⟩ :=
        seg_addBB habEl hfd9 acc9.wf acc9.cur_lt hnotinEl
          (by rw [hnn9, helbeq]; exact Nat.lt_succ_self _)
      have hnbEl2 : nb0 ≤ else_bb := by
        rw [helbeq, hnn8]
        exact le_trans (le_trans hnb acc6.bb_le) (Nat.le_succ _)
      have acc10 := acc9.strans (sfb10 nb0 c0 acc9.cur_evol hnbEl2)
      have hltCEl : current_bb < else_bb := lt_trans hltCE hltEEl
      have hneElC : current_bb ≠ else_bb := Nat.ne_of_lt hltCEl
      have hob10 : fd10.block_ended_b current_bb = false :=
        ((hbene10 current_bb hneElC).trans (hbe9 current_bb)).trans hob8
      have hnotinE10 : end_bb ∉ fd10.blocks.map Prod.fst := by
        rw [hkkA10, hbk9]
        intro hmem
        rcases List.mem_append.mp hmem with hm | hm
        · exact hnotinE hm
        · simp only [List.mem_singleton] at hm
          exact absurd hm (Nat.ne_of_lt hltEEl)
      obtain ⟨hfd11, hcur11, hnv11, hws11, sfb11⟩ :=
        seg_setCur hscEl hfd10 acc10.wf
          (by rw [hnn10, hnn9, helbeq]; exact Nat.lt_succ_self _)
      have acc11 := acc10.strans (sfb11 nb0 c0 hnbEl2)
      have ho11 : curOpen fd10 aD.current_bb := by
        intro b hb
        rw [hcur11] at hb
        injection hb with hb
        subst hb
        exact hbeself10
      obtain ⟨fd12, hfd12, acc12⟩ := chainW acc11 hfd11 ho11 hnb
        (Stmt_ir_winv els aD uE aF hels)
      obtain ⟨fd12f, hfd12f, sfEf⟩ :=
        (Stmt_ir_winv els aD uE aF hels) fd10.nextBB (some else_bb) fd10
          hfd11 acc11.wf ho11 acc11.cur_lt (le_refl _) (Or.inl hcur11)
      rw [hfd12] at hfd12f
      injection hfd12f with hfd12f
      subst hfd12f
      have hltC10 : current_bb < fd10.nextBB := by
        rw [hnn10, hnn9, hnn8]
        exact Nat.lt_succ_of_lt (Nat.lt_succ_of_lt (lt_of_lt_of_le hblt
          sfTf.bb_le))
      have hneElB : (some else_bb : Option BasicBlock) ≠ some current_bb := by
        intro hh
        injection hh with hh
        exact hneElC hh.symm
      have hob12 : fd12.block_ended_b current_bb = false :=
        (block_ended_pres sfEf acc11.wf hltC10 hneElB).trans hob10
      have hltE10 : end_bb < fd10.nextBB := by
        rw [hnn10, hnn9, hnn8, hendeq]
        exact Nat.lt_succ_of_lt (Nat.lt_succ_self _)
      have hnotinE12 : end_bb ∉ fd12.blocks.map Prod.fst :=
        keys_fresh sfEf hltE10 hnotinE10
      have hclt12 : else_bb_end < fd12.nextBB := acc12.cur_lt _ hcbee
      have hEEres := curAt_resolve acc12.cur_evol hcbee
      have hgtEE : end_bb < else_bb_end := by
        rcases sfEf.cur_evol with hh | ⟨b, hb, hble⟩
        · rw [hcbee] at hh
          injection hh with hh
          rw [hh]
          exact hltEEl
        · rw [hcbee] at hb
          injection hb with hb
          subst hb
          exact lt_of_lt_of_le hltE10 hble
      have hneEEE : end_bb ≠ else_bb_end := Nat.ne_of_lt hgtEE
      have hneCEE : current_bb ≠ else_bb_end := by
        rcases sfEf.cur_evol with hh | ⟨b, hb, hble⟩
        · rw [hcbee] at hh
          injection hh with hh
          rw [hh]
          exact hneElC
        · rw [hcbee] at hb
          injection hb with hb
          subst hb
          exact Nat.ne_of_lt (lt_of_lt_of_le hltC10 hble)
      obtain ⟨fd13, hfd13, hcur13, hnv13, hws13, hvl13, hbl13, hkkA13, hnn13,
          hbene13, hbeself13, hlkself13, hitp13, sfb13⟩ :=
        seg_addBB habE hfd12 acc12.wf acc12.cur_lt hnotinE12
          (lt_of_lt_of_le hltE10 sfEf.bb_le)
      have acc13 := acc12.strans (sfb13 nb0 c0 acc12.cur_evol hnbE2)
      have hob13 : fd13.block_ended_b current_bb = false :=
        (hbene13 current_bb hneEC).trans hob12
      have hbeE13 : fd13.block_ended_b end_bb = false := hbeself13
      obtain ⟨fd14, hfd14, hcur14, hnvle14, hws14, hkk14, hnn14, hbene14,
          sfb14⟩ := seg_endBlock hebT hfd13 acc13.wf acc13.cur_lt
      have acc14 := acc13.strans (sfb14 nb0 c0 acc13.cur_evol hTEres)
      have hob14 : fd14.block_ended_b current_bb = false :=
        (hbene14 current_bb hneCTE).trans hob13
      have hbeE14 : fd14.block_ended_b end_bb = false :=
        (hbene14 end_bb hneETE).trans hbeE13
      obtain ⟨fd15, hfd15, hcur15, hnvle15, hws15, hkk15, hnn15, hbene15,
          sfb15⟩ := seg_endBlock hebE hfd14 acc14.wf acc14.cur_lt
      have acc15 := acc14.strans (sfb15 nb0 c0 acc14.cur_evol hEEres)
      have hob15 : fd15.block_ended_b current_bb = false :=
        (hbene15 current_bb hneCEE).trans hob14
      have hbeE15 : fd15.block_ended_b end_bb = false :=
        (hbene15 end_bb hneEEE).trans hbeE14
      obtain ⟨fd16, hfd16, hbreq, hcur16, hnv16, hws16, hvl16, hbk16, hnn16,
          hbe16, hit16, sfb16⟩ := seg_newValue hbr hfd15 acc15.wf acc15.cur_lt
      have acc16 := acc15.strans (sfb16 nb0 c0 acc15.cur_evol)
      have hob16 : fd16.block_ended_b current_bb = false :=
        (hbe16 current_bb).trans hob15
      have hbeE16 : fd16.block_ended_b end_bb = false :=
        (hbe16 end_bb).trans hbeE15
      obtain ⟨fd17, hfd17, hcur17, hnv17, hws17, hvl17, hkk17, hnn17,
          hlkne17, hlkself17, hbene17, hbeself17, hitp17, sfb17⟩ :=
        seg_addInst haddbr hfd16 acc16.wf acc16.cur_lt hob16
          (by rw [hnv16, hbreq]; exact Nat.lt_succ_self _)
      have acc17 := acc16.strans (sfb17 nb0 c0 acc16.cur_evol hcbres)
      have hbeE17 : fd17.block_ended_b end_bb = false :=
        (hbene17 end_bb hneEC.symm).trans hbeE16
      obtain ⟨hfd18, hcur18, hnv18, hws18, sfb18⟩ :=
        seg_setCur hK hfd17 acc17.wf
          (by
            rw [hnn17, hnn16, hnn15, hnn14, hnn13]
            exact lt_of_lt_of_le hltE10 sfEf.bb_le)
      have acc18 := acc17.strans (sfb18 nb0 c0 hnbE2)
      refine ⟨fd17, hfd18, acc18, ?_⟩
      intro b hb
      rw [hcur18] at hb
      injection hb with hb
      subst hb
      exact hbeE17
termination_by i _ _ _ _ => sizeOf i

theorem While_ir_einv : ∀ (w : While) (c : Context) (u : Unit) (c' : Context),
    While.generate_ir w c = .ok u c' → EInv c c'
  | .mk cond body, c, u, c', h0 => by
    simp only [While.generate_ir] at h0
    obtain ⟨body_bb, a1, hnb1, h1⟩ := bind_ok_inv h0
    obtain ⟨end_bb, a2, hnb2, h2⟩ := bind_ok_inv h1
    obtain ⟨start_bb, a3, hnb3, h3⟩ := bind_ok_inv h2
    obtain ⟨u4, a4, hab1, h4⟩ := bind_ok_inv h3
    obtain ⟨u5, a5, hsc1, h5⟩ := bind_ok_inv h4
    obtain ⟨cond_value, a6, hcond, h6⟩ := bind_ok_inv h5
    obtain ⟨start_branch_bb, a7, hgbb, h7⟩ := bind_ok_inv h6
    obtain ⟨ha7, hcbsb⟩ := mGetBB_spec hgbb
    subst ha7
    obtain ⟨branch, a8, hbrv, h8⟩ := bind_ok_inv h7
    obtain ⟨u9, a9, haddbr, h9⟩ := bind_ok_inv h8
    obtain ⟨uA, aA, hab2, hA⟩ := bind_ok_inv h9
    obtain ⟨uB, aB, hpush, hB⟩ := bind_ok_inv hA
    obtain ⟨uC, aC, hsc2, hC⟩ := bind_ok_inv hB
    obtain ⟨uD, aD, hbody, hD⟩ := bind_ok_inv hC
    obtain ⟨body_bb_end, aE, hgbb2, hE⟩ := bind_ok_inv hD
    obtain ⟨haE, hcbbe⟩ := mGetBB_spec hgbb2
    subst haE
    obtain ⟨jump_start, aF, hjmp, hF⟩ := bind_ok_inv hE
    obtain ⟨ended, aG, hbe0, hG⟩ := bind_ok_inv hF
    obtain ⟨haG, hexX⟩ := ctxBlockEnded_spec hbe0
    subst haG
    obtain ⟨fdX, hfdX, hendedX⟩ := hexX
    clear h0 h1 h2 h3 h4 h5 h6 h7 h8 h9 hA hB hC hD hE hF
    intro nb0 c0 fd0 hfd0 hwf0 hopen0 hclt0 hnb hcat0
    obtain ⟨fd1, hfd1, hbbeq, hcur1, hnv1, hws1, hvl1, hbk1, hnn1, hbe1,
        hitp1, sfb1⟩ := seg_newBB hnb1 hfd0 hwf0 hclt0
    have acc1 := sfb1 nb0 c0 hcat0
    obtain ⟨fd2, hfd2, hendeq, hcur2, hnv2, hws2, hvl2, hbk2, hnn2, hbe2,
        hitp2, sfb2⟩ := seg_newBB hnb2 hfd1 acc1.wf acc1.cur_lt
    have acc2 := acc1.strans (sfb2 nb0 c0 acc1.cur_evol)
    obtain ⟨fd3, hfd3, hsteq, hcur3, hnv3, hws3, hvl3, hbk3, hnn3, hbe3,
        hitp3, sfb3⟩ := seg_newBB hnb3 hfd2 acc2.wf acc2.cur_lt
    have acc3 := acc2.strans (sfb3 nb0 c0 acc2.cur_evol)
    have hEgtB : body_bb < end_bb := by
      rw [hendeq, hnn1, hbbeq]
      exact Nat.lt_succ_self _
    have hSgtE : end_bb < start_bb := by
      rw [hsteq, hnn2, hendeq]
      exact Nat.lt_succ_self _
    have hnotinS : start_bb ∉ fd3.blocks.map Prod.fst := by
      rw [hbk3, hbk2, hbk1, hsteq, hnn2, hnn1]
      intro hmem
      obtain ⟨p, hp, hpe⟩ := List.mem_map.mp hmem
      have hpl := hwf0.blocksLt p hp
      rw [hpe] at hpl
      exact absurd hpl (Nat.not_lt.mpr (le_trans (Nat.le_succ _) (Nat.le_succ _)))
    have hnotinB3 : body_bb ∉ fd3.blocks.map Prod.fst := by
      rw [hbk3, hbk2, hbk1, hbbeq]
      intro hmem
      obtain ⟨p, hp, hpe⟩ := List.mem_map.mp hmem
      have hpl := hwf0.blocksLt p hp
      rw [hpe] at hpl
      exact Nat.lt_irrefl _ hpl
    have hnotinE3 : end_bb ∉ fd3.blocks.map Prod.fst := by
      rw [hbk3, hbk2, hbk1, hendeq, hnn1]
      intro hmem
      obtain ⟨p, hp, hpe⟩ := List.mem_map.mp hmem
      have hpl := hwf0.blocksLt p hp
      rw [hpe] at hpl
      exact absurd hpl (Nat.not_lt.mpr (Nat.le_succ _))
    obtain ⟨fd4, hfd4, hcur4, hnv4, hws4, hvl4, hbl4, hkkA4, hnn4, hbene4,
        hbeself4, hlkself4, hitp4, sfb4⟩ :=
      seg_addBB hab1 hfd3 acc3.wf acc3.cur_lt hnotinS
        (by rw [hnn3, hsteq]; exact Nat.lt_succ_self _)
    have hnbS : nb0 ≤ start_bb := by
      rw [hsteq, hnn2, hnn1]
      exact le_trans hnb (le_trans (Nat.le_succ _) (Nat.le_succ _))
    have acc4 := acc3.strans (sfb4 nb0 c0 acc3.cur_evol hnbS)
    have hnotinB4 : body_bb ∉ fd4.blocks.map Prod.fst := by
      rw [hkkA4]
      intro hmem
      rcases List.mem_append.mp hmem with hm | hm
      · exact hnotinB3 hm
      · simp only [List.mem_singleton] at hm
        exact absurd hm (Nat.ne_of_lt (lt_trans hEgtB hSgtE))
    have hnotinE4 : end_bb ∉ fd4.blocks.map Prod.fst := by
      rw [hkkA4]
      intro hmem
      rcases List.mem_append.mp hmem with hm | hm
      · exact hnotinE3 hm
      · simp only [List.mem_singleton] at hm
        exact absurd hm (Nat.ne_of_lt hSgtE)
    obtain ⟨hfd5, hcur5, hnv5, hws5, sfb5⟩ :=
      seg_setCur hsc1 hfd4 acc4.wf
        (by rw [hnn4, hnn3, hsteq]; exact Nat.lt_succ_self _)
    have acc5 := acc4.strans (sfb5 nb0 c0 hnbS)
    have ho5 : curOpen fd4 a5.current_bb := by
      intro b hb
      rw [hcur5] at hb
      injection hb with hb
      subst hb
      exact hbeself4
    obtain ⟨fd6, hfd6, acc6, ho6⟩ := chainE acc5 hfd5 ho5 hnb
      (Expr_ir_einv cond a5 cond_value a7 hcond)
    obtain ⟨fd6f, hfd6f, sfCf, ho6f⟩ :=
      (Expr_ir_einv cond a5 cond_value a7 hcond) fd4.nextBB (some start_bb)
        fd4 hfd5 acc5.wf ho5 acc5.cur_lt (le_refl _) (Or.inl hcur5)
    rw [hfd6] at hfd6f
    injection hfd6f with hfd6f
    subst hfd6f
    have hltB4 : body_bb < fd4.nextBB := by
      rw [hnn4, hnn3, hnn2, hnn1, hbbeq]
      exact Nat.lt_succ_of_lt (Nat.lt_succ_of_lt (Nat.lt_succ_self _))
    have hltE4 : end_bb < fd4.nextBB := by
      rw [hnn4, hnn3, hnn2, hendeq]
      exact Nat.lt_succ_of_lt (Nat.lt_succ_self _)
    have hnotinB6 : body_bb ∉ fd6.blocks.map Prod.fst :=
      keys_fresh sfCf hltB4 hnotinB4
    have hnotinE6 : end_bb ∉ fd6.blocks.map Prod.fst :=
      keys_fresh sfCf hltE4 hnotinE4
    have hobSB : fd6.block_ended_b start_branch_bb = false := ho6 _ hcbsb
    have hSBres := curAt_resolve acc6.cur_evol hcbsb
    obtain ⟨fd7, hfd7, hbrveq, hcur7, hnv7, hws7, hvl7, hbk7, hnn7, hbe7,
        hit7, sfb7⟩ := seg_newValue hbrv hfd6 acc6.wf acc6.cur_lt
    have acc7 := acc6.strans (sfb7 nb0 c0 acc6.cur_evol)
    have hobSB7 := (hbe7 start_branch_bb).trans hobSB
    obtain ⟨fd8, hfd8, hcur8, hnv8, hws8, hvl8, hkk8, hnn8, hlkne8, hlkself8,
        hbene8, hbeself8, hitp8, sfb8⟩ :=
      seg_addInst haddbr hfd7 acc7.wf acc7.cur_lt hobSB7
        (by rw [hnv7, hbrveq]; exact Nat.lt_succ_self _)
    have acc8 := acc7.strans (sfb8 nb0 c0 acc7.cur_evol hSBres)
    have hnotinB8 : body_bb ∉ fd8.blocks.map Prod.fst := by
      rw [hkk8, hbk7]
      exact hnotinB6
    have hnotinE8 : end_bb ∉ fd8.blocks.map Prod.fst := by
      rw [hkk8, hbk7]
      exact hnotinE6
    obtain ⟨fd9, hfd9, hcur9, hnv9, hws9, hvl9, hbl9, hkkA9, hnn9, hbene9,
        hbeself9, hlkself9, hitp9, sfb9⟩ :=
      seg_addBB hab2 hfd8 acc8.wf acc8.cur_lt hnotinB8
        (by rw [hnn8, hnn7]; exact lt_of_lt_of_le hltB4 sfCf.bb_le)
    have hnbB : nb0 ≤ body_bb := by
      rw [hbbeq]
      exact hnb
    have acc9 := acc8.strans (sfb9 nb0 c0 acc8.cur_evol hnbB)
    have hnotinE9 : end_bb ∉ fd9.blocks.map Prod.fst := by
      rw [hkkA9]
      intro hmem
      rcases List.mem_append.mp hmem with hm | hm
      · exact hnotinE8 hm
      · simp only [List.mem_singleton] at hm
        exact absurd hm (Nat.ne_of_lt hEgtB).symm
    obtain ⟨hfdP, hcurP, hnvP, hwsP⟩ := FD_push hpush
    have hfdB9 : FD aB = some fd9 := by
      rw [hfdP]
      exact hfd9
    have hwfB : FDWF fd9 aB.next_value_id := by
      rw [hnvP]
      exact acc9.wf
    obtain ⟨hfdM1, hcurM1, hnvM1, hwsM1, sfbM1⟩ :=
      seg_setCur hsc2 hfdB9 hwfB
        (by rw [hnn9, hnn8, hnn7]; exact lt_of_lt_of_le hltB4 sfCf.bb_le)
    have accM1 := sfbM1 nb0 c0 hnbB
    have hoM1 : curOpen fd9 aC.current_bb := by
      intro b hb
      rw [hcurM1] at hb
      injection hb with hb
      subst hb
      exact hbeself9
    have hnb9 : nb0 ≤ fd9.nextBB := le_trans hnb acc9.bb_le
    obtain ⟨fd10, hfd10, accM2⟩ := chainW accM1 hfdM1 hoM1 hnb9
      (Stmt_ir_winv body aC uD aE hbody)
    obtain ⟨fd10f, hfd10f, sfBf⟩ :=
      (Stmt_ir_winv body aC uD aE hbody) fd9.nextBB (some body_bb) fd9
        hfdM1 accM1.wf hoM1 accM1.cur_lt (le_refl _) (Or.inl hcurM1)
    rw [hfd10] at hfd10f
    injection hfd10f with hfd10f
    subst hfd10f
    have hltE9 : end_bb < fd9.nextBB := by
      rw [hnn9, hnn8, hnn7]
      exact lt_of_lt_of_le hltE4 sfCf.bb_le
    have hnotinE10 : end_bb ∉ fd10.blocks.map Prod.fst :=
      keys_fresh sfBf hltE9 hnotinE9
    have hBEres := curAt_resolve accM2.cur_evol hcbbe
    obtain ⟨fd11, hfd11, hjeq, hcur11, hnv11, hws11, hvl11, hbk11, hnn11,
        hbe11, hit11, sfb11⟩ := seg_newValue hjmp hfd10 accM2.wf accM2.cur_lt
    have accM3 := accM2.strans (sfb11 nb0 c0 accM2.cur_evol)
    have hnotinE11 : end_bb ∉ fd11.blocks.map Prod.fst := by
      rw [hbk11]
      exact hnotinE10
    rw [hfd11] at hfdX
    injection hfdX with hfdX
    subst hfdX
    have hnbE2 : nb0 ≤ end_bb := by
      rw [hendeq, hnn1]
      exact le_trans hnb (Nat.le_succ _)
    have hltE11 : end_bb < fd11.nextBB := by
      rw [hnn11]
      exact lt_of_lt_of_le hltE9 sfBf.bb_le
    cases ended with
    | false =>
      simp only [Bool.not_false, if_true] at hG
      obtain ⟨uH, aH, haddj, hH⟩ := bind_ok_inv hG
      obtain ⟨uI, aI, habE, hI⟩ := bind_ok_inv hH
      obtain ⟨uJ, aJ, hscE, hJ⟩ := bind_ok_inv hI
      obtain ⟨fd12, hfd12, hcur12, hnv12, hws12, hvl12, hkk12, hnn12,
          hlkne12, hlkself12, hbene12, hbeself12, hitp12, sfb12⟩ :=
        seg_addInst haddj hfd11 accM3.wf accM3.cur_lt hendedX.symm
          (by rw [hnv11, hjeq]; exact Nat.lt_succ_self _)
      have accM4 := accM3.strans (sfb12 nb0 c0 accM3.cur_evol hBEres)
      have hnotinE12 : end_bb ∉ fd12.blocks.map Prod.fst := by
        rw [hkk12]
        exact hnotinE11
      have hltE12 : end_bb < fd12.nextBB := by
        rw [hnn12]
        exact hltE11
      obtain ⟨fd13, hfd13, hcur13, hnv13, hws13, hvl13, hbl13, hkkA13, hnn13,
          hbene13, hbeself13, hlkself13, hitp13, sfb13⟩ :=
        seg_addBB habE hfd12 accM4.wf accM4.cur_lt hnotinE12 hltE12
      have accM5 := accM4.strans (sfb13 nb0 c0 accM4.cur_evol hnbE2)
      obtain ⟨hfd14, hcur14, hnv14, hws14, sfb14⟩ :=
        seg_setCur hscE hfd13 accM5.wf (by rw [hnn13]; exact hltE12)
      have accM6 := accM5.strans (sfb14 nb0 c0 hnbE2)
      have sfTot := SegFacts.push_pop hpush accM6 hJ
      have accTot := acc9.strans sfTot
      obtain ⟨hfdPop, hcurPop, hnvPop, hwsPop⟩ := FD_pop hJ
      refine ⟨fd13, by rw [hfdPop]; exact hfd14, accTot, ?_⟩
      intro b hb
      rw [hcurPop, hcur14] at hb
      injection hb with hb
      subst hb
      exact hbeself13
    | true =>
      simp only [Bool.not_true, if_false] at hG
      obtain ⟨bbe2, aX1, hnbX, hX1⟩ := bind_ok_inv hG
      obtain ⟨uX2, aX2, habX, hX2⟩ := bind_ok_inv hX1
      obtain ⟨uX3, aX3, haddjX, hX3⟩ := bind_ok_inv hX2
      obtain ⟨uI, aI, habE, hI⟩ := bind_ok_inv hX3
      obtain ⟨uJ, aJ, hscE, hJ⟩ := bind_ok_inv hI
      obtain ⟨fd12, hfd12, hbe2eq, hcur12, hnv12, hws12, hvl12, hbk12, hnn12,
          hbe12, hitp12, sfb12⟩ := seg_newBB hnbX hfd11 accM3.wf accM3.cur_lt
      have accM4 := accM3.strans (sfb12 nb0 c0 accM3.cur_evol)
      have hnotinX : bbe2 ∉ fd12.blocks.map Prod.fst := by
        rw [hbk12, hbe2eq]
        intro hmem
        obtain ⟨p, hp, hpe⟩ := List.mem_map.mp hmem
        have hpl := accM3.wf.blocksLt p hp
        rw [hpe] at hpl
        exact Nat.lt_irrefl _ hpl
      obtain ⟨fd13, hfd13, hcur13, hnv13, hws13, hvl13, hbl13, hkkA13, hnn13,
          hbene13, hbeself13, hlkself13, hitp13, sfb13⟩ :=
        seg_addBB habX hfd12 accM4.wf accM4.cur_lt hnotinX
          (by rw [hnn12, hbe2eq]; exact Nat.lt_succ_self _)
      have hnbX2 : nb0 ≤ bbe2 := by
        rw [hbe2eq, hnn11]
        exact le_trans (le_trans hnb9 sfBf.bb_le) (le_refl _)
      have accM5 := accM4.strans (sfb13 nb0 c0 accM4.cur_evol hnbX2)
      obtain ⟨fd14, hfd14, hcur14, hnv14, hws14, hvl14, hkk14, hnn14,
          hlkne14, hlkself14, hbene14, hbeself14, hitp14, sfb14⟩ :=
        seg_addInst haddjX hfd13 accM5.wf accM5.cur_lt hbeself13
          (by rw [hnv13, hnv12, hnv11, hjeq]; exact Nat.lt_succ_self _)
      have accM6 := accM5.strans (sfb14 nb0 c0 accM5.cur_evol (Or.inr hnbX2))
      have hnotinE14 : end_bb ∉ fd14.blocks.map Prod.fst := by
        rw [hkk14, hkkA13]
        intro hmem
        rcases List.mem_append.mp hmem with hm | hm
        · rw [hbk12] at hm
          exact hnotinE11 hm
        · simp only [List.mem_singleton] at hm
          have : end_bb < bbe2 := by
            rw [hbe2eq]
            exact lt_of_lt_of_le hltE11 (le_refl _)
          exact absurd hm (Nat.ne_of_lt this)
      have hltE14 : end_bb < fd14.nextBB := by
        rw [hnn14, hnn13, hnn12]
        exact Nat.lt_succ_of_lt hltE11
      obtain ⟨fd15, hfd15, hcur15, hnv15, hws15, hvl15, hbl15, hkkA15, hnn15,
          hbene15, hbeself15, hlkself15, hitp15, sfb15⟩ :=
        seg_addBB habE hfd14 accM6.wf accM6.cur_lt hnotinE14 hltE14
      have accM7 := accM6.strans (sfb15 nb0 c0 accM6.cur_evol hnbE2)
      obtain ⟨hfd16, hcur16, hnv16, hws16, sfb16⟩ :=
        seg_setCur hscE hfd15 accM7.wf (by rw [hnn15]; exact hltE14)
      have accM8 := accM7.strans (sfb16 nb0 c0 hnbE2)
      have sfTot := SegFacts.push_pop hpush accM8 hJ
      have accTot := acc9.strans sfTot
      obtain ⟨hfdPop, hcurPop, hnvPop, hwsPop⟩ := FD_pop hJ
      refine ⟨fd15, by rw [hfdPop]; exact hfd16, accTot, ?_⟩
      intro b hb
      rw [hcurPop, hcur16] at hb
      injection hb with hb
      subst hb
      exact hbeself15
termination_by w _ _ _ _ => sizeOf w

end

/-! ## Function definitions: block shape of a lowered function -/

/-- `get_func_param` never changes the context. -/
theorem get_func_param_spec : ∀ (ps : List FuncFParam) {ctx : Context}
    {r : List (Option String × Ty)} {ctx' : Context},
    get_func_param ps ctx = .ok r ctx' → ctx' = ctx := by
  intro ps
  induction ps with
  | nil =>
    intro ctx r ctx' h
    simp only [get_func_param] at h
    exact (pure_ok_inv h).2
  | cons p rest ih =>
    intro ctx r ctx' h
    simp only [get_func_param] at h
    cases p with
    | NormalFParam np =>
      obtain ⟨entry, c1, hentry, h1⟩ := bind_ok_inv h
      have hc1 := (pure_ok_inv hentry).2
      subst hc1
      obtain ⟨rest', c2, hrest, h2⟩ := bind_ok_inv h1
      have hc2 := ih hrest
      subst hc2
      exact (pure_ok_inv h2).2
    | ArrayFParam ap =>
      obtain ⟨t, cA, ht, hA⟩ := bind_ok_inv h
      have hcA := get_array_type_spec ht
      subst hcA
      obtain ⟨entry, c1, hentry, h1⟩ := bind_ok_inv hA
      have hc1 := (pure_ok_inv hentry).2
      subst hc1
      obtain ⟨rest', c2, hrest, h2⟩ := bind_ok_inv h1
      have hc2 := ih hrest
      subst hc2
      exact (pure_ok_inv h2).2

/-- All parameter value ids produced by `with_param_names` lie below the
bumped value counter. -/
theorem buildParamVals_lt : ∀ (ps : List (Option String × Ty)) (vid idx : Nat),
    ∀ p ∈ (buildParamVals ps vid idx).1, p.1 < vid + ps.length := by
  intro ps
  induction ps with
  | nil =>
    intro vid idx p hp
    simp [buildParamVals] at hp
  | cons e rest ih =>
    intro vid idx p hp
    obtain ⟨nm, ty⟩ := e
    simp only [buildParamVals] at hp
    rcases List.mem_cons.mp hp with hp | hp
    · subst hp
      show vid < vid + (rest.length + 1)
      exact Nat.lt_add_of_pos_right (Nat.succ_pos _)
    · have hb := ih (vid + 1) (idx + 1) p hp
      rw [Nat.add_assoc, Nat.add_comm 1] at hb
      simp only [List.length_cons]
      exact hb

/-- The parameter-materialization loop writes only allocs and stores into
the synthetic first block and touches nothing else of the function. -/
theorem paramsLoop_wf : ∀ (ps : List Value) (store_bb : BasicBlock)
    {ctx : Context} {u : Unit} {ctx' : Context},
    paramsLoop ps store_bb ctx = .ok u ctx' →
    ∀ fd, FD ctx = some fd → FDWF fd ctx.next_value_id →
    ctx.current_bb = none → fd.block_ended_b store_bb = false →
    ∃ fd', FD ctx' = some fd' ∧ SegFacts 0 none ctx ctx' fd fd'
      ∧ ctx'.current_bb = none ∧ fd'.block_ended_b store_bb = false := by
  intro ps
  induction ps with
  | nil =>
    intro store_bb ctx u ctx' h fd hfd hwf hcur hbe
    simp only [paramsLoop] at h
    have hceq := (pure_ok_inv h).2
    subst hceq
    exact ⟨fd, hfd, SegFacts.refl hwf
      (fun bb hb => absurd (hcur ▸ hb) (by simp)) (Or.inl hcur), hcur, hbe⟩
  | cons param rest ih =>
    intro store_bb ctx u ctx' h fd hfd hwf hcur hbe
    simp only [paramsLoop] at h
    obtain ⟨pname, c1, hnm, h1⟩ := bind_ok_inv h
    have hc1 := mFuncValueNameTail_spec hnm
    subst hc1
    obtain ⟨pty, c2, hty, h2⟩ := bind_ok_inv h1
    have hc2 := mFuncValueTy_spec hty
    subst hc2
    obtain ⟨alloc, c3, halloc, h3⟩ := bind_ok_inv h2
    obtain ⟨u4, c4, hsn, h4⟩ := bind_ok_inv h3
    obtain ⟨store, c5, hst, h5⟩ := bind_ok_inv h4
    obtain ⟨u6, c6, hai1, h6⟩ := bind_ok_inv h5
    obtain ⟨u7, c7, hai2, h7⟩ := bind_ok_inv h6
    obtain ⟨okb, c8, hok, h8⟩ := bind_ok_inv h7
    have hclt : curLt fd c2.current_bb :=
      fun bb hb => absurd (hcur ▸ hb) (by simp)
    obtain ⟨fd1, hfd1, haeq, hcur1, hnv1, hws1, hvl1, hbk1, hnn1, hbe1,
        hit1, sfb1⟩ := seg_newValue halloc hfd hwf hclt
    have acc1 := sfb1 0 none (Or.inl hcur)
    obtain ⟨fd2, hfd2, hcur2, hnv2, hws2, hvl2, hbk2, hnn2, hbe2, hitp2,
        sfb2⟩ := seg_setValueName hsn hfd1 acc1.wf acc1.cur_lt
    have acc2 := acc1.strans (sfb2 0 none acc1.cur_evol)
    obtain ⟨fd3, hfd3, hsteq, hcur3, hnv3, hws3, hvl3, hbk3, hnn3, hbe3,
        hit3, sfb3⟩ := seg_newValue hst hfd2 acc2.wf acc2.cur_lt
    have acc3 := acc2.strans (sfb3 0 none acc2.cur_evol)
    have hbe3SB : fd3.block_ended_b store_bb = false :=
      (hbe3 store_bb).trans ((hbe2 store_bb).trans ((hbe1 store_bb).trans hbe))
    have hterm3 : fd3.inst_is_term alloc = false := by
      have hmid := (sfb2 0 none acc1.cur_evol).strans
        (sfb3 0 none ((sfb2 0 none acc1.cur_evol)).cur_evol)
      rw [inst_is_term_of_pres hmid.vals_pres
        (by rw [hnv1, haeq]; exact Nat.lt_succ_self _)]
      exact hit1
    obtain ⟨fd4, hfd4, hcur4, hnv4, hws4, hvl4, hkk4, hnn4, hlkne4, hlkself4,
        hbene4, hbeself4, hitp4, sfb4⟩ :=
      seg_addInst hai1 hfd3 acc3.wf acc3.cur_lt hbe3SB
        (by
          rw [hnv3, hnv2, hnv1, haeq]
          exact Nat.lt_succ_of_lt (Nat.lt_succ_self _))
    have acc4 := acc3.strans (sfb4 0 none acc3.cur_evol (Or.inr (Nat.zero_le _)))
    rw [hterm3] at hbeself4
    simp only [Bool.and_false] at hbeself4
    obtain ⟨fd5, hfd5, hcur5, hnv5, hws5, hvl5, hkk5, hnn5, hlkne5, hlkself5,
        hbene5, hbeself5, hitp5, sfb5⟩ :=
      seg_addInst hai2 hfd4 acc4.wf acc4.cur_lt hbeself4
        (by
          rw [hnv4, hnv3, hsteq, hnv2]
          exact Nat.lt_succ_self _)
    have acc5 := acc4.strans (sfb5 0 none acc4.cur_evol (Or.inr (Nat.zero_le _)))
    have hterm4 : fd4.inst_is_term store = false := (hitp4 store).trans hit3
    rw [hterm4] at hbeself5
    simp only [Bool.and_false] at hbeself5
    obtain ⟨sc8, hc8⟩ := scopeAddIdentifier_spec hok
    obtain ⟨hfd8, sfb8⟩ := seg_ctx_only hfd5 acc5.wf acc5.cur_lt
      (show c8.program.funcs = c7.program.funcs by rw [hc8])
      (by rw [hc8]) (by rw [hc8]) (by rw [hc8]) (by rw [hc8])
    have acc8 := acc5.strans (sfb8 0 none acc5.cur_evol)
    have hcur8 : c8.current_bb = none := by
      rw [hc8]
      show c7.current_bb = none
      rw [hcur5, hcur4, hcur3, hcur2, hcur1]
      exact hcur
    cases okb with
    | true =>
      rw [if_pos rfl] at h8
      obtain ⟨fd9, hfd9, sf9, hcur9, hbe9⟩ := ih store_bb h8 fd5 hfd8
        acc8.wf hcur8 hbeself5
      exact ⟨fd9, hfd9, acc8.strans sf9, hcur9, hbe9⟩
    | false =>
      rw [if_neg (by simp)] at h8
      exact absurd h8 (fun hh => show_error_not_ok hh)

/-- Lowering a function definition (from a state with no open block and a
fresh function handle) produces a function whose every emitted block is
`TermOk` — no instruction follows a terminator, and each block holds at
most one terminator, necessarily in last position — with pairwise-distinct
block handles. -/
theorem FuncDef_term_shape {f : FuncDef} {ctx : Context} {u : Unit}
    {ctx' : Context}
    (h : FuncDef.generate_ir f ctx = .ok u ctx')
    (hcur : ctx.current_bb = none)
    (hfresh : ctx.program.funcs.lookup ctx.program.nextFunc = none) :
    ∃ fdF, ctx'.program.funcs.lookup ctx.program.nextFunc = some fdF
      ∧ (∀ p ∈ fdF.blocks, TermOk fdF p.2)
      ∧ (fdF.blocks.map Prod.fst).Nodup := by
  unfold FuncDef.generate_ir at h
  obtain ⟨func_params, c1, hgp, h1⟩ := bind_ok_inv h
  have hc1 := get_func_param_spec f.params hgp
  rw [hc1] at h1
  obtain ⟨k, c2, hnf, h2⟩ := bind_ok_inv h1
  rcases hbp : buildParamVals func_params ctx.next_value_id 0 with ⟨vs, ns, ps⟩
  unfold mNewFunc at hnf
  rw [hbp] at hnf
  simp only [MRes.ok.injEq] at hnf
  obtain ⟨hk, hc2⟩ := hnf
  subst hk
  obtain ⟨u3, c3, hins, h3⟩ := bind_ok_inv h2
  unfold mInsertFuncTable at hins
  simp only [MRes.ok.injEq] at hins
  obtain ⟨hu3, hc3⟩ := hins
  obtain ⟨u4, c4, hsf, h4⟩ := bind_ok_inv h3
  unfold mSetFunc at hsf
  simp only [MRes.ok.injEq] at hsf
  obtain ⟨hu4, hc4⟩ := hsf
  obtain ⟨store_bb, c5, hnbb, h5⟩ := bind_ok_inv h4
  obtain ⟨u6, c6, hsin, h6⟩ := bind_ok_inv h5
  obtain ⟨u7, c7, habb, h7⟩ := bind_ok_inv h6
  obtain ⟨params, c8, hps, h8⟩ := bind_ok_inv h7
  obtain ⟨hc8, fdps, hfdps, hpseq⟩ := mFuncParams_spec hps
  subst hc8
  obtain ⟨u9, c9, hploop, h9⟩ := bind_ok_inv h8
  obtain ⟨uB, cB, hbody, hB⟩ := bind_ok_inv h9
  obtain ⟨uC, cC, hsout, hC⟩ := bind_ok_inv hB
  have hcCeq := mScopeOut_spec hsout
  unfold mSetFunc at hC
  simp only [MRes.ok.injEq] at hC
  obtain ⟨huC, hctx'⟩ := hC
  have hfuncs4 : c4.program.funcs
      = ctx.program.funcs ++ [(ctx.program.nextFunc,
          { name := "@" ++ f.name, params := ps, ret_ty := f.ret_type.into,
            vals := vs, names := ns, blocks := [], nextBB := 0 })] := by
    rw [← hc4]
    show c3.program.funcs = _
    rw [← hc3]
    show c2.program.funcs = _
    rw [← hc2]
  have hfunc4 : c4.func = some ctx.program.nextFunc := by
    rw [← hc4]
  have hnv4 : c4.next_value_id = ctx.next_value_id + func_params.length := by
    rw [← hc4]
    show c3.next_value_id = _
    rw [← hc3]
    show c2.next_value_id = _
    rw [← hc2]
  have hcur4 : c4.current_bb = none := by
    rw [← hc4]
    show c3.current_bb = none
    rw [← hc3]
    show c2.current_bb = none
    rw [← hc2]
    exact hcur
  have hvs : (buildParamVals func_params ctx.next_value_id 0).1 = vs := by
    rw [hbp]
  have hfd4 : FD c4 = some
      { name := "@" ++ f.name, params := ps, ret_ty := f.ret_type.into,
        vals := vs, names := ns, blocks := [], nextBB := 0 } := by
    unfold FD
    rw [hfunc4]
    show c4.program.funcs.lookup ctx.program.nextFunc = _
    rw [hfuncs4, lookup_append, hfresh]
    exact lookup_cons_self _ _ _
  have hwf4 : FDWF
      { name := "@" ++ f.name, params := ps, ret_ty := f.ret_type.into,
        vals := vs, names := ns, blocks := [], nextBB := 0 }
      c4.next_value_id := by
    refine ⟨?_, ?_, ?_, ?_, ?_⟩
    · intro p hp
      rw [hnv4]
      exact buildParamVals_lt func_params ctx.next_value_id 0 p (hvs ▸ hp)
    · intro p hp
      exact absurd hp (List.not_mem_nil _)
    · intro p hp
      exact absurd hp (List.not_mem_nil _)
    · intro p hp
      exact absurd hp (List.not_mem_nil _)
    · exact List.nodup_nil
  have hclt4 : curLt
      { name := "@" ++ f.name, params := ps, ret_ty := f.ret_type.into,
        vals := vs, names := ns, blocks := [], nextBB := 0 }
      c4.current_bb := by
    intro bb hb
    rw [hcur4] at hb
    exact absurd hb (by simp)
  obtain ⟨fd5, hfd5, hsbeq, hcur5, hnv5, hws5, hvl5, hbk5, hnn5, hbe5, hitp5,
      sfb5⟩ := seg_newBB hnbb hfd4 hwf4 hclt4
  have acc5 := sfb5 0 none (Or.inl hcur4)
  obtain ⟨hfd6, sfb6⟩ := seg_ctx_only hfd5 acc5.wf acc5.cur_lt
    (show c6.program.funcs = c5.program.funcs by rw [mScopeInto_spec hsin])
    (by rw [mScopeInto_spec hsin]) (by rw [mScopeInto_spec hsin])
    (by rw [mScopeInto_spec hsin]) (by rw [mScopeInto_spec hsin])
  have acc6 := acc5.strans (sfb6 0 none acc5.cur_evol)
  have hnotin6 : store_bb ∉ fd5.blocks.map Prod.fst := by
    rw [hbk5]
    simp
  obtain ⟨fd7, hfd7, hcur7, hnv7, hws7, hvl7, hbl7, hkkA7, hnn7, hbene7,
      hbeself7, hlkself7, hitp7, sfb7⟩ :=
    seg_addBB habb hfd6 acc6.wf acc6.cur_lt hnotin6
      (by rw [hnn5, hsbeq]; exact Nat.lt_succ_self _)
  have acc7 := acc6.strans (sfb7 0 none acc6.cur_evol (Nat.zero_le _))
  have hcur7n : c8.current_bb = none := by
    rw [hcur7]
    show c6.current_bb = none
    rw [mScopeInto_spec hsin]
    show c5.current_bb = none
    rw [hcur5]
    exact hcur4
  obtain ⟨fd9, hfd9, sf9, hcur9, hbe9⟩ :=
    paramsLoop_wf params store_bb hploop fd7 hfd7 acc7.wf hcur7n hbeself7
  have acc9 := acc7.strans sf9
  obtain ⟨fdB, hfdB, sfB, hoB⟩ :=
    Block_ir_einv f.body c9 uB cB hbody 0 none fd9 hfd9 acc9.wf
      (fun bb hb => absurd (hcur9 ▸ hb) (by simp))
      (fun bb hb => absurd (hcur9 ▸ hb) (by simp))
      (Nat.zero_le _) (Or.inl hcur9)
  have accB := acc9.strans sfB
  have hfuncB : cB.func = some ctx.program.nextFunc :=
    accB.func_eq.trans hfunc4
  have hlkB : cB.program.funcs.lookup ctx.program.nextFunc = some fdB := by
    unfold FD at hfdB
    rw [hfuncB] at hfdB
    exact hfdB
  refine ⟨fdB, ?_, accB.wf.termOk, accB.wf.blocksNodup⟩
  rw [← hctx']
  show cC.program.funcs.lookup ctx.program.nextFunc = some fdB
  rw [hcCeq]
  exact hlkB

/-! ## Claim C1: terminator discipline of the blocks of a lowered function -/

/-- `int main() { return 0; }`. -/
def mainFuncDef : FuncDef :=
  ⟨.Int, "main", [], .mk 1 [.Stmt (.Return (some (numExpr 0)))]⟩

/-- The lowering of `mainFuncDef` from the initial context. -/
def C1run : MRes Unit := FuncDef.generate_ir mainFuncDef Context.initial

/-- The blocks (with their instruction lists) of the function produced by
`C1run`, when the lowering succeeds. -/
def C1blocks : Option (List (BasicBlock × List Value)) :=
  match C1run with
  | .ok _ ctx2 => (ctx2.program.funcs.lookup 0).map FuncData.blocks
  | _ => none

/-- The lowering of `mainFuncDef` from the initial context succeeds. -/
theorem C1run_ok_shape :
    (match C1run with
      | .ok _ _ => true
      | _ => false) = true := by
  simp [C1run, FuncDef.generate_ir, get_func_param, mNewFunc,
    buildParamVals, mInsertFuncTable, mSetFunc, ctxNewBB, mScopeInto, ctxAddBB,
    mFuncParams, Context.func_data, paramsLoop, Block.generate_ir,
    genBlockItems, Stmt.generate_ir, Return.generate_ir, mEvalExpr, numExpr,
    numLOr, numLAnd, numEq, numRel, numAdd, numMul, numUnary, numPrimary,
    Expr.eval, LOrExpr.eval, LAndExpr.eval, EqExpr.eval, RelExpr.eval,
    AddExpr.eval, MulExpr.eval, UnaryExpr.eval, PrimaryExpr.eval, Int.eval,
    ctxNewValue, Context.computeTy, mGetBB, Context.get_bb, ctxAddInst,
    setCurrentBB, mScopeOut, Scope.go_into_scoop, Scope.go_out_scoop,
    Scope.global, FuncData.add_bb, FuncData.add_inst, assocUpdate, mbind_apply,
    mpure_apply, Context.initial, List.lookup, FuncType.into, mainFuncDef,
    Context.setFD, Block.id, Block.items]

/-- C1 (counterexample): the claim says every basic block emitted into a
lowered function has *exactly one* terminating instruction.  Lowering
`int main() { return 0; }` from the initial context emits three blocks:
the synthetic parameter block `0` and the trailing block `2` opened by the
block lowering both contain *no* instructions at all — in particular no
terminator — so only block `1` (holding the `ret`) has one. -/
theorem C1_counterexample :
    C1blocks = some [(0, []), (1, [1]), (2, [])] := by
  simp [C1blocks, C1run, FuncDef.generate_ir, get_func_param, mNewFunc,
    buildParamVals, mInsertFuncTable, mSetFunc, ctxNewBB, mScopeInto, ctxAddBB,
    mFuncParams, Context.func_data, paramsLoop, Block.generate_ir,
    genBlockItems, Stmt.generate_ir, Return.generate_ir, mEvalExpr, numExpr,
    numLOr, numLAnd, numEq, numRel, numAdd, numMul, numUnary, numPrimary,
    Expr.eval, LOrExpr.eval, LAndExpr.eval, EqExpr.eval, RelExpr.eval,
    AddExpr.eval, MulExpr.eval, UnaryExpr.eval, PrimaryExpr.eval, Int.eval,
    ctxNewValue, Context.computeTy, mGetBB, Context.get_bb, ctxAddInst,
    setCurrentBB, mScopeOut, Scope.go_into_scoop, Scope.go_out_scoop,
    Scope.global, FuncData.add_bb, FuncData.add_inst, assocUpdate, mbind_apply,
    mpure_apply, Context.initial, List.lookup, FuncType.into, mainFuncDef,
    Context.setFD, Block.id, Block.items]

/-- C1 (amended): lowering a function definition (from a state with no open
block and a fresh function handle) produces a function in which *no
instruction follows a terminator*: in every emitted block every instruction
except possibly the last is a non-terminator — so each block holds at most
one terminating instruction, necessarily in last position — and the block
handles are pairwise distinct.  Blocks are NOT guaranteed exactly one
terminator: the entry parameter block and the trailing block of a body may
hold none (see the counterexample). -/
theorem C1_no_inst_after_terminator {f : FuncDef} {ctx : Context} {u : Unit}
    {ctx' : Context}
    (h : FuncDef.generate_ir f ctx = .ok u ctx')
    (hcur : ctx.current_bb = none)
    (hfresh : ctx.program.funcs.lookup ctx.program.nextFunc = none) :
    ∃ fdF, ctx'.program.funcs.lookup ctx.program.nextFunc = some fdF
      ∧ (∀ p ∈ fdF.blocks, ∀ v ∈ p.2.dropLast, fdF.inst_is_term v = false)
      ∧ (fdF.blocks.map Prod.fst).Nodup :=
  FuncDef_term_shape h hcur hfresh

/-- C1 (witness): the amended theorem applied to the lowering of
`int main() { return 0; }` from the initial context. -/
theorem C1_no_inst_after_terminator_witness :
    Context.initial.current_bb = none
      ∧ Context.initial.program.funcs.lookup Context.initial.program.nextFunc
          = none
      ∧ ∃ u2 ctx2, FuncDef.generate_ir mainFuncDef Context.initial = .ok u2 ctx2
          ∧ ∃ fdF, ctx2.program.funcs.lookup Context.initial.program.nextFunc
                = some fdF
              ∧ ∀ p ∈ fdF.blocks, ∀ v ∈ p.2.dropLast,
                  fdF.inst_is_term v = false := by
  refine ⟨rfl, rfl, ?_⟩
  cases hres : FuncDef.generate_ir mainFuncDef Context.initial with
  | ok u2 ctx2 =>
    obtain ⟨fdF, h1, h2, h3⟩ := C1_no_inst_after_terminator hres rfl rfl
    exact ⟨u2, ctx2, rfl, fdF, h1, h2⟩
  | err e =>
    have hb := C1run_ok_shape
    unfold C1run at hb
    rw [hres] at hb
    exact absurd hb (by simp)
  | fatal k =>
    have hb := C1run_ok_shape
    unfold C1run at hb
    rw [hres] at hb
    exact absurd hb (by simp)

/-! ## Claim C6: early stop in block lowering and the fresh exit block -/

/-- Once the item loop of `Block::generate_ir` reaches a
return/break/continue, the rest of the item list is irrelevant: lowering is
*the same function* as for the block truncated right after the stopping
item, so no instruction for any later statement or declaration is ever
emitted. -/
theorem genBlockItems_early_stop (stop : Stmt)
    (hstop : (∃ r, stop = .Return r) ∨ (∃ b, stop = .Break b)
      ∨ (∃ cn, stop = .Continue cn)) :
    ∀ (pre rest : List BlockItem),
      genBlockItems (pre ++ .Stmt stop :: rest)
        = genBlockItems (pre ++ [.Stmt stop]) := by
  intro pre
  induction pre with
  | nil =>
    intro rest
    rcases hstop with ⟨r, h⟩ | ⟨b, h⟩ | ⟨cn, h⟩ <;> subst h <;>
      simp only [List.nil_append, genBlockItems]
  | cons it pre' ih =>
    intro rest
    cases it with
    | Decl d =>
      simp only [List.cons_append, genBlockItems, ih]
    | Stmt s =>
      cases s <;> simp only [List.cons_append, genBlockItems, ih]

/-- `Block::generate_ir` always leaves a freshly allocated, empty (hence
open) basic block as the current block on exit. -/
theorem block_exits_fresh_open {id : Nat} {items : List BlockItem}
    {c : Context} {u : Unit} {c' : Context} {fd : FuncData}
    (h : Block.generate_ir (.mk id items) c = .ok u c')
    (hfd : FD c = some fd) (hwf : FDWF fd c.next_value_id)
    (hopen : curOpen fd c.current_bb) (hclt : curLt fd c.current_bb) :
    ∃ fd' bb2, FD c' = some fd' ∧ c'.current_bb = some bb2
      ∧ fd'.blocks.lookup bb2 = some []
      ∧ bb2 ∉ fd.blocks.map Prod.fst := by
  simp only [Block.generate_ir] at h
  obtain ⟨bb, c1, hnb1, h1⟩ := bind_ok_inv h
  obtain ⟨u2, c2, hab1, h2⟩ := bind_ok_inv h1
  obtain ⟨u3, c3, hsc1, h3⟩ := bind_ok_inv h2
  obtain ⟨u4, c4, hitems, h4⟩ := bind_ok_inv h3
  obtain ⟨bb2, c5, hnb2, h5⟩ := bind_ok_inv h4
  obtain ⟨u6, c6, hab2, h6⟩ := bind_ok_inv h5
  obtain ⟨fd1, hfd1, hbbeq, hcur1, hnv1, hws1, hvl1, hbk1, hnn1, hbe1,
      hitp1, sfb1⟩ := seg_newBB hnb1 hfd hwf hclt
  have acc1 := sfb1 0 c.current_bb (Or.inl rfl)
  have hnotin1 : bb ∉ fd1.blocks.map Prod.fst := by
    rw [hbk1, hbbeq]
    intro hmem
    obtain ⟨p, hp, hpe⟩ := List.mem_map.mp hmem
    have hpl := hwf.blocksLt p hp
    rw [hpe] at hpl
    exact Nat.lt_irrefl _ hpl
  obtain ⟨fd2, hfd2, hcur2, hnv2, hws2, hvl2, hbl2, hkkA2, hnn2, hbene2,
      hbeself2, hlkself2, hitp2, sfb2⟩ :=
    seg_addBB hab1 hfd1 acc1.wf acc1.cur_lt hnotin1
      (by rw [hnn1, hbbeq]; exact Nat.lt_succ_self _)
  have acc2 := acc1.strans (sfb2 0 c.current_bb acc1.cur_evol (Nat.zero_le _))
  obtain ⟨hfd3, hcur3, hnv3, hws3, sfb3⟩ :=
    seg_setCur hsc1 hfd2 acc2.wf
      (by rw [hnn2, hnn1, hbbeq]; exact Nat.lt_succ_self _)
  have acc3 := acc2.strans (sfb3 0 c.current_bb (Nat.zero_le _))
  have ho3 : curOpen fd2 c3.current_bb := by
    intro b hb
    rw [hcur3] at hb
    injection hb with hb
    subst hb
    exact hbeself2
  obtain ⟨fd4, hfd4, acc4⟩ := chainW acc3 hfd3 ho3 (Nat.zero_le _)
    (genBlockItems_winv items c3 u4 c4 hitems)
  obtain ⟨fd5, hfd5, hbb2eq, hcur5, hnv5, hws5, hvl5, hbk5, hnn5, hbe5,
      hitp5, sfb5⟩ := seg_newBB hnb2 hfd4 acc4.wf acc4.cur_lt
  have acc5 := acc4.strans (sfb5 0 c.current_bb acc4.cur_evol)
  have hnotin5 : bb2 ∉ fd5.blocks.map Prod.fst := by
    rw [hbk5, hbb2eq]
    intro hmem
    obtain ⟨p, hp, hpe⟩ := List.mem_map.mp hmem
    have hpl := acc4.wf.blocksLt p hp
    rw [hpe] at hpl
    exact Nat.lt_irrefl _ hpl
  obtain ⟨fd6, hfd6, hcur6, hnv6, hws6, hvl6, hbl6, hkkA6, hnn6, hbene6,
      hbeself6, hlkself6, hitp6, sfb6⟩ :=
    seg_addBB hab2 hfd5 acc5.wf acc5.cur_lt hnotin5
      (by rw [hnn5, hbb2eq]; exact Nat.lt_succ_self _)
  have acc6 := acc5.strans (sfb6 0 c.current_bb acc5.cur_evol (Nat.zero_le _))
  obtain ⟨hfd7, hcur7, hnv7, hws7, sfb7⟩ :=
    seg_setCur h6 hfd6 acc6.wf
      (by rw [hnn6, hnn5, hbb2eq]; exact Nat.lt_succ_self _)
  refine ⟨fd6, bb2, hfd7, hcur7, hlkself6, ?_⟩
  intro hmem
  obtain ⟨p, hp, hpe⟩ := List.mem_map.mp hmem
  have hpl := hwf.blocksLt p hp
  rw [hpe, hbb2eq] at hpl
  exact absurd hpl (Nat.not_lt.mpr acc4.bb_le)

/-- An empty function under lowering: the witness context for C6. -/
def C6fd : FuncData :=
  { name := "@f", params := [], ret_ty := .unit, vals := [], names := [],
    blocks := [], nextBB := 0 }

def C6ctx : Context :=
  ⟨⟨[], [], [(0, C6fd)], 1⟩, some 0, Scope.global, [], none, [], 0, 0⟩

/-- Lowering an empty block from `C6ctx` succeeds. -/
theorem C6run_ok_shape :
    (match Block.generate_ir (.mk 1 []) C6ctx with
      | .ok _ _ => true
      | _ => false) = true := by
  simp [C6ctx, C6fd, Block.generate_ir, genBlockItems, ctxNewBB, ctxAddBB,
    setCurrentBB, Context.func_data, Context.setFD, FuncData.add_bb,
    assocUpdate, mbind_apply, mpure_apply, List.lookup]

/-- C6 (confirmed): (1) once the item loop of `Block::generate_ir` reaches
a return, break or continue item, lowering of that block is *the same
function* as for the block truncated right after that item — no
instruction for any later statement or declaration of the block is
emitted; (2) block lowering always exits with the current block set to a
freshly allocated basic block that did not exist on entry and is empty —
hence open — even when every statement terminated early. -/
theorem C6_block_early_stop :
    (∀ (stop : Stmt),
        ((∃ r, stop = .Return r) ∨ (∃ b, stop = .Break b)
          ∨ (∃ cn, stop = .Continue cn)) →
        ∀ (pre rest : List BlockItem),
          genBlockItems (pre ++ .Stmt stop :: rest)
            = genBlockItems (pre ++ [.Stmt stop]))
      ∧ (∀ (id : Nat) (items : List BlockItem) (c : Context) (u : Unit)
            (c' : Context) (fd : FuncData),
          Block.generate_ir (.mk id items) c = .ok u c' →
          FD c = some fd → FDWF fd c.next_value_id →
          curOpen fd c.current_bb → curLt fd c.current_bb →
          ∃ fd' bb2, FD c' = some fd' ∧ c'.current_bb = some bb2
            ∧ fd'.blocks.lookup bb2 = some []
            ∧ bb2 ∉ fd.blocks.map Prod.fst) :=
  ⟨genBlockItems_early_stop,
   fun _ _ _ _ _ _ h hfd hwf ho hclt =>
     block_exits_fresh_open h hfd hwf ho hclt⟩

/-- C6 (witness): the early-stop equation at `{ return; ; }` and the
fresh-exit-block property for an empty block lowered from `C6ctx`. -/
theorem C6_block_early_stop_witness :
    genBlockItems ([] ++ .Stmt (.Return none) :: [.Stmt .Empty])
        = genBlockItems ([] ++ [.Stmt (.Return none)])
      ∧ ∃ u2 c2, Block.generate_ir (.mk 1 []) C6ctx = .ok u2 c2
          ∧ ∃ fd' bb2, FD c2 = some fd' ∧ c2.current_bb = some bb2
              ∧ fd'.blocks.lookup bb2 = some []
              ∧ bb2 ∉ C6fd.blocks.map Prod.fst := by
  refine ⟨C6_block_early_stop.1 (.Return none) (Or.inl ⟨none, rfl⟩)
    [] [.Stmt .Empty], ?_⟩
  cases hres : Block.generate_ir (.mk 1 []) C6ctx with
  | ok u2 c2 =>
    obtain ⟨fd', bb2, h1, h2, h3, h4⟩ :=
      C6_block_early_stop.2 1 [] C6ctx u2 c2 C6fd hres rfl
        ⟨fun p hp => absurd hp (List.not_mem_nil _),
         fun p hp => absurd hp (List.not_mem_nil _),
         fun p hp => absurd hp (List.not_mem_nil _),
         fun p hp => absurd hp (List.not_mem_nil _), List.nodup_nil⟩
        (fun bb hb => absurd hb (by simp [C6ctx]))
        (fun bb hb => absurd hb (by simp [C6ctx]))
    exact ⟨u2, c2, rfl, fd', bb2, h1, h2, h3, h4⟩
  | err e =>
    have hb := C6run_ok_shape
    rw [hres] at hb
    exact absurd hb (by simp)
  | fatal k =>
    have hb := C6run_ok_shape
    rw [hres] at hb
    exact absurd hb (by simp)

/-! ## Claim C7: loop-stack discipline and the guarded back-edge of While -/

/-- C7 (confirmed): lowering `while (cond) body` factorizes as follows.
The pair `(start_bb, end_bb)` is pushed onto the loop stack *before* the
body is lowered (the body runs under a stack topped by exactly that
frame), and the stack is popped as the very last step, restoring the entry
stack.  After the body, a jump targeting the start block is created; if
the body's exit block `body_bb_end` is not yet terminated the jump is
appended to it, and if it is already terminated a fresh block is allocated
and registered and the back-edge jump is placed there instead. -/
theorem C7_loop_stack_and_backedge {cond : Expr} {body : Stmt} {c : Context}
    {u : Unit} {c' : Context} {fd : FuncData}
    (h0 : While.generate_ir (.mk cond body) c = .ok u c')
    (hfd : FD c = some fd) (hwf : FDWF fd c.next_value_id)
    (hopen : curOpen fd c.current_bb) (hclt : curLt fd c.current_bb) :
    ∃ (start_bb end_bb body_bb : BasicBlock) (cPush cSet cBody cJ aH : Context)
      (uP uS uB2 uH : Unit) (body_bb_end : BasicBlock) (jump_start : Value)
      (ended : Bool) (cPre : Context),
      ctxAddWhileInfo start_bb end_bb cPre = .ok uP cPush
      ∧ cPush.while_stack = ⟨start_bb, end_bb⟩ :: c.while_stack
      ∧ setCurrentBB body_bb cPush = .ok uS cSet
      ∧ body.generate_ir cSet = .ok uB2 cBody
      ∧ cBody.while_stack = ⟨start_bb, end_bb⟩ :: c.while_stack
      ∧ cBody.current_bb = some body_bb_end
      ∧ ctxNewValue (.jump start_bb) cBody = .ok jump_start cJ
      ∧ (∃ fdJ, FD cJ = some fdJ ∧ ended = fdJ.block_ended_b body_bb_end)
      ∧ ((ended = false ∧ ctxAddInst body_bb_end jump_start cJ = .ok uH aH)
         ∨ (ended = true ∧ ∃ bbe2 aX1 aX2 uX1 uX2,
              ctxNewBB cJ = .ok bbe2 aX1
              ∧ ctxAddBB bbe2 aX1 = .ok uX1 aX2
              ∧ ctxAddInst bbe2 jump_start aX2 = .ok uX2 aH))
      ∧ (∃ aI aJ uI uJ, ctxAddBB end_bb aH = .ok uI aI
           ∧ setCurrentBB end_bb aI = .ok uJ aJ
           ∧ ctxPopWhileInfo aJ = .ok u c')
      ∧ c'.while_stack = c.while_stack := by
    simp only [While.generate_ir] at h0
    obtain ⟨body_bb, a1, hnb1, h1⟩ := bind_ok_inv h0
    obtain ⟨end_bb, a2, hnb2, h2⟩ := bind_ok_inv h1
    obtain ⟨start_bb, a3, hnb3, h3⟩ := bind_ok_inv h2
    obtain ⟨u4, a4, hab1, h4⟩ := bind_ok_inv h3
    obtain ⟨u5, a5, hsc1, h5⟩ := bind_ok_inv h4
    obtain ⟨cond_value, a6, hcond, h6⟩ := bind_ok_inv h5
    obtain ⟨start_branch_bb, a7, hgbb, h7⟩ := bind_ok_inv h6
    obtain ⟨ha7, hcbsb⟩ := mGetBB_spec hgbb
    subst ha7
    obtain ⟨branch, a8, hbrv, h8⟩ := bind_ok_inv h7
    obtain ⟨u9, a9, haddbr, h9⟩ := bind_ok_inv h8
    obtain ⟨uA, aA, hab2, hA⟩ := bind_ok_inv h9
    obtain ⟨uB, aB, hpush, hB⟩ := bind_ok_inv hA
    obtain ⟨uC, aC, hsc2, hC⟩ := bind_ok_inv hB
    obtain ⟨uD, aD, hbody, hD⟩ := bind_ok_inv hC
    obtain ⟨body_bb_end, aE, hgbb2, hE⟩ := bind_ok_inv hD
    obtain ⟨haE, hcbbe⟩ := mGetBB_spec hgbb2
    subst haE
    obtain ⟨jump_start, aF, hjmp, hF⟩ := bind_ok_inv hE
    obtain ⟨ended, aG, hbe0, hG⟩ := bind_ok_inv hF
    obtain ⟨haG, hexX⟩ := ctxBlockEnded_spec hbe0
    subst haG
    obtain ⟨fdX, hfdX, hendedX⟩ := hexX
    clear h0 h1 h2 h3 h4 h5 h6 h7 h8 h9 hA hB hC hD hE hF
    obtain ⟨fd1, hfd1, hbbeq, hcur1, hnv1, hws1, hvl1, hbk1, hnn1, hbe1,
        hitp1, sfb1⟩ := seg_newBB hnb1 hfd hwf hclt
    have acc1 := sfb1 0 c.current_bb (Or.inl rfl)
    obtain ⟨fd2, hfd2, hendeq, hcur2, hnv2, hws2, hvl2, hbk2, hnn2, hbe2,
        hitp2, sfb2⟩ := seg_newBB hnb2 hfd1 acc1.wf acc1.cur_lt
    have acc2 := acc1.strans (sfb2 0 c.current_bb acc1.cur_evol)
    obtain ⟨fd3, hfd3, hsteq, hcur3, hnv3, hws3, hvl3, hbk3, hnn3, hbe3,
        hitp3, sfb3⟩ := seg_newBB hnb3 hfd2 acc2.wf acc2.cur_lt
    have acc3 := acc2.strans (sfb3 0 c.current_bb acc2.cur_evol)
    have hEgtB : body_bb < end_bb := by
      rw [hendeq, hnn1, hbbeq]
      exact Nat.lt_succ_self _
    have hSgtE : end_bb < start_bb := by
      rw [hsteq, hnn2, hendeq]
      exact Nat.lt_succ_self _
    have hnotinS : start_bb ∉ fd3.blocks.map Prod.fst := by
      rw [hbk3, hbk2, hbk1, hsteq, hnn2, hnn1]
      intro hmem
      obtain ⟨p, hp, hpe⟩ := List.mem_map.mp hmem
      have hpl := hwf.blocksLt p hp
      rw [hpe] at hpl
      exact absurd hpl (Nat.not_lt.mpr (le_trans (Nat.le_succ _) (Nat.le_succ _)))
    have hnotinB3 : body_bb ∉ fd3.blocks.map Prod.fst := by
      rw [hbk3, hbk2, hbk1, hbbeq]
      intro hmem
      obtain ⟨p, hp, hpe⟩ := List.mem_map.mp hmem
      have hpl := hwf.blocksLt p hp
      rw [hpe] at hpl
      exact Nat.lt_irrefl _ hpl
    have hnotinE3 : end_bb ∉ fd3.blocks.map Prod.fst := by
      rw [hbk3, hbk2, hbk1, hendeq, hnn1]
      intro hmem
      obtain ⟨p, hp, hpe⟩ := List.mem_map.mp hmem
      have hpl := hwf.blocksLt p hp
      rw [hpe] at hpl
      exact absurd hpl (Nat.not_lt.mpr (Nat.le_succ _))
    obtain ⟨fd4, hfd4, hcur4, hnv4, hws4, hvl4, hbl4, hkkA4, hnn4, hbene4,
        hbeself4, hlkself4, hitp4, sfb4⟩ :=
      seg_addBB hab1 hfd3 acc3.wf acc3.cur_lt hnotinS
        (by rw [hnn3, hsteq]; exact Nat.lt_succ_self _)
    have hnbS : 0 ≤ start_bb := by
      rw [hsteq, hnn2, hnn1]
      exact le_trans (Nat.zero_le _) (le_trans (Nat.le_succ _) (Nat.le_succ _))
    have acc4 := acc3.strans (sfb4 0 c.current_bb acc3.cur_evol hnbS)
    have hnotinB4 : body_bb ∉ fd4.blocks.map Prod.fst := by
      rw [hkkA4]
      intro hmem
      rcases List.mem_append.mp hmem with hm | hm
      · exact hnotinB3 hm
      · simp only [List.mem_singleton] at hm
        exact absurd hm (Nat.ne_of_lt (lt_trans hEgtB hSgtE))
    have hnotinE4 : end_bb ∉ fd4.blocks.map Prod.fst := by
      rw [hkkA4]
      intro hmem
      rcases List.mem_append.mp hmem with hm | hm
      · exact hnotinE3 hm
      · simp only [List.mem_singleton] at hm
        exact absurd hm (Nat.ne_of_lt hSgtE)
    obtain ⟨hfd5, hcur5, hnv5, hws5, sfb5⟩ :=
      seg_setCur hsc1 hfd4 acc4.wf
        (by rw [hnn4, hnn3, hsteq]; exact Nat.lt_succ_self _)
    have acc5 := acc4.strans (sfb5 0 c.current_bb hnbS)
    have ho5 : curOpen fd4 a5.current_bb := by
      intro b hb
      rw [hcur5] at hb
      injection hb with hb
      subst hb
      exact hbeself4
    obtain ⟨fd6, hfd6, acc6, ho6⟩ := chainE acc5 hfd5 ho5 (Nat.zero_le _)
      (Expr_ir_einv cond a5 cond_value a7 hcond)
    obtain ⟨fd6f, hfd6f, sfCf, ho6f⟩ :=
      (Expr_ir_einv cond a5 cond_value a7 hcond) fd4.nextBB (some start_bb)
        fd4 hfd5 acc5.wf ho5 acc5.cur_lt (le_refl _) (Or.inl hcur5)
    rw [hfd6] at hfd6f
    injection hfd6f with hfd6f
    subst hfd6f
    have hltB4 : body_bb < fd4.nextBB := by
      rw [hnn4, hnn3, hnn2, hnn1, hbbeq]
      exact Nat.lt_succ_of_lt (Nat.lt_succ_of_lt (Nat.lt_succ_self _))
    have hltE4 : end_bb < fd4.nextBB := by
      rw [hnn4, hnn3, hnn2, hendeq]
      exact Nat.lt_succ_of_lt (Nat.lt_succ_self _)
    have hnotinB6 : body_bb ∉ fd6.blocks.map Prod.fst :=
      keys_fresh sfCf hltB4 hnotinB4
    have hnotinE6 : end_bb ∉ fd6.blocks.map Prod.fst :=
      keys_fresh sfCf hltE4 hnotinE4
    have hobSB : fd6.block_ended_b start_branch_bb = false := ho6 _ hcbsb
    have hSBres := curAt_resolve acc6.cur_evol hcbsb
    obtain ⟨fd7, hfd7, hbrveq, hcur7, hnv7, hws7, hvl7, hbk7, hnn7, hbe7,
        hit7, sfb7⟩ := seg_newValue hbrv hfd6 acc6.wf acc6.cur_lt
    have acc7 := acc6.strans (sfb7 0 c.current_bb acc6.cur_evol)
    have hobSB7 := (hbe7 start_branch_bb).trans hobSB
    obtain ⟨fd8, hfd8, hcur8, hnv8, hws8, hvl8, hkk8, hnn8, hlkne8, hlkself8,
        hbene8, hbeself8, hitp8, sfb8⟩ :=
      seg_addInst haddbr hfd7 acc7.wf acc7.cur_lt hobSB7
        (by rw [hnv7, hbrveq]; exact Nat.lt_succ_self _)
    have acc8 := acc7.strans (sfb8 0 c.current_bb acc7.cur_evol hSBres)
    have hnotinB8 : body_bb ∉ fd8.blocks.map Prod.fst := by
      rw [hkk8, hbk7]
      exact hnotinB6
    have hnotinE8 : end_bb ∉ fd8.blocks.map Prod.fst := by
      rw [hkk8, hbk7]
      exact hnotinE6
    obtain ⟨fd9, hfd9, hcur9, hnv9, hws9, hvl9, hbl9, hkkA9, hnn9, hbene9,
        hbeself9, hlkself9, hitp9, sfb9⟩ :=
      seg_addBB hab2 hfd8 acc8.wf acc8.cur_lt hnotinB8
        (by rw [hnn8, hnn7]; exact lt_of_lt_of_le hltB4 sfCf.bb_le)
    have hnbB : 0 ≤ body_bb := by
      rw [hbbeq]
      exact (Nat.zero_le _)
    have acc9 := acc8.strans (sfb9 0 c.current_bb acc8.cur_evol hnbB)
    have hnotinE9 : end_bb ∉ fd9.blocks.map Prod.fst := by
      rw [hkkA9]
      intro hmem
      rcases List.mem_append.mp hmem with hm | hm
      · exact hnotinE8 hm
      · simp only [List.mem_singleton] at hm
        exact absurd hm (Nat.ne_of_lt hEgtB).symm
    obtain ⟨hfdP, hcurP, hnvP, hwsP⟩ := FD_push hpush
    have hfdB9 : FD aB = some fd9 := by
      rw [hfdP]
      exact hfd9
    have hwfB : FDWF fd9 aB.next_value_id := by
      rw [hnvP]
      exact acc9.wf
    obtain ⟨hfdM1, hcurM1, hnvM1, hwsM1, sfbM1⟩ :=
      seg_setCur hsc2 hfdB9 hwfB
        (by rw [hnn9, hnn8, hnn7]; exact lt_of_lt_of_le hltB4 sfCf.bb_le)
    have accM1 := sfbM1 0 c.current_bb hnbB
    have hoM1 : curOpen fd9 aC.current_bb := by
      intro b hb
      rw [hcurM1] at hb
      injection hb with hb
      subst hb
      exact hbeself9
    have hnb9 : 0 ≤ fd9.nextBB := le_trans (Nat.zero_le _) acc9.bb_le
    obtain ⟨fd10, hfd10, accM2⟩ := chainW accM1 hfdM1 hoM1 hnb9
      (Stmt_ir_winv body aC uD aE hbody)
    obtain ⟨fd10f, hfd10f, sfBf⟩ :=
      (Stmt_ir_winv body aC uD aE hbody) fd9.nextBB (some body_bb) fd9
        hfdM1 accM1.wf hoM1 accM1.cur_lt (le_refl _) (Or.inl hcurM1)
    rw [hfd10] at hfd10f
    injection hfd10f with hfd10f
    subst hfd10f
    have hltE9 : end_bb < fd9.nextBB := by
      rw [hnn9, hnn8, hnn7]
      exact lt_of_lt_of_le hltE4 sfCf.bb_le
    have hnotinE10 : end_bb ∉ fd10.blocks.map Prod.fst :=
      keys_fresh sfBf hltE9 hnotinE9
    have hBEres := curAt_resolve accM2.cur_evol hcbbe
    obtain ⟨fd11, hfd11, hjeq, hcur11, hnv11, hws11, hvl11, hbk11, hnn11,
        hbe11, hit11, sfb11⟩ := seg_newValue hjmp hfd10 accM2.wf accM2.cur_lt
    have accM3 := accM2.strans (sfb11 0 c.current_bb accM2.cur_evol)
    have hnotinE11 : end_bb ∉ fd11.blocks.map Prod.fst := by
      rw [hbk11]
      exact hnotinE10
    rw [hfd11] at hfdX
    injection hfdX with hfdX
    subst hfdX
    have hwsA : aA.while_stack = c.while_stack := acc9.ws_eq
    obtain ⟨hfdP, hcurP, hnvP, hwsP⟩ := FD_push hpush
    have hwsPush : aB.while_stack = ⟨start_bb, end_bb⟩ :: c.while_stack := by
      rw [hwsP, hwsA]
    have hwsBody : aE.while_stack = ⟨start_bb, end_bb⟩ :: c.while_stack := by
      rw [accM2.ws_eq]
      exact hwsPush
    have hwsG : aG.while_stack = aE.while_stack := hws11
    cases ended with
    | false =>
      simp only [Bool.not_false, if_true] at hG
      obtain ⟨uH, aH, haddj, hH⟩ := bind_ok_inv hG
      obtain ⟨uI, aI, habE, hI⟩ := bind_ok_inv hH
      obtain ⟨uJ, aJ, hscE, hJ⟩ := bind_ok_inv hI
      obtain ⟨fdx1, hfdx1a, hfdx1b, hfux1, hcux1, hwsH, hnvx1, hscx1, hftx1,
          hothx1⟩ := ctxAddInst_spec haddj
      obtain ⟨fdx2, hfdx2a, hfdx2b, hfux2, hcux2, hwsI, hnvx2, hscx2, hftx2,
          hothx2⟩ := ctxAddBB_spec habE
      have hcsJ := setCurrentBB_spec hscE
      have hpsJ := ctxPopWhileInfo_spec hJ
      have hwsC : c'.while_stack = c.while_stack := by
        rw [hpsJ]
        show aJ.while_stack.tail = c.while_stack
        rw [hcsJ]
        show aI.while_stack.tail = c.while_stack
        rw [hwsI, hwsH, hwsG, hwsBody]
        rfl
      exact ⟨start_bb, end_bb, body_bb, aB, aC, aE, aG, aH, uB, uC, uD, uH,
        body_bb_end, jump_start, false, aA, hpush, hwsPush, hsc2, hbody,
        hwsBody, hcbbe, hjmp, ⟨fd11, hfd11, hendedX⟩, Or.inl ⟨rfl, haddj⟩,
        ⟨aI, aJ, uI, uJ, habE, hscE, hJ⟩, hwsC⟩
    | true =>
      simp only [Bool.not_true, if_false] at hG
      obtain ⟨bbe2, aX1, hnbX, hX1⟩ := bind_ok_inv hG
      obtain ⟨uX2, aX2, habX, hX2⟩ := bind_ok_inv hX1
      obtain ⟨uX3, aX3, haddjX, hX3⟩ := bind_ok_inv hX2
      obtain ⟨uI, aI, habE, hI⟩ := bind_ok_inv hX3
      obtain ⟨uJ, aJ, hscE, hJ⟩ := bind_ok_inv hI
      obtain ⟨fdy0, hfdy0a, hbe2eq, hfdy0b, hfuy0, hcuy0, hwsX1, hnvy0, hscy0,
          hfty0, hothy0⟩ := ctxNewBB_spec hnbX
      obtain ⟨fdy1, hfdy1a, hfdy1b, hfuy1, hcuy1, hwsX2, hnvy1, hscy1, hfty1,
          hothy1⟩ := ctxAddBB_spec habX
      obtain ⟨fdy2, hfdy2a, hfdy2b, hfuy2, hcuy2, hwsH, hnvy2, hscy2, hfty2,
          hothy2⟩ := ctxAddInst_spec haddjX
      obtain ⟨fdy3, hfdy3a, hfdy3b, hfuy3, hcuy3, hwsI, hnvy3, hscy3, hfty3,
          hothy3⟩ := ctxAddBB_spec habE
      have hcsJ := setCurrentBB_spec hscE
      have hpsJ := ctxPopWhileInfo_spec hJ
      have hwsC : c'.while_stack = c.while_stack := by
        rw [hpsJ]
        show aJ.while_stack.tail = c.while_stack
        rw [hcsJ]
        show aI.while_stack.tail = c.while_stack
        rw [hwsI, hwsH, hwsX2, hwsX1, hwsG, hwsBody]
        rfl
      exact ⟨start_bb, end_bb, body_bb, aB, aC, aE, aG, aX3, uB, uC, uD, uX3,
        body_bb_end, jump_start, true, aA, hpush, hwsPush, hsc2, hbody,
        hwsBody, hcbbe, hjmp, ⟨fd11, hfd11, hendedX⟩,
        Or.inr ⟨rfl, bbe2, aX1, aX2, uX2, uX3, hnbX, habX, haddjX⟩,
        ⟨aI, aJ, uI, uJ, habE, hscE, hJ⟩, hwsC⟩

/-- Witness context for C7: an empty function under lowering. -/
def C7fd : FuncData :=
  { name := "@g", params := [], ret_ty := .unit, vals := [], names := [],
    blocks := [], nextBB := 0 }

def C7ctx : Context :=
  ⟨⟨[], [], [(0, C7fd)], 1⟩, some 0, Scope.global, [], none, [], 0, 0⟩

/-- Lowering `while (1) ;` from `C7ctx` succeeds. -/
theorem C7run_ok_shape :
    (match While.generate_ir (.mk (numExpr 1) .Empty) C7ctx with
      | .ok _ _ => true
      | _ => false) = true := by
  simp [C7ctx, C7fd, While.generate_ir, Stmt.generate_ir, Expr.generate_ir,
    LOrExpr.generate_ir, LAndExpr.generate_ir, EqExpr.generate_ir,
    RelExpr.generate_ir, AddExpr.generate_ir, MulExpr.generate_ir,
    UnaryExpr.generate_ir, PrimaryExpr.generate_ir, Int.generate_ir,
    numExpr, numLOr, numLAnd, numEq, numRel, numAdd, numMul, numUnary,
    numPrimary, ctxNewBB, ctxAddBB, setCurrentBB, ctxNewValue,
    Context.computeTy, mGetBB, Context.get_bb, ctxAddInst, ctxAddWhileInfo,
    ctxPopWhileInfo, ctxBlockEnded, FuncData.block_ended_b,
    FuncData.block_insts, Context.func_data, Context.setFD, FuncData.add_bb,
    FuncData.add_inst, assocUpdate, mbind_apply, mpure_apply, List.lookup]

/-- C7 (witness): the factorization applied to `while (1) ;` lowered from
`C7ctx` — the loop frame is pushed before the body and the exit stack
equals the entry stack. -/
theorem C7_loop_stack_and_backedge_witness :
    ∃ u2 c2, While.generate_ir (.mk (numExpr 1) .Empty) C7ctx = .ok u2 c2
      ∧ c2.while_stack = C7ctx.while_stack
      ∧ ∃ (start_bb end_bb : BasicBlock) (cPre cPush : Context) (uP : Unit),
          ctxAddWhileInfo start_bb end_bb cPre = .ok uP cPush
          ∧ cPush.while_stack = ⟨start_bb, end_bb⟩ :: C7ctx.while_stack := by
  cases hres : While.generate_ir (.mk (numExpr 1) .Empty) C7ctx with
  | ok u2 c2 =>
    obtain ⟨sb, eb, bb, cPush, cSet, cBody, cJ, aH, uP, uS, uB2, uH, bbe, js,
        ended, cPre, h1, h2, h3, h4, h5, h6, h7, h8, h9, h10, h11⟩ :=
      C7_loop_stack_and_backedge hres rfl
        ⟨fun p hp => absurd hp (List.not_mem_nil _),
         fun p hp => absurd hp (List.not_mem_nil _),
         fun p hp => absurd hp (List.not_mem_nil _),
         fun p hp => absurd hp (List.not_mem_nil _), List.nodup_nil⟩
        (fun bb hb => absurd hb (by simp [C7ctx]))
        (fun bb hb => absurd hb (by simp [C7ctx]))
    exact ⟨u2, c2, rfl, h11, sb, eb, cPre, cPush, uP, h1, h2⟩
  | err e =>
    have hb := C7run_ok_shape
    rw [hres] at hb
    exact absurd hb (by simp)
  | fatal k =>
    have hb := C7run_ok_shape
    rw [hres] at hb
    exact absurd hb (by simp)
